import Mathlib

/-!
Atari-Go (`go.c`): a shallow embedding and its verified properties.

The C program is embedded as follows.

* A C `int` is a Lean `Int`.  Every `+`, `*` and `++` of the move generator and of the
  move counters is followed by `wrap32` (two's-complement reduction to 32 bits), `/` is
  `Int.tdiv` and `%` is `Int.tmod` (C truncates towards zero).  Sums of a loop offset in
  `{-1,0,1}` and a board coordinate, `height - 1`, `width - 1` and `1 - active` are left
  unwrapped: their operands are at most 1000 in absolute value.
* `char** gameGrid` is a function from row and column to `Char`; an assignment
  `gameGrid[x][y] = t` is a pointwise update.  Where a read is not guarded by the code
  itself (the search loop of `run_game`) the embedding tests the bounds and reports a
  read outside the grid.
* `exit` is an explicit outcome of the function that calls it.
* Recursion and loops of the source that are not bounded by a counter carry a bound
  (`fuel`); reaching it gives `none`, and the theorems state that a result is returned.
* A file is the list of its characters; `fprintf` and `fscanf` with `%d` are the decimal
  printer and reader below.
* `adjacent_space_check` is transcribed twice more: with a ghost counter of the calls
  entered (`adjacent_space_check_calls`) and in state-passing form with the struct `*game`
  in the state (`adjacent_space_check_store`); each is proved to compute what
  `adjacent_space_check` computes.
* `spec_step`, `check_game_over_near` and `closed_form` are written from the words of the
  specification, to be compared with the functions of the source.
-/

namespace AtariGo

/-! ## Machine integers -/

/-- Two's-complement reduction of an integer to the range of a 32-bit `int`. -/
def wrap32 (x : Int) : Int := Int.bmod x 4294967296

/-- The values of a 32-bit `int`. -/
def isInt32 (x : Int) : Prop := -2147483648 ≤ x ∧ x ≤ 2147483647

instance (x : Int) : Decidable (isInt32 x) := by
  unfold isInt32; infer_instance

/-! ## Data model (`struct GameProperties`, `struct MoveAlgorithm`, `struct Player`) -/

/-- The board: `height`, `width` and the grid of tokens. -/
structure GameProperties where
  height : Int
  width : Int
  gameGrid : Int → Int → Char

/-- The variables of the computer move generator. -/
structure MoveAlgorithm where
  ir : Int
  ic : Int
  f : Int
  m : Int
  r : Int
  c : Int
  b : Int
  nextX : Int
  nextY : Int
deriving DecidableEq

/-- A player: type (`HUMAN` or `COMPUTER`), token, move counter, and the generator
variables (the field `variables` of the source, a reserved word here). -/
structure Player where
  type : Int
  token : Char
  move : Int
  vars : MoveAlgorithm
deriving DecidableEq

/-- The array `players` of two players. -/
structure Players where
  p0 : Player
  p1 : Player
deriving DecidableEq

def HUMAN : Int := 1
def COMPUTER : Int := 2

/-- The element `players[i]` (the index is 0 or 1 in every call of the program). -/
def Players.get (players : Players) (i : Int) : Player :=
  if i = 0 then players.p0 else players.p1

/-- The array after `players[i] = p`. -/
def Players.set (players : Players) (i : Int) (p : Player) : Players :=
  if i = 0 then { players with p0 := p } else { players with p1 := p }

/-- The grid after `grid[x][y] = t`. -/
def setCell (grid : Int → Int → Char) (x y : Int) (t : Char) : Int → Int → Char :=
  fun i j => if i = x ∧ j = y then t else grid i j

/-- The cell `(row, col)` lies on the board. -/
def inBounds (game : GameProperties) (row col : Int) : Prop :=
  0 ≤ row ∧ row < game.height ∧ 0 ≤ col ∧ col < game.width

instance (game : GameProperties) (row col : Int) : Decidable (inBounds game row col) := by
  unfold inBounds; infer_instance

/-! ## `valid_move` -/

/-- Source `valid_move`: the point is on the board and holds `'.'`. -/
def valid_move (game : GameProperties) (row col : Int) : Bool :=
  if row > -1 ∧ col > -1 ∧ row < game.height ∧ col < game.width then
    game.gameGrid row col == '.'
  else
    false

/-! ## `initialise_grid` and placing a token -/

/-- Source `initialise_grid`, on the two dimensions already converted by `atoi`. -/
def initialise_grid (height width : Int) : GameProperties :=
  { height := height, width := width, gameGrid := fun _ _ => '.' }

/-- The statement `game->gameGrid[x][y] = token` of `run_game`. -/
def place (game : GameProperties) (x y : Int) (token : Char) : GameProperties :=
  { game with gameGrid := setCell game.gameGrid x y token }

/-! ## The liberty check: `adjacent_space_check`, `any_liberties` -/

/-- The offsets `(i, j)` visited by the two nested loops `for i = -1..1`, `for j = -1..1`
of `adjacent_space_check`, in the order of the source. -/
def window : List (Int × Int) :=
  [(-1, -1), (-1, 0), (-1, 1), (0, -1), (0, 0), (0, 1), (1, -1), (1, 0), (1, 1)]

/-- The state threaded through `adjacent_space_check`: `*anyLiberties` and
`consideredPoints` (`'N'` not yet considered, `'Y'` considered). -/
abbrev Scan := Bool × (Int → Int → Char)

/-- The body of the inner loop of `adjacent_space_check` at the point `(row, col)` for the
offset `ij`; `recurse` is the recursive call.  A `return` inside the loops is a state with
`*anyLiberties == true`, which every later pass leaves as it is. -/
def check_offset (game : GameProperties) (recurse : Scan → Int → Int → Option Scan)
    (row col : Int) (st : Scan) (ij : Int × Int) : Option Scan :=
  if st.1 = true then some st
  else if ij.1 - ij.2 = 1 ∨ ij.2 - ij.1 = 1 then
    if ij.1 + row < 0 ∨ ij.2 + col < 0 then some st
    else if ij.1 + row > game.height - 1 ∨ ij.2 + col > game.width - 1 then some st
    else if game.gameGrid (ij.1 + row) (ij.2 + col) = '.' then some (true, st.2)
    else if game.gameGrid (ij.1 + row) (ij.2 + col) = game.gameGrid row col then
      if st.2 (ij.1 + row) (ij.2 + col) = 'N' then recurse st (ij.1 + row) (ij.2 + col)
      else some st
    else some st
  else some st

/-- Runs the loop body over a list of offsets; `none` when a recursive call gave `none`. -/
def scan_offsets (body : Scan → Int × Int → Option Scan) : List (Int × Int) → Scan → Option Scan
  | [], st => some st
  | ij :: rest, st =>
    match body st ij with
    | none => none
    | some st1 => scan_offsets body rest st1

/-- Source `adjacent_space_check`.  The recursion of the source is bounded here by `fuel`,
the number of nested calls still allowed; `none` means the bound was reached. -/
def adjacent_space_check (game : GameProperties) : Nat → Scan → Int → Int → Option Scan
  | 0, _, _, _ => none
  | fuel + 1, st, row, col =>
    if st.1 = true then some st
    else
      scan_offsets (check_offset game (adjacent_space_check game fuel) row col) window
        (st.1, setCell st.2 row col 'Y')

/-- Source `any_liberties`: a fresh `consideredPoints` grid of `'N'`, then
`adjacent_space_check` from `(row, col)`.  The nesting allowed is the number of cells. -/
def any_liberties (game : GameProperties) (row col : Int) : Option Bool :=
  match adjacent_space_check game (game.height.toNat * game.width.toNat)
      (false, fun _ _ => 'N') row col with
  | none => none
  | some st => some st.1

/-! ### What the liberty check is to compute: groups and liberties -/

/-- The point `q` is one step up, down, left or right of `p`. -/
def orthogonal (p q : Int × Int) : Prop :=
  (q.1 = p.1 ∧ (q.2 = p.2 + 1 ∨ q.2 = p.2 - 1)) ∨ (q.2 = p.2 ∧ (q.1 = p.1 + 1 ∨ q.1 = p.1 - 1))

/-- The point `q` is an orthogonal neighbour of `p` on the board holding the token of `p`. -/
def link (game : GameProperties) (p q : Int × Int) : Prop :=
  orthogonal p q ∧ inBounds game q.1 q.2 ∧ game.gameGrid q.1 q.2 = game.gameGrid p.1 p.2

/-- The point `q` belongs to the group (string) of `p`: the maximal orthogonally connected
set of same-token cells containing `p`. -/
def sameGroup (game : GameProperties) (p q : Int × Int) : Prop :=
  Relation.ReflTransGen (link game) p q

/-- The point `p` has an Empty orthogonal neighbour on the board. -/
def touchesEmpty (game : GameProperties) (p : Int × Int) : Prop :=
  ∃ n : Int × Int, orthogonal p n ∧ inBounds game n.1 n.2 ∧ game.gameGrid n.1 n.2 = '.'

/-- The group of `(row, col)` has a liberty. -/
def groupHasLiberty (game : GameProperties) (row col : Int) : Prop :=
  ∃ q : Int × Int, sameGroup game (row, col) q ∧ touchesEmpty game q

/-- The cells of the board. -/
def cells (game : GameProperties) : Finset (Int × Int) :=
  Finset.Ico 0 game.height ×ˢ Finset.Ico 0 game.width

/-- The number of cells of the board not yet considered. -/
def unconsidered (game : GameProperties) (v : Int → Int → Char) : Nat :=
  ((cells game).filter (fun p => v p.1 p.2 = 'N')).card

/-- Every on-board orthogonal neighbour of `p` is occupied and, when it holds the token of
`p`, has been considered. -/
def closedAt (game : GameProperties) (v : Int → Int → Char) (p : Int × Int) : Prop :=
  ∀ n : Int × Int, orthogonal p n → inBounds game n.1 n.2 →
    game.gameGrid n.1 n.2 ≠ '.'
      ∧ (game.gameGrid n.1 n.2 = game.gameGrid p.1 p.2 → v n.1 n.2 ≠ 'N')

/-- What a call of `adjacent_space_check` with `fuel` nested calls allowed guarantees when
fewer than `fuel + 1` cells are unconsidered: it returns, it only adds considered points,
a liberty it reports is a liberty of the group, and when it reports none every point it
newly considered is closed. -/
def AscOk (game : GameProperties) (fuel : Nat) : Prop :=
  ∀ (v : Int → Int → Char) (row col : Int),
    inBounds game row col → v row col = 'N' → unconsidered game v ≤ fuel →
    ∃ (b : Bool) (v' : Int → Int → Char),
      adjacent_space_check game fuel (false, v) row col = some (b, v')
      ∧ (∀ x y, v x y ≠ 'N' → v' x y ≠ 'N')
      ∧ (b = true → groupHasLiberty game row col)
      ∧ (b = false → v' row col ≠ 'N'
          ∧ ∀ x y, v x y = 'N' → v' x y ≠ 'N' → closedAt game v' (x, y))

/-- The neighbour of `(row, col)` at offset `ij` has been dealt with: if it is an
orthogonal neighbour on the board, it is occupied and, when of the same token, considered. -/
def offsetDone (game : GameProperties) (v : Int → Int → Char) (row col : Int)
    (ij : Int × Int) : Prop :=
  (ij.1 - ij.2 = 1 ∨ ij.2 - ij.1 = 1) → inBounds game (ij.1 + row) (ij.2 + col) →
    game.gameGrid (ij.1 + row) (ij.2 + col) ≠ '.'
      ∧ (game.gameGrid (ij.1 + row) (ij.2 + col) = game.gameGrid row col
          → v (ij.1 + row) (ij.2 + col) ≠ 'N')

/-! ## The move generator: `increment_next_move`, `initialise_player` -/

/-- The counter after `++players[active]->variables->m`. -/
def next_m (v : MoveAlgorithm) : Int := wrap32 (v.m + 1)

/-- The local `n = (b + m / 5 * f) % 1000003` of `increment_next_move`. -/
def next_n (v : MoveAlgorithm) : Int :=
  Int.tmod (wrap32 (v.b + wrap32 (Int.tdiv (next_m v) 5 * v.f))) 1000003

/-- The body of `increment_next_move` on the variables of the active player; the `switch`
on `m % 5` has the cases 0 to 4 and no default. -/
def next_move (game : GameProperties) (v : MoveAlgorithm) : MoveAlgorithm :=
  let m := next_m v
  let n := next_n v
  let k := Int.tmod m 5
  let r :=
    if k = 0 then Int.tdiv n game.width
    else if k = 1 then wrap32 (v.r + 1)
    else if k = 2 then wrap32 (v.r + 2)
    else if k = 3 then wrap32 (v.r + 1)
    else if k = 4 then wrap32 (v.r + 0)
    else v.r
  let c :=
    if k = 0 then Int.tmod n game.width
    else if k = 1 then wrap32 (v.c + 1)
    else if k = 2 then wrap32 (v.c + 1)
    else if k = 3 then wrap32 (v.c + 0)
    else if k = 4 then wrap32 (v.c + 1)
    else v.c
  { v with m := m, r := r, c := c,
           nextX := Int.tmod r game.height, nextY := Int.tmod c game.width }

/-- Source `increment_next_move`: steps the generator of `players[active]`. -/
def increment_next_move (game : GameProperties) (players : Players) (active : Int) : Players :=
  players.set active
    { players.get active with vars := next_move game (players.get active).vars }

/-- The generator variables `initialise_player` gives a player with seeds `ir`, `ic`, `f`. -/
def initial_variables (game : GameProperties) (ir ic f : Int) : MoveAlgorithm :=
  { ir := ir, ic := ic, f := f, m := 0, r := ir, c := ic,
    b := wrap32 (wrap32 (ir * game.width) + ic),
    nextX := Int.tmod ir game.height, nextY := Int.tmod ic game.width }

/-- The player type `initialise_player` derives from the first character of an argument;
any other character leaves the field as it was. -/
def player_type (old : Int) (arg : Char) : Int :=
  if arg = 'h' then HUMAN else if arg = 'c' then COMPUTER else old

/-- Source `initialise_player`; `a1`, `a2` are `argv[1][0]` and `argv[2][0]`. -/
def initialise_player (game : GameProperties) (players : Players) (a1 a2 : Char) : Players :=
  { p0 := { type := player_type players.p0.type a1, token := 'O', move := 0,
            vars := initial_variables game 1 4 29 },
    p1 := { type := player_type players.p1.type a2, token := 'X', move := 0,
            vars := initial_variables game 2 10 17 } }

/-- The variables after `n` calls of `increment_next_move`. -/
def steps (game : GameProperties) (v : MoveAlgorithm) : Nat → MoveAlgorithm
  | 0 => v
  | n + 1 => next_move game (steps game v n)

/-- The players after `n` calls of `increment_next_move` for `players[active]`. -/
def increments (game : GameProperties) (players : Players) (active : Int) : Nat → Players
  | 0 => players
  | n + 1 => increment_next_move game (increments game players active n) active

/-- The generator step as the specification words it (section 4.3), over the integers
with floor division and the non-negative remainder. -/
def spec_step (height width : Int) (v : MoveAlgorithm) : MoveAlgorithm :=
  let m := v.m + 1
  let n := (v.b + (m / 5) * v.f) % 1000003
  let branch := m % 5
  let r :=
    if branch = 0 then n / width
    else if branch = 1 then v.r + 1
    else if branch = 2 then v.r + 2
    else if branch = 3 then v.r + 1
    else if branch = 4 then v.r + 0
    else v.r
  let c :=
    if branch = 0 then n % width
    else if branch = 1 then v.c + 1
    else if branch = 2 then v.c + 1
    else if branch = 3 then v.c + 0
    else if branch = 4 then v.c + 1
    else v.c
  { v with m := m, r := r, c := c, nextX := r % height, nextY := c % width }

/-! ## `check_game_over` -/

/-- How a call that may end the program comes back: it returns, or it has printed
`Player <token> wins` and called `exit(0)`. -/
inductive Outcome where
  | continues : Outcome
  | wins (token : Char) : Outcome
deriving DecidableEq

/-- The cells of the board in the order of the loops `for i < height`, `for j < width`. -/
def scan_order (game : GameProperties) : List (Int × Int) :=
  (List.range game.height.toNat).flatMap
    (fun (i : Nat) => (List.range game.width.toNat).map (fun (j : Nat) => ((i : Int), (j : Int))))

/-- The two loops of `check_game_over` over the cells still to visit: the first cell that
holds `token` and has no liberty ends the program with `winner`. -/
def check_cells (game : GameProperties) (token winner : Char) :
    List (Int × Int) → Option Outcome
  | [] => some Outcome.continues
  | p :: rest =>
    if game.gameGrid p.1 p.2 = token then
      match any_liberties game p.1 p.2 with
      | none => none
      | some false => some (Outcome.wins winner)
      | some true => check_cells game token winner rest
    else check_cells game token winner rest

/-- Source `check_game_over`: `none` only if a liberty check reached its nesting bound. -/
def check_game_over (game : GameProperties) (players : Players) (inactive : Int) :
    Option Outcome :=
  check_cells game (players.get inactive).token (players.get (1 - inactive)).token
    (scan_order game)

/-! ## Text of a snapshot: `fprintf` and `fscanf` with `%d` -/

/-- The decimal digit `d` as a character. -/
def digit_char (d : Nat) : Char := Char.ofNat (48 + d)

/-- The character is a decimal digit. -/
def is_digit (c : Char) : Bool := decide (48 ≤ c.toNat ∧ c.toNat ≤ 57)

/-- The character is white space for `fscanf` (`isspace`). -/
def is_space (c : Char) : Bool :=
  decide (c.toNat = 32 ∨ (9 ≤ c.toNat ∧ c.toNat ≤ 13))

/-- The decimal digits of `n` put in front of `acc`; `fuel` bounds the number of digits. -/
def print_nat_aux : Nat → Nat → List Char → List Char
  | 0, _, acc => acc
  | fuel + 1, n, acc =>
    if n < 10 then digit_char n :: acc
    else print_nat_aux fuel (n / 10) (digit_char (n % 10) :: acc)

/-- The text `%d` prints for a natural number. -/
def print_nat (n : Nat) : List Char := print_nat_aux (n + 1) n []

/-- The text `%d` prints for an `int`. -/
def print_int (x : Int) : List Char :=
  if x < 0 then '-' :: print_nat (-x).toNat else print_nat x.toNat

/-- Drops leading white space. -/
def skip_spaces : List Char → List Char
  | [] => []
  | c :: rest => if is_space c then skip_spaces rest else c :: rest

/-- Reads decimal digits onto the accumulator `acc`; returns the value and what follows. -/
def scan_digits : List Char → Nat → Nat × List Char
  | [], acc => (acc, [])
  | c :: rest, acc =>
    if is_digit c then scan_digits rest (10 * acc + (c.toNat - 48)) else (acc, c :: rest)

/-- Reads a non-empty run of decimal digits. -/
def scan_unsigned : List Char → Option (Nat × List Char)
  | [] => none
  | c :: rest => if is_digit c then some (scan_digits (c :: rest) 0) else none

/-- One `%d` conversion of `fscanf`: white space, an optional sign, digits; the value is
stored in an `int`.  `none` when the conversion fails. -/
def scan_int (s : List Char) : Option (Int × List Char) :=
  match skip_spaces s with
  | [] => none
  | c :: rest =>
    if c = '-' then
      match scan_unsigned rest with
      | none => none
      | some r => some (wrap32 (-(r.1 : Int)), r.2)
    else if c = '+' then
      match scan_unsigned rest with
      | none => none
      | some r => some (wrap32 (r.1 : Int), r.2)
    else
      match scan_unsigned (c :: rest) with
      | none => none
      | some r => some (wrap32 (r.1 : Int), r.2)

/-- `n` conversions `%d` in a row (the format `"%d %d ... %d"`); `none` when fewer than
`n` succeed. -/
def scan_ints : Nat → List Char → Option (List Int × List Char)
  | 0, s => some ([], s)
  | n + 1, s =>
    match scan_int s with
    | none => none
    | some (x, s1) =>
      match scan_ints n s1 with
      | none => none
      | some (xs, s2) => some (x :: xs, s2)

/-- The integers of a header line as `fprintf` writes them with `"%d %d ... %d"`. -/
def print_ints : List Int → List Char
  | [] => []
  | [x] => print_int x
  | x :: y :: rest => print_int x ++ ' ' :: print_ints (y :: rest)

/-- The character is one of the three cell values of a snapshot. -/
def is_token (c : Char) : Bool := decide (c = '.' ∨ c = 'X' ∨ c = 'O')

/-! ## `save` -/

/-- The row `i` of the grid as `save` writes it: `width` characters and a newline. -/
def save_row (game : GameProperties) (i : Int) : List Char :=
  (List.range game.width.toNat).map (fun (j : Nat) => game.gameGrid i (j : Int)) ++ ['\n']

/-- Source `save`: the text written to the file (the handling of the file name is not
modelled). -/
def save (game : GameProperties) (players : Players) (active : Int) : List Char :=
  print_ints [game.height, game.width, active,
      (players.get 0).vars.nextX, (players.get 0).vars.nextY, (players.get 0).vars.m,
      (players.get 1).vars.nextX, (players.get 1).vars.nextY, (players.get 1).vars.m]
    ++ '\n' :: (List.range game.height.toNat).flatMap (fun (i : Nat) => save_row game (i : Int))

/-! ## `validate_load_file`, `load_saved_data` -/

/-- How a start-up check comes back: it returns, or the program exits with a status. -/
inductive Checked where
  | passes : Checked
  | exits (status : Int) : Checked
deriving DecidableEq

/-- The inner loop of the grid check of `validate_load_file` and the newline test after
it: `width` cell characters, then `'\n'`.  Returns what follows the line, `none` on a
violation (`fgetc` at the end of the file gives `EOF`, which is neither). -/
def validate_row : Nat → List Char → Option (List Char)
  | 0, [] => none
  | 0, c :: rest => if c = '\n' then some rest else none
  | _ + 1, [] => none
  | n + 1, c :: rest => if is_token c then validate_row n rest else none

/-- The outer loop of the grid check of `validate_load_file` over `height` lines. -/
def validate_rows : Nat → Nat → List Char → Bool
  | 0, _, _ => true
  | h + 1, w, s =>
    match validate_row w s with
    | none => false
    | some rest => validate_rows h w rest

/-- Source `validate_load_file`; `loadFile` is `none` when `fopen` failed, else the text
of the file. -/
def validate_load_file (loadFile : Option (List Char)) : Checked :=
  match loadFile with
  | none => Checked.exits 4
  | some text =>
    match scan_ints 9 text with
    | some ([arg1, arg2, arg3, _, _, _, _, _, _], rest) =>
      match rest with
      | [] => Checked.exits 5
      | c :: grid =>
        if c ≠ '\n' then Checked.exits 5
        else if arg1 < 4 ∨ arg1 > 1000 then Checked.exits 5
        else if arg2 < 4 ∨ arg2 > 1000 then Checked.exits 5
        else if arg3 ≠ 0 ∧ arg3 ≠ 1 then Checked.exits 5
        else if validate_rows arg1.toNat arg2.toNat grid then Checked.passes
        else Checked.exits 5
    | _ => Checked.exits 5

/-- The loop `while (true) { token = fgetc(...); if (token is a cell value) break; }` of
`load_saved_data`: the next cell value of the text and what follows it.  `none` when the
text ends first (the source then never leaves the loop). -/
def next_token : List Char → Option (Char × List Char)
  | [] => none
  | c :: rest => if is_token c then some (c, rest) else next_token rest

/-- The next `n` cell values of the text. -/
def read_tokens : Nat → List Char → Option (List Char × List Char)
  | 0, s => some ([], s)
  | n + 1, s =>
    match next_token s with
    | none => none
    | some (c, s1) =>
      match read_tokens n s1 with
      | none => none
      | some (cs, s2) => some (c :: cs, s2)

/-- The next `h` rows of `w` cell values of the text. -/
def read_rows : Nat → Nat → List Char → Option (List (List Char))
  | 0, _, _ => some []
  | h + 1, w, s =>
    match read_tokens w s with
    | none => none
    | some (row, s1) =>
      match read_rows h w s1 with
      | none => none
      | some rows => some (row :: rows)

/-- The grid whose rows are the given lists. -/
def grid_of_rows (rows : List (List Char)) : Int → Int → Char :=
  fun i j => if 0 ≤ i ∧ 0 ≤ j then (rows.getD i.toNat []).getD j.toNat '.' else '.'

/-- The assignments of `load_saved_data` to the generator of one player. -/
def restore_variables (v : MoveAlgorithm) (nextRow nextCol moves : Int) : MoveAlgorithm :=
  { v with nextX := nextRow, r := nextRow, nextY := nextCol, c := nextCol, m := moves }

/-- The players after `initialise_player` and the assignments of `load_saved_data` from
the seven last integers of the header. -/
def loaded_players (game : GameProperties) (players : Players) (a1 a2 : Char)
    (nextPlayer nextRowO nextColO movesO nextRowX nextColX movesX : Int) : Players :=
  { p0 := { (initialise_player game players a1 a2).p0 with
              move := nextPlayer,
              vars := restore_variables (initialise_player game players a1 a2).p0.vars
                nextRowO nextColO movesO },
    p1 := { (initialise_player game players a1 a2).p1 with
              vars := restore_variables (initialise_player game players a1 a2).p1.vars
                nextRowX nextColX movesX } }

/-- Source `load_saved_data` on the text of the file (read again from its start);
`a1`, `a2` are `argv[1][0]` and `argv[2][0]`.  `none` when the header or the grid cannot
be read. -/
def load_saved_data (text : List Char) (players : Players) (a1 a2 : Char) :
    Option (GameProperties × Players) :=
  match scan_ints 9 text with
  | some ([height, width, nextPlayer, nextRowO, nextColO, movesO,
           nextRowX, nextColX, movesX], rest) =>
    match read_rows height.toNat width.toNat rest with
    | none => none
    | some rows =>
      some ({ height := height, width := width, gameGrid := grid_of_rows rows },
        loaded_players { height := height, width := width, gameGrid := grid_of_rows rows }
          players a1 a2 nextPlayer nextRowO nextColO movesO nextRowX nextColX movesX)
  | _ => none

/-! ## `validate_arguments` -/

/-- The library function `atoi`: the leading integer of the string, 0 when there is none. -/
def atoi (s : List Char) : Int :=
  match scan_int s with
  | none => 0
  | some r => r.1

/-- Source `validate_arguments`; `argv` holds the `argc` command-line strings. -/
def validate_arguments (argc : Int) (argv : List (List Char)) : Checked :=
  if argc > 5 ∨ argc < 4 then Checked.exits 1
  else if argv.getD 1 [] ≠ ['h'] ∧ argv.getD 1 [] ≠ ['c'] then Checked.exits 2
  else if argv.getD 2 [] ≠ ['h'] ∧ argv.getD 2 [] ≠ ['c'] then Checked.exits 2
  else if argc = 5 then
    if atoi (argv.getD 3 []) < 4 ∨ atoi (argv.getD 3 []) > 1000 then Checked.exits 3
    else if atoi (argv.getD 4 []) < 4 ∨ atoi (argv.getD 4 []) > 1000 then Checked.exits 3
    else Checked.passes
  else Checked.passes

/-! ## `get_player_move`, `run_game` -/

/-- A line typed by the human player, as `get_player_move` tells them apart: a save
request (first character `w`), two integers, anything else (an over-long line too). -/
inductive InputLine where
  | save : InputLine
  | move (x y : Int) : InputLine
  | other : InputLine
deriving DecidableEq

/-- Source `get_player_move` on the lines still to come: the move accepted, the lines
left and the snapshots written meanwhile; `none` at the end of the input (`exit(6)`). -/
def get_player_move (game : GameProperties) (players : Players) (active : Int) :
    List InputLine → Option ((Int × Int) × List InputLine × List (List Char))
  | [] => none
  | InputLine.save :: rest =>
    match get_player_move game players active rest with
    | none => none
    | some (xy, rest1, files) => some (xy, rest1, save game players active :: files)
  | InputLine.move x y :: rest =>
    if valid_move game x y = true then some ((x, y), rest, [])
    else get_player_move game players active rest
  | InputLine.other :: rest => get_player_move game players active rest

/-- The result of the search loop of a computer turn. -/
inductive Search where
  | found (players : Players) : Search
  | out_of_bounds : Search
  | out_of_fuel : Search
deriving DecidableEq

/-- The loop `while (gameGrid[nextX][nextY] != '.') increment_next_move(...)` of
`run_game`, at most `fuel` passes.  The read is not guarded in the source, so a candidate
off the board is reported as `out_of_bounds`. -/
def search_move (game : GameProperties) (active : Int) : Nat → Players → Search
  | 0, _ => Search.out_of_fuel
  | fuel + 1, players =>
    if inBounds game (players.get active).vars.nextX (players.get active).vars.nextY then
      if game.gameGrid (players.get active).vars.nextX (players.get active).vars.nextY ≠ '.' then
        search_move game active fuel (increment_next_move game players active)
      else Search.found players
    else Search.out_of_bounds

/-- The variables of `run_game` at the head of its loop. -/
structure GameState where
  game : GameProperties
  players : Players
  active : Int

/-- The player `run_game` lets move: index 1 if `players[1]->move < players[0]->move`,
else index 0. -/
def next_active (players : Players) : Int :=
  if (players.get 1).move < (players.get 0).move then 1 else 0

/-- The end of the loop body of `run_game`: `players[active]->move++` and
`gameGrid[x][y] = players[active]->token`. -/
def apply_move (game : GameProperties) (players : Players) (active x y : Int) : GameState :=
  { game := place game x y (players.get active).token,
    players := players.set active
      { players.get active with move := wrap32 ((players.get active).move + 1) },
    active := active }

/-- What one pass of the loop of `run_game` leads to. -/
inductive Turn where
  | over (winner : Char) : Turn
  | end_of_input : Turn
  | out_of_bounds : Turn
  | played (s : GameState) (x y : Int) (rest : List InputLine) (files : List (List Char)) : Turn

/-- One pass of the loop of `run_game` (without the display): the two game-over checks,
the choice of the active player, the move of a computer or of a human, the placement.
`fuel` bounds the search loop; `none` when that bound or a nesting bound is reached. -/
def run_game_turn (fuel : Nat) (s : GameState) (input : List InputLine) : Option Turn :=
  match check_game_over s.game s.players (1 - s.active) with
  | none => none
  | some (Outcome.wins t) => some (Turn.over t)
  | some Outcome.continues =>
    match check_game_over s.game s.players s.active with
    | none => none
    | some (Outcome.wins t) => some (Turn.over t)
    | some Outcome.continues =>
      if (s.players.get (next_active s.players)).type = COMPUTER then
        match search_move s.game (next_active s.players) fuel s.players with
        | Search.out_of_fuel => none
        | Search.out_of_bounds => some Turn.out_of_bounds
        | Search.found players1 =>
          some (Turn.played
            (apply_move s.game
              (increment_next_move s.game players1 (next_active s.players))
              (next_active s.players)
              (players1.get (next_active s.players)).vars.nextX
              (players1.get (next_active s.players)).vars.nextY)
            (players1.get (next_active s.players)).vars.nextX
            (players1.get (next_active s.players)).vars.nextY
            input [])
      else
        match get_player_move s.game s.players (next_active s.players) input with
        | none => some Turn.end_of_input
        | some (xy, rest, files) =>
          some (Turn.played
            (apply_move s.game s.players (next_active s.players) xy.1 xy.2)
            xy.1 xy.2 rest files)

/-- The state in which `main` enters `run_game` for a new game. -/
def fresh_state (height width : Int) (players : Players) (a1 a2 : Char) : GameState :=
  { game := initialise_grid height width,
    players := initialise_player (initialise_grid height width) players a1 a2,
    active := (initialise_player (initialise_grid height width) players a1 a2).p0.move }

/-- The state `s` is reached from `s0` after `n` passes of the loop of `run_game`. -/
inductive ReachedIn (s0 : GameState) : Nat → GameState → Prop where
  | start : ReachedIn s0 0 s0
  | turn {n : Nat} {s s1 : GameState} (fuel : Nat) (input : List InputLine)
      {rest : List InputLine} {x y : Int} {files : List (List Char)} :
      ReachedIn s0 n s → run_game_turn fuel s input = some (Turn.played s1 x y rest files) →
      ReachedIn s0 (n + 1) s1

/-! ## Predicates and example states used in the theorems -/

/-- What follows a printed integer does not start with a digit. -/
def noDigitAhead (rest : List Char) : Prop :=
  ∀ c tail, rest = c :: tail → is_digit c = false

/-- The rows of the grid as lists of cell values. -/
def grid_rows (game : GameProperties) : List (List Char) :=
  (List.range game.height.toNat).map
    (fun (i : Nat) => (List.range game.width.toNat).map
      (fun (j : Nat) => game.gameGrid (i : Int) (j : Int)))

/-- The two players as `main` allocates them, before `initialise_player` fills them in
(every field zero; the source leaves them indeterminate). -/
def zero_players : Players :=
  let p : Player := { type := 0, token := 'O', move := 0,
                      vars := { ir := 0, ic := 0, f := 0, m := 0, r := 0, c := 0, b := 0,
                                nextX := 0, nextY := 0 } }
  { p0 := p, p1 := p }

/-- A state of the game as a C program can hold it when a snapshot is taken: dimensions
within [4,1000], the index of the player to move 0 or 1, cell values on the board among
`'.'`, `'X'`, `'O'`, and the six saved generator values in the range of `int`. -/
def Saveable (game : GameProperties) (players : Players) (active : Int) : Prop :=
  4 ≤ game.height ∧ game.height ≤ 1000 ∧ 4 ≤ game.width ∧ game.width ≤ 1000
    ∧ (active = 0 ∨ active = 1)
    ∧ (∀ i j, inBounds game i j → is_token (game.gameGrid i j) = true)
    ∧ isInt32 (players.get 0).vars.nextX ∧ isInt32 (players.get 0).vars.nextY
    ∧ isInt32 (players.get 0).vars.m
    ∧ isInt32 (players.get 1).vars.nextX ∧ isInt32 (players.get 1).vars.nextY
    ∧ isInt32 (players.get 1).vars.m

/-- The board of a snapshot of `game` once loaded. -/
def reloaded_board (game : GameProperties) : GameProperties :=
  { height := game.height, width := game.width, gameGrid := grid_of_rows (grid_rows game) }

/-- The state of a fresh 4x4 game of two human players after A played (0,0) and B (0,1). -/
def two_moves : GameState :=
  apply_move
    (apply_move (initialise_grid 4 4)
      (initialise_player (initialise_grid 4 4) zero_players 'h' 'h') 0 0 0).game
    (apply_move (initialise_grid 4 4)
      (initialise_player (initialise_grid 4 4) zero_players 'h' 'h') 0 0 0).players
    1 0 1

/-- A snapshot of an empty 4x4 board whose saved cursor of player A is row 7, column 0. -/
def off_board_snapshot : List Char :=
  "4 4 0 7 0 0 2 2 0\n....\n....\n....\n....\n".toList

/-- The candidate a generator state publishes. -/
def published (v : MoveAlgorithm) : Int × Int := (v.nextX, v.nextY)

/-- The seeds of player A or of player B. -/
def isSeed (ir ic f : Int) : Prop :=
  (ir = 1 ∧ ic = 4 ∧ f = 29) ∨ (ir = 2 ∧ ic = 10 ∧ f = 17)

/-- No operation executed by one call of `increment_next_move` on `v` leaves the range
of `int`. -/
def stepInRange (v : MoveAlgorithm) : Prop :=
  isInt32 (v.m + 1)
    ∧ isInt32 (Int.tdiv (v.m + 1) 5 * v.f)
    ∧ isInt32 (v.b + Int.tdiv (v.m + 1) 5 * v.f)
    ∧ (Int.tmod (v.m + 1) 5 = 1 → isInt32 (v.r + 1) ∧ isInt32 (v.c + 1))
    ∧ (Int.tmod (v.m + 1) 5 = 2 → isInt32 (v.r + 2) ∧ isInt32 (v.c + 1))
    ∧ (Int.tmod (v.m + 1) 5 = 3 → isInt32 (v.r + 1))
    ∧ (Int.tmod (v.m + 1) 5 = 4 → isInt32 (v.c + 1))

/-- The generator states of a player with seeds `ir`, `ic`, `f` that a game on the board
`game` reaches without integer overflow: the state of `initialise_player`, a state
restored by `load_saved_data` from any three `int`s, and the state after a call of
`increment_next_move`, which `run_game` makes only after it has read the published
candidate on the board. -/
inductive GenReachable (game : GameProperties) (ir ic f : Int) : MoveAlgorithm → Prop where
  | fresh : GenReachable game ir ic f (initial_variables game ir ic f)
  | loaded (x y m : Int) : isInt32 x → isInt32 y → isInt32 m →
      GenReachable game ir ic f (restore_variables (initial_variables game ir ic f) x y m)
  | step {v : MoveAlgorithm} : GenReachable game ir ic f v →
      inBounds game v.nextX v.nextY → stepInRange v →
      GenReachable game ir ic f (next_move game v)

/-- What is known of a reachable generator state when it is saved. -/
def GenSaved (game : GameProperties) (ir ic f : Int) (v : MoveAlgorithm) : Prop :=
  v.ir = ir ∧ v.ic = ic ∧ v.f = f ∧ v.b = ir * game.width + ic
    ∧ isInt32 v.m ∧ isInt32 v.r ∧ isInt32 v.c ∧ isInt32 v.nextX ∧ isInt32 v.nextY
    ∧ ((v.nextX = v.r ∧ v.nextY = v.c)
      ∨ (v.nextX = Int.tmod v.r game.height ∧ v.nextY = Int.tmod v.c game.width
          ∧ (v.m < 0
            ∨ (v.m / 5 ≤ 268435456 ∧ 0 ≤ v.r ∧ v.r ≤ 250000 + 2 * (v.m % 5)
                ∧ 0 ≤ v.c ∧ v.c ≤ 1000 + v.m % 5))))

/-- The relation between a generator `v` and its reloaded copy `v1` that stepping both
keeps: they agree on everything but the cursor, and the cursors are equal or congruent
modulo the board size. -/
def Lockstep (game : GameProperties) (v v1 : MoveAlgorithm) : Prop :=
  v1.ir = v.ir ∧ v1.ic = v.ic ∧ v1.f = v.f ∧ v1.b = v.b ∧ v1.m = v.m
    ∧ v1.nextX = v.nextX ∧ v1.nextY = v.nextY ∧ isInt32 v.m
    ∧ ((v1.r = v.r ∧ v1.c = v.c)
      ∨ (Int.tmod v1.r game.height = Int.tmod v.r game.height
          ∧ Int.tmod v1.c game.width = Int.tmod v.c game.width
          ∧ (v.m < 0
            ∨ (v.m / 5 ≤ 268435456
                ∧ 0 ≤ v.r ∧ v.r ≤ 250000 + 2 * (v.m % 5)
                ∧ 0 ≤ v1.r ∧ v1.r ≤ 250000 + 2 * (v.m % 5)
                ∧ 0 ≤ v.c ∧ v.c ≤ 1000 + v.m % 5
                ∧ 0 ≤ v1.c ∧ v1.c ≤ 1000 + v.m % 5))))

/-- A snapshot of an empty 4x4 board in which player A's counter is one step before the
first step whose `b + m / 5 * f` leaves the range of `int`. -/
def overflow_snapshot : List Char :=
  "4 4 0 0 0 370255799 2 2 0\n....\n....\n....\n....\n".toList

/-- The state `load_saved_data` builds from `overflow_snapshot` for a computer player A
and a human player B. -/
def overflow_loaded : GameState :=
  { game := { height := 4, width := 4,
              gameGrid := grid_of_rows [['.', '.', '.', '.'], ['.', '.', '.', '.'],
                                        ['.', '.', '.', '.'], ['.', '.', '.', '.']] },
    players := loaded_players
      { height := 4, width := 4,
        gameGrid := grid_of_rows [['.', '.', '.', '.'], ['.', '.', '.', '.'],
                                  ['.', '.', '.', '.'], ['.', '.', '.', '.']] }
      zero_players 'c' 'h' 0 0 0 370255799 2 2 0,
    active := 0 }

/-- The generator of player A on a 4x4 board as `load_saved_data` restores it from a
header whose cursor is (0,0) and whose counter is -7. -/
def negative_counter : MoveAlgorithm :=
  restore_variables (initial_variables (initialise_grid 4 4) 1 4 29) 0 0 (-7)

/-- The state after player A's move at (0,0) from `overflow_loaded`. -/
def overflow_played : GameState :=
  apply_move overflow_loaded.game
    (increment_next_move overflow_loaded.game overflow_loaded.players 0) 0 0 0

/-- The state of a fresh 4x4 game, A a computer and B a human, after A's first move at
(1,0) and the step that primes A's generator. -/
def one_computer_move : GameState :=
  apply_move (initialise_grid 4 4)
    (increment_next_move (initialise_grid 4 4)
      (initialise_player (initialise_grid 4 4) zero_players 'c' 'h') 0) 0 1 0

/-- The two arrays agree on everything but the generator variables. -/
def sameButVars (ps ps1 : Players) : Prop :=
  ps1.p0.type = ps.p0.type ∧ ps1.p0.token = ps.p0.token ∧ ps1.p0.move = ps.p0.move
    ∧ ps1.p1.type = ps.p1.type ∧ ps1.p1.token = ps.p1.token ∧ ps1.p1.move = ps.p1.move

/-- The number of occupied cells of the board. -/
def occupied (game : GameProperties) : Nat :=
  ((cells game).filter (fun p => game.gameGrid p.1 p.2 ≠ '.')).card

/-- A 4x4 board on which the token `'O'` at (1,1) is enclosed by four `'X'`. -/
def enclosed_board : GameProperties :=
  place (place (place (place (place (initialise_grid 4 4) 1 1 'O') 0 1 'X') 1 0 'X') 1 2 'X')
    2 1 'X'

/-- Invariant of the generator after `N` steps from `initialise_player`, below the
overflow range: the counter is `N`, the cursor is non-negative and small. -/
def GenInv (game : GameProperties) (ir ic f : Int) (v : MoveAlgorithm) (N : Nat) : Prop :=
  v.m = N ∧ v.b = ir * game.width + ic ∧ v.f = f
    ∧ 0 ≤ v.r ∧ v.r ≤ 250000 + 2 * ((N : Int) % 5)
    ∧ 0 ≤ v.c ∧ v.c ≤ 1000 + (N : Int) % 5

/-- A 4x4 board with the row-0 snake `'O'` at (0,0), (0,1), (0,2), a row of `'X'` under it
and the single Empty neighbour (0,3). -/
def snake_board : GameProperties :=
  place (place (place (place (place (place (initialise_grid 4 4) 0 0 'O') 0 1 'O') 0 2 'O')
    1 0 'X') 1 1 'X') 1 2 'X'

/-- A snapshot whose nine integers are spread over two lines and whose four grid lines are
followed by more text. -/
def loose_snapshot : List Char :=
  "4\n4 0 0 0 0 0 0 0\n....\n....\n....\n....\nOX".toList

/-- The text `grid` begins with `h` grid lines: `h` rows of exactly `w` cell values among
`'.'`, `'X'`, `'O'`, each row followed by a newline; any text may follow the last line. -/
def GridLines (h w : Nat) (grid : List Char) : Prop :=
  ∃ (rows : List (List Char)) (tail : List Char),
    rows.length = h
    ∧ (∀ row ∈ rows, row.length = w ∧ ∀ c ∈ row, c = '.' ∨ c = 'X' ∨ c = 'O')
    ∧ grid = rows.flatMap (fun row => row ++ ['\n']) ++ tail

/-- The state after a human turn in which the move `(x, y)` is accepted at once. -/
def human_turn (s : GameState) (x y : Int) : GameState :=
  apply_move s.game s.players (next_active s.players) x y

/-- The state of a fresh 4x4 game of two human players after the moves O (0,0), X (1,0),
O (0,2), X (3,3), O (1,1), X (0,1): the `'O'` at (0,0) and the `'X'` at (0,1) both have
no liberty. -/
def mutual_capture : GameState :=
  human_turn (human_turn (human_turn (human_turn (human_turn (human_turn
    (fresh_state 4 4 zero_players 'h' 'h') 0 0) 1 0) 0 2) 3 3) 1 1) 0 1

/-- The state in which `main` enters `run_game`: a new game on a board whose dimensions
passed `validate_arguments`, or the game `load_saved_data` builds from a file that
`validate_load_file` accepted. -/
def Started (s0 : GameState) : Prop :=
  (∃ (height width : Int) (ps : Players) (a1 a2 : Char),
      4 ≤ height ∧ height ≤ 1000 ∧ 4 ≤ width ∧ width ≤ 1000
      ∧ s0 = fresh_state height width ps a1 a2)
  ∨ (∃ (text : List Char) (ps : Players) (a1 a2 : Char) (game : GameProperties)
      (players : Players),
      validate_load_file (some text) = Checked.passes
      ∧ load_saved_data text ps a1 a2 = some (game, players)
      ∧ s0 = { game := game, players := players, active := players.p0.move })

/-- Invariant of the states of a game: the dimensions are at most 1000, the tokens are
`'O'` and `'X'`, and the two move counts are non-negative with a sum at most the number of
occupied cells plus one. -/
def MovesBounded (s : GameState) : Prop :=
  s.game.height ≤ 1000 ∧ s.game.width ≤ 1000
    ∧ s.players.p0.token = 'O' ∧ s.players.p1.token = 'X'
    ∧ 0 ≤ s.players.p0.move ∧ 0 ≤ s.players.p1.move
    ∧ s.players.p0.move + s.players.p1.move ≤ (occupied s.game : Int) + 1

/-- A snapshot of an empty 4x4 board in which the counter of player A is the largest
`int`. -/
def full_counter_snapshot : List Char :=
  "4 4 0 0 0 2147483647 2 2 0\n....\n....\n....\n....\n".toList

/-- The state `load_saved_data` builds from `full_counter_snapshot` for a computer player
A and a human player B. -/
def full_counter_loaded : GameState :=
  { game := { height := 4, width := 4,
              gameGrid := grid_of_rows [['.', '.', '.', '.'], ['.', '.', '.', '.'],
                                        ['.', '.', '.', '.'], ['.', '.', '.', '.']] },
    players := loaded_players
      { height := 4, width := 4,
        gameGrid := grid_of_rows [['.', '.', '.', '.'], ['.', '.', '.', '.'],
                                  ['.', '.', '.', '.'], ['.', '.', '.', '.']] }
      zero_players 'c' 'h' 0 0 0 2147483647 2 2 0,
    active := 0 }

/-- The state of a fresh 4x4 game of computer A against human B after A played its first
candidate (1,0) and B took (2,1), the candidate A had published next. -/
def candidate_taken : GameState :=
  human_turn
    (apply_move (initialise_grid 4 4)
      (increment_next_move (initialise_grid 4 4)
        (initialise_player (initialise_grid 4 4) zero_players 'c' 'h') 0) 0 1 0)
    2 1

/-- The last-placed point `(x, y)` and its four orthogonal neighbours. -/
def near_order (x y : Int) : List (Int × Int) :=
  [(x, y), (x - 1, y), (x, y - 1), (x, y + 1), (x + 1, y)]

/-- From the specification's words (section on the optimisation of the game-over scan):
the check of `check_game_over` limited to the groups of the last-placed point `(x, y)` and
of its orthogonal neighbours on the board. -/
def check_game_over_near (game : GameProperties) (players : Players) (inactive x y : Int) :
    Option Outcome :=
  check_cells game (players.get inactive).token (players.get (1 - inactive)).token
    ((near_order x y).filter (fun q => decide (inBounds game q.1 q.2)))

/-- A 4x4 board with `'X'` at (0,1) and (1,0), the two neighbours of the corner (0,0). -/
def corner_board : GameProperties :=
  place (place (initialise_grid 4 4) 0 1 'X') 1 0 'X'

/-- The state of the flood fill together with a ghost counter: the number of calls of
`adjacent_space_check` entered so far. -/
abbrev Counted := Scan × Nat

/-- The loop body `check_offset` on the state with the ghost counter. -/
def check_offset_calls (game : GameProperties)
    (recurse : Counted → Int → Int → Option Counted)
    (row col : Int) (st : Counted) (ij : Int × Int) : Option Counted :=
  if st.1.1 = true then some st
  else if ij.1 - ij.2 = 1 ∨ ij.2 - ij.1 = 1 then
    if ij.1 + row < 0 ∨ ij.2 + col < 0 then some st
    else if ij.1 + row > game.height - 1 ∨ ij.2 + col > game.width - 1 then some st
    else if game.gameGrid (ij.1 + row) (ij.2 + col) = '.' then some ((true, st.1.2), st.2)
    else if game.gameGrid (ij.1 + row) (ij.2 + col) = game.gameGrid row col then
      if st.1.2 (ij.1 + row) (ij.2 + col) = 'N' then recurse st (ij.1 + row) (ij.2 + col)
      else some st
    else some st
  else some st

/-- The loop `scan_offsets` on the state with the ghost counter. -/
def scan_offsets_calls (body : Counted → Int × Int → Option Counted) :
    List (Int × Int) → Counted → Option Counted
  | [], st => some st
  | ij :: rest, st =>
    match body st ij with
    | none => none
    | some st1 => scan_offsets_calls body rest st1

/-- Source `adjacent_space_check` with the ghost counter, which every call increments on
entry; the state of the source is the first component. -/
def adjacent_space_check_calls (game : GameProperties) :
    Nat → Counted → Int → Int → Option Counted
  | 0, _, _, _ => none
  | fuel + 1, st, row, col =>
    if st.1.1 = true then some (st.1, st.2 + 1)
    else
      scan_offsets_calls
        (check_offset_calls game (adjacent_space_check_calls game fuel) row col) window
        ((st.1.1, setCell st.1.2 row col 'Y'), st.2 + 1)

/-- What a call of `adjacent_space_check_calls` guarantees when at most `fuel` cells are
unconsidered: it returns, it only adds considered points, the counter grows by the number
of cells it newly considered, and each of them is on the board in the group of the point
of the call. -/
def CallsOk (game : GameProperties) (fuel : Nat) : Prop :=
  ∀ (v : Int → Int → Char) (n : Nat) (row col : Int),
    inBounds game row col → v row col = 'N' → unconsidered game v ≤ fuel →
    ∃ (b : Bool) (v' : Int → Int → Char) (n' : Nat),
      adjacent_space_check_calls game fuel ((false, v), n) row col = some ((b, v'), n')
      ∧ (∀ x y, v x y ≠ 'N' → v' x y ≠ 'N')
      ∧ n' + unconsidered game v' = n + unconsidered game v
      ∧ (∀ x y, v x y = 'N' → v' x y ≠ 'N' →
          inBounds game x y ∧ sameGroup game (row, col) (x, y))
      ∧ v' row col ≠ 'N'

/-- A 4x4 board with a closed ring of eight `'O'` around the `'X'` at (1,1), and `'X'` on
every cell of the last row and column next to the ring. -/
def ring_board : GameProperties :=
  { height := 4, width := 4,
    gameGrid := grid_of_rows [['O', 'O', 'O', 'X'], ['O', 'X', 'O', 'X'],
                              ['O', 'O', 'O', 'X'], ['X', 'X', 'X', '.']] }

/-- The generators of the two players hold the base offset and the factor that
`initialise_player` gives them on a board of the given width, and a counter in the range
of `int`. -/
def GenSeeded (width : Int) (ps : Players) : Prop :=
  ps.p0.vars.b = 1 * width + 4 ∧ ps.p0.vars.f = 29 ∧ isInt32 ps.p0.vars.m
    ∧ ps.p1.vars.b = 2 * width + 10 ∧ ps.p1.vars.f = 17 ∧ isInt32 ps.p1.vars.m

/-- Invariant of the states of a game: dimensions within [4,1000] and seeded generators. -/
def Seeded (s : GameState) : Prop :=
  4 ≤ s.game.height ∧ s.game.height ≤ 1000 ∧ 4 ≤ s.game.width ∧ s.game.width ≤ 1000
    ∧ GenSeeded s.game.width s.players

/-- The memory the liberty check works on, passed as state: the flood-fill state
(`*anyLiberties`, `consideredPoints`) and the struct `*game` with the board. -/
abbrev Store := Scan × GameProperties

/-- The loop body `check_offset` in state-passing form: the board is read from the store,
and the store after the pass is returned. -/
def check_offset_store (recurse : Store → Int → Int → Option Store)
    (row col : Int) (st : Store) (ij : Int × Int) : Option Store :=
  if st.1.1 = true then some st
  else if ij.1 - ij.2 = 1 ∨ ij.2 - ij.1 = 1 then
    if ij.1 + row < 0 ∨ ij.2 + col < 0 then some st
    else if ij.1 + row > st.2.height - 1 ∨ ij.2 + col > st.2.width - 1 then some st
    else if st.2.gameGrid (ij.1 + row) (ij.2 + col) = '.' then some ((true, st.1.2), st.2)
    else if st.2.gameGrid (ij.1 + row) (ij.2 + col) = st.2.gameGrid row col then
      if st.1.2 (ij.1 + row) (ij.2 + col) = 'N' then recurse st (ij.1 + row) (ij.2 + col)
      else some st
    else some st
  else some st

/-- The loop `scan_offsets` in state-passing form. -/
def scan_offsets_store (body : Store → Int × Int → Option Store) :
    List (Int × Int) → Store → Option Store
  | [], st => some st
  | ij :: rest, st =>
    match body st ij with
    | none => none
    | some st1 => scan_offsets_store body rest st1

/-- Source `adjacent_space_check` in state-passing form: its only assignments are
`consideredPoints[row][col] = 'Y'` and `*anyLiberties = true`. -/
def adjacent_space_check_store : Nat → Store → Int → Int → Option Store
  | 0, _, _, _ => none
  | fuel + 1, st, row, col =>
    if st.1.1 = true then some st
    else
      scan_offsets_store (check_offset_store (adjacent_space_check_store fuel) row col) window
        ((st.1.1, setCell st.1.2 row col 'Y'), st.2)

/-- Source `any_liberties` in state-passing form: the value returned and the struct
`*game` as the call leaves it. -/
def any_liberties_store (game : GameProperties) (row col : Int) :
    Option (Bool × GameProperties) :=
  match adjacent_space_check_store (game.height.toNat * game.width.toNat)
      ((false, fun _ _ => 'N'), game) row col with
  | none => none
  | some st => some (st.1.1, st.2)

/-- The row offsets accumulated since the last re-seed, by `m mod 5`. -/
def DR : List Int := [0, 1, 3, 4, 4]

/-- The column offsets accumulated since the last re-seed, by `m mod 5`. -/
def DC : List Int := [0, 1, 2, 2, 3]

/-- From the claim's words: the candidate after `m` steps as a function of `m`, over the
integers with floor division and the non-negative remainder. -/
def closed_form (game : GameProperties) (b f : Int) (m : Nat) : Int × Int :=
  ((((b + ((m : Int) / 5) * f) % 1000003) / game.width + DR.getD (m % 5) 0) % game.height,
   (((b + ((m : Int) / 5) * f) % 1000003) % game.width + DC.getD (m % 5) 0) % game.width)

/-- The room the cursor row needs below the largest `int` for the additions up to the
next re-seed, by `m mod 5`: the sum of the row steps still to come. -/
def slack_r (k : Int) : Int :=
  if k = 0 then 4 else if k = 1 then 3 else if k = 2 then 1 else 0

/-- The room the cursor column needs below the largest `int` for the additions up to the
next re-seed, by `m mod 5`. -/
def slack_c (k : Int) : Int :=
  if k = 0 then 3 else if k = 1 then 2 else if k = 2 then 1 else if k = 3 then 1 else 0

/-- Two generator states of one player with the same counter, whose cursors are
non-negative, congruent modulo the board dimensions, and leave room for the additions up
to the next re-seed. -/
def Congruent (game : GameProperties) (v v1 : MoveAlgorithm) : Prop :=
  v1.m = v.m ∧ v1.b = v.b ∧ v1.f = v.f ∧ 0 ≤ v.m ∧ 0 ≤ v.b ∧ 0 ≤ v.f
    ∧ 0 ≤ v.r ∧ 0 ≤ v1.r ∧ v1.r % game.height = v.r % game.height
    ∧ 0 ≤ v.c ∧ 0 ≤ v1.c ∧ v1.c % game.width = v.c % game.width
    ∧ v.r + slack_r (v.m % 5) ≤ 2147483647 ∧ v1.r + slack_r (v.m % 5) ≤ 2147483647
    ∧ v.c + slack_c (v.m % 5) ≤ 2147483647 ∧ v1.c + slack_c (v.m % 5) ≤ 2147483647

/-- A snapshot of an empty 4x4 board in which player A's counter is 5 and the saved
cursor row is 2147483645, congruent modulo 4 to the row 9 of the generator after five
steps. -/
def large_cursor_snapshot : List Char :=
  "4 4 0 2147483645 1 5 2 2 0\n....\n....\n....\n....\n".toList

/-- A snapshot like `large_cursor_snapshot` with the saved cursor row -3. -/
def negative_cursor_snapshot : List Char :=
  "4 4 0 -3 1 5 2 2 0\n....\n....\n....\n....\n".toList

/-- A snapshot of an empty 4x4 board whose nine integers are spread over two lines: the
first line holds the height alone.  Nothing follows the four grid lines. -/
def split_header_snapshot : List Char :=
  "4\n4 0 0 0 0 0 0 0\n....\n....\n....\n....\n".toList

/-- The same snapshot with the nine integers on the first line, as `save` writes it. -/
def one_line_snapshot : List Char :=
  "4 4 0 0 0 0 0 0 0\n....\n....\n....\n....\n".toList

/-- The snapshot `one_line_snapshot` with a space between the ninth integer and the
newline. -/
def spaced_header_snapshot : List Char :=
  "4 4 0 0 0 0 0 0 0 \n....\n....\n....\n....\n".toList

/-! ## Theorems -/

theorem wrap32_of_isInt32 {x : Int} (h : isInt32 x) : wrap32 x = x := by
  unfold isInt32 at h
  unfold wrap32
  rw [Int.bmod_def]
  omega

theorem tmod_nonneg_eq {a b : Int} (ha : 0 ≤ a) (hb : 0 ≤ b) : Int.tmod a b = a % b :=
  Int.tmod_eq_emod ha hb

theorem tdiv_nonneg_eq {a b : Int} (ha : 0 ≤ a) (hb : 0 ≤ b) : Int.tdiv a b = a / b :=
  Int.tdiv_eq_ediv ha hb

theorem ediv_width_le {n w : Int} (hn : n < 1000003) (hw : 4 ≤ w) : n / w ≤ 250000 := by
  have h : n / w < 250001 := Int.ediv_lt_of_lt_mul (by omega) (by omega)
  omega

theorem valid_move_spec {game : GameProperties} {x y : Int} :
    valid_move game x y = true ↔ inBounds game x y ∧ game.gameGrid x y = '.' := by
  unfold valid_move inBounds
  split
  · rename_i h
    simp only [beq_iff_eq]
    constructor
    · intro hc; exact ⟨⟨by omega, by omega, by omega, by omega⟩, hc⟩
    · intro hc; exact hc.2
  · rename_i h
    constructor
    · intro hc; cases hc
    · intro hc; exact absurd ⟨by omega, by omega, hc.1.2.1, hc.1.2.2.2⟩ h

/-- C2: `valid_move` is a total function on all integer pairs; it returns true exactly for
the points on the board that hold `'.'`.  On the empty 4x4 board it is true at (0,0) and
(3,3), false at (4,0) and (-1,2), and false at (1,1) once a token stands there. -/
theorem valid_move_iff_on_board_and_empty :
    (∀ (game : GameProperties) (row col : Int),
      valid_move game row col = true ↔
        (0 ≤ row ∧ row < game.height ∧ 0 ≤ col ∧ col < game.width
          ∧ game.gameGrid row col = '.'))
    ∧ valid_move (initialise_grid 4 4) 0 0 = true
    ∧ valid_move (initialise_grid 4 4) 3 3 = true
    ∧ valid_move (initialise_grid 4 4) 4 0 = false
    ∧ valid_move (initialise_grid 4 4) (-1) 2 = false
    ∧ valid_move (place (initialise_grid 4 4) 1 1 'O') 1 1 = false
    ∧ valid_move (place (initialise_grid 4 4) 1 1 'X') 1 1 = false := by
  refine ⟨?_, by decide, by decide, by decide, by decide, by decide, by decide⟩
  intro game row col
  rw [valid_move_spec]
  unfold inBounds
  tauto

/-! ### The liberty check -/

theorem mem_cells (game : GameProperties) (p : Int × Int) :
    p ∈ cells game ↔ inBounds game p.1 p.2 := by
  unfold cells inBounds
  rw [Finset.mem_product, Finset.mem_Ico, Finset.mem_Ico]
  tauto

theorem unconsidered_mono (game : GameProperties) {v v' : Int → Int → Char}
    (h : ∀ x y, v x y ≠ 'N' → v' x y ≠ 'N') :
    unconsidered game v' ≤ unconsidered game v := by
  unfold unconsidered
  apply Finset.card_le_card
  intro p hp
  rw [Finset.mem_filter] at hp ⊢
  refine ⟨hp.1, ?_⟩
  by_contra hc
  exact h _ _ hc hp.2

theorem unconsidered_setCell (game : GameProperties) {v : Int → Int → Char} {row col : Int}
    (hin : inBounds game row col) (hN : v row col = 'N') :
    unconsidered game (setCell v row col 'Y') < unconsidered game v := by
  unfold unconsidered
  apply Finset.card_lt_card
  rw [Finset.ssubset_iff_of_subset]
  · refine ⟨(row, col), ?_, ?_⟩
    · rw [Finset.mem_filter, mem_cells]
      exact ⟨hin, hN⟩
    · rw [Finset.mem_filter]
      intro hc
      have h2 := hc.2
      simp [setCell] at h2
  · intro p hp
    rw [Finset.mem_filter] at hp ⊢
    refine ⟨hp.1, ?_⟩
    have h2 := hp.2
    unfold setCell at h2
    split at h2
    · exact absurd h2 (by decide)
    · exact h2

theorem unconsidered_fresh (game : GameProperties) :
    unconsidered game (fun _ _ => 'N') = game.height.toNat * game.width.toNat := by
  unfold unconsidered cells
  simp [Finset.card_product, Int.card_Ico]

theorem window_orthogonal (row col : Int) (ij : Int × Int) (hmem : ij ∈ window)
    (htest : ij.1 - ij.2 = 1 ∨ ij.2 - ij.1 = 1) :
    orthogonal (row, col) (ij.1 + row, ij.2 + col) := by
  unfold window at hmem
  simp only [List.mem_cons, List.mem_singleton, List.not_mem_nil, or_false] at hmem
  unfold orthogonal
  rcases hmem with rfl | rfl | rfl | rfl | rfl | rfl | rfl | rfl | rfl <;>
    simp at htest ⊢ <;> omega

theorem orthogonal_window (row col : Int) (n : Int × Int) (h : orthogonal (row, col) n) :
    ∃ ij : Int × Int, ij ∈ window ∧ (ij.1 - ij.2 = 1 ∨ ij.2 - ij.1 = 1)
      ∧ n = (ij.1 + row, ij.2 + col) := by
  obtain ⟨n1, n2⟩ := n
  unfold orthogonal at h
  simp only at h
  rcases h with ⟨h1, h2 | h2⟩ | ⟨h1, h2 | h2⟩
  · exact ⟨(0, 1), by simp [window], by simp, by simp [h1, h2]; omega⟩
  · exact ⟨(0, -1), by simp [window], by simp, by simp [h1, h2]; omega⟩
  · exact ⟨(1, 0), by simp [window], by simp, by simp [h1, h2]; omega⟩
  · exact ⟨(-1, 0), by simp [window], by simp, by simp [h1, h2]; omega⟩

theorem closedAt_mono (game : GameProperties) {v v' : Int → Int → Char} {p : Int × Int}
    (h : ∀ x y, v x y ≠ 'N' → v' x y ≠ 'N') (hc : closedAt game v p) : closedAt game v' p := by
  intro n hn hb
  obtain ⟨h1, h2⟩ := hc n hn hb
  exact ⟨h1, fun e => h _ _ (h2 e)⟩

theorem groupHasLiberty_of_link (game : GameProperties) {row col : Int} {n : Int × Int}
    (hl : link game (row, col) n) (h : groupHasLiberty game n.1 n.2) :
    groupHasLiberty game row col := by
  obtain ⟨q, hq, ht⟩ := h
  exact ⟨q, Relation.ReflTransGen.head hl hq, ht⟩

theorem check_offset_spec (game : GameProperties) (fuel : Nat) (hrec : AscOk game fuel)
    (row col : Int) (ij : Int × Int) (hmem : ij ∈ window)
    (b0 : Bool) (v : Int → Int → Char) (hU : b0 = false → unconsidered game v ≤ fuel) :
    ∃ (b1 : Bool) (v1 : Int → Int → Char),
      check_offset game (adjacent_space_check game fuel) row col (b0, v) ij = some (b1, v1)
      ∧ (∀ x y, v x y ≠ 'N' → v1 x y ≠ 'N')
      ∧ (b1 = true → b0 = true ∨ groupHasLiberty game row col)
      ∧ (b1 = false → b0 = false ∧ offsetDone game v1 row col ij
          ∧ ∀ x y, v x y = 'N' → v1 x y ≠ 'N' → closedAt game v1 (x, y)) := by
  have same : ∀ (_ : offsetDone game v row col ij) (_ : b0 = false),
      ∃ (b1 : Bool) (v1 : Int → Int → Char),
        some ((b0, v) : Scan) = some (b1, v1)
        ∧ (∀ x y, v x y ≠ 'N' → v1 x y ≠ 'N')
        ∧ (b1 = true → b0 = true ∨ groupHasLiberty game row col)
        ∧ (b1 = false → b0 = false ∧ offsetDone game v1 row col ij
            ∧ ∀ x y, v x y = 'N' → v1 x y ≠ 'N' → closedAt game v1 (x, y)) := by
    intro hd hb
    exact ⟨b0, v, rfl, fun _ _ h => h, fun h => Or.inl h,
      fun _ => ⟨hb, hd, fun x y h1 h2 => absurd h1 h2⟩⟩
  cases b0 with
  | true =>
    refine ⟨true, v, by simp [check_offset], fun _ _ h => h, fun _ => Or.inl rfl, ?_⟩
    intro h; cases h
  | false =>
    unfold check_offset
    dsimp only
    rw [if_neg (show ¬ (false = true) by decide)]
    by_cases htest : ij.1 - ij.2 = 1 ∨ ij.2 - ij.1 = 1
    · rw [if_pos htest]
      by_cases hneg : ij.1 + row < 0 ∨ ij.2 + col < 0
      · rw [if_pos hneg]
        apply same _ rfl
        intro _ hb
        unfold inBounds at hb
        omega
      · rw [if_neg hneg]
        by_cases hbig : ij.1 + row > game.height - 1 ∨ ij.2 + col > game.width - 1
        · rw [if_pos hbig]
          apply same _ rfl
          intro _ hb
          unfold inBounds at hb
          omega
        · rw [if_neg hbig]
          have hnb : inBounds game (ij.1 + row) (ij.2 + col) := by
            unfold inBounds; omega
          by_cases hdot : game.gameGrid (ij.1 + row) (ij.2 + col) = '.'
          · rw [if_pos hdot]
            refine ⟨true, v, rfl, fun _ _ h => h, fun _ => Or.inr ?_, ?_⟩
            · exact ⟨(row, col), Relation.ReflTransGen.refl,
                (ij.1 + row, ij.2 + col), window_orthogonal row col ij hmem htest, hnb, hdot⟩
            · intro h; cases h
          · rw [if_neg hdot]
            by_cases hsame : game.gameGrid (ij.1 + row) (ij.2 + col) = game.gameGrid row col
            · rw [if_pos hsame]
              by_cases hN : v (ij.1 + row) (ij.2 + col) = 'N'
              · rw [if_pos hN]
                obtain ⟨b, v', he, hmono, hs, hc⟩ :=
                  hrec v (ij.1 + row) (ij.2 + col) hnb hN (hU rfl)
                refine ⟨b, v', he, hmono, ?_, ?_⟩
                · intro hb
                  right
                  exact groupHasLiberty_of_link game (n := (ij.1 + row, ij.2 + col))
                    ⟨window_orthogonal row col ij hmem htest, hnb, hsame⟩ (hs hb)
                · intro hb
                  obtain ⟨h1, h2⟩ := hc hb
                  exact ⟨rfl, fun _ _ => ⟨hdot, fun _ => h1⟩, h2⟩
              · rw [if_neg hN]
                apply same _ rfl
                intro _ _
                exact ⟨hdot, fun _ => hN⟩
            · rw [if_neg hsame]
              apply same _ rfl
              intro _ _
              exact ⟨hdot, fun e => absurd e hsame⟩
    · rw [if_neg htest]
      apply same _ rfl
      intro ht
      exact absurd ht htest

theorem scan_offsets_spec (game : GameProperties) (fuel : Nat) (hrec : AscOk game fuel)
    (row col : Int) :
    ∀ (L : List (Int × Int)), (∀ ij ∈ L, ij ∈ window) →
    ∀ (b0 : Bool) (v : Int → Int → Char), (b0 = false → unconsidered game v ≤ fuel) →
    ∃ (b : Bool) (v' : Int → Int → Char),
      scan_offsets (check_offset game (adjacent_space_check game fuel) row col) L (b0, v)
        = some (b, v')
      ∧ (∀ x y, v x y ≠ 'N' → v' x y ≠ 'N')
      ∧ (b = true → b0 = true ∨ groupHasLiberty game row col)
      ∧ (b = false → b0 = false ∧ (∀ ij ∈ L, offsetDone game v' row col ij)
          ∧ ∀ x y, v x y = 'N' → v' x y ≠ 'N' → closedAt game v' (x, y)) := by
  intro L
  induction L with
  | nil =>
    intro _ b0 v _
    exact ⟨b0, v, rfl, fun _ _ h => h, fun h => Or.inl h,
      fun h => ⟨h, fun _ hm => absurd hm (List.not_mem_nil _), fun x y h1 h2 => absurd h1 h2⟩⟩
  | cons ij L ih =>
    intro hL b0 v hU
    obtain ⟨b1, v1, he1, hm1, hs1, hc1⟩ :=
      check_offset_spec game fuel hrec row col ij (hL ij (List.mem_cons_self _ _)) b0 v hU
    have hU1 : b1 = false → unconsidered game v1 ≤ fuel := by
      intro hb
      exact le_trans (unconsidered_mono game hm1) (hU (hc1 hb).1)
    obtain ⟨b, v', he, hm, hs, hc⟩ :=
      ih (fun ij' h' => hL ij' (List.mem_cons_of_mem _ h')) b1 v1 hU1
    refine ⟨b, v', ?_, fun x y h => hm x y (hm1 x y h), ?_, ?_⟩
    · show (match check_offset game (adjacent_space_check game fuel) row col (b0, v) ij with
        | none => none
        | some st1 => scan_offsets _ L st1) = some (b, v')
      rw [he1]
      exact he
    · intro hb
      rcases hs hb with h | h
      · exact hs1 h
      · exact Or.inr h
    · intro hb
      obtain ⟨hb1, hL', hnew'⟩ := hc hb
      obtain ⟨hb0, hd, hnew⟩ := hc1 hb1
      refine ⟨hb0, ?_, ?_⟩
      · intro ij' hmem
        rcases List.mem_cons.mp hmem with rfl | h'
        · intro ht hin
          obtain ⟨hd1, hd2⟩ := hd ht hin
          exact ⟨hd1, fun e => hm _ _ (hd2 e)⟩
        · exact hL' ij' h'
      · intro x y hx hx'
        by_cases h1 : v1 x y = 'N'
        · exact hnew' x y h1 hx'
        · exact closedAt_mono game hm (hnew x y hx h1)

theorem unconsidered_pos (game : GameProperties) {v : Int → Int → Char} {row col : Int}
    (hin : inBounds game row col) (hN : v row col = 'N') : 0 < unconsidered game v := by
  have := unconsidered_setCell game hin hN
  omega

theorem adjacent_space_check_spec (game : GameProperties) : ∀ fuel : Nat, AscOk game fuel := by
  intro fuel
  induction fuel with
  | zero =>
    intro v row col hin hN hU
    have := unconsidered_pos game hin hN
    omega
  | succ fuel ih =>
    intro v row col hin hN hU
    have hU1 : unconsidered game (setCell v row col 'Y') ≤ fuel := by
      have := unconsidered_setCell game hin hN
      omega
    obtain ⟨b, v', he, hm, hs, hc⟩ :=
      scan_offsets_spec game fuel ih row col window (fun _ h => h) false
        (setCell v row col 'Y') (fun _ => hU1)
    have hmark : ∀ x y, v x y ≠ 'N' → setCell v row col 'Y' x y ≠ 'N' := by
      intro x y h
      unfold setCell
      split
      · decide
      · exact h
    refine ⟨b, v', ?_, fun x y h => hm x y (hmark x y h), ?_, ?_⟩
    · show (if (false : Bool) = true then some ((false, v) : Scan) else _) = _
      rw [if_neg (by decide)]
      exact he
    · intro hb
      rcases hs hb with h | h
      · cases h
      · exact h
    · intro hb
      obtain ⟨_, hL, hnew⟩ := hc hb
      have hself : v' row col ≠ 'N' := by
        apply hm
        simp [setCell]
      refine ⟨hself, ?_⟩
      intro x y hx hx'
      by_cases hxy : x = row ∧ y = col
      · obtain ⟨rfl, rfl⟩ := hxy
        intro n hn hnb
        obtain ⟨ij, hmem, htest, rfl⟩ := orthogonal_window x y n hn
        exact hL ij hmem htest hnb
      · apply hnew x y _ hx'
        unfold setCell
        rw [if_neg hxy]
        exact hx

theorem group_considered (game : GameProperties) (v : Int → Int → Char) (p q : Int × Int)
    (hp : v p.1 p.2 ≠ 'N')
    (hclosed : ∀ x y, v x y ≠ 'N' → closedAt game v (x, y))
    (hq : sameGroup game p q) : v q.1 q.2 ≠ 'N' := by
  induction hq with
  | refl => exact hp
  | tail _ hl ih => exact (hclosed _ _ ih _ hl.1 hl.2.1).2 hl.2.2

/-- On every cell of the board `any_liberties` returns, and it returns true exactly when
the group of the cell has a liberty. -/
theorem any_liberties_spec (game : GameProperties) (row col : Int)
    (hin : inBounds game row col) :
    ∃ b : Bool, any_liberties game row col = some b
        ∧ (b = true ↔ groupHasLiberty game row col) := by
  obtain ⟨b, v', he, _, hs, hc⟩ :=
    adjacent_space_check_spec game (game.height.toNat * game.width.toNat)
      (fun _ _ => 'N') row col hin rfl (le_of_eq (unconsidered_fresh game))
  refine ⟨b, ?_, hs, ?_⟩
  · unfold any_liberties
    rw [he]
  · rintro ⟨q, hq, ht⟩
    by_contra hb
    have hbf : b = false := by
      cases b
      · rfl
      · exact absurd rfl hb
    obtain ⟨hself, hnew⟩ := hc hbf
    have hq' := group_considered game v' (row, col) q hself (fun x y h => hnew x y rfl h) hq
    obtain ⟨n, hn, hnb, hdot⟩ := ht
    exact (hnew q.1 q.2 rfl hq' n hn hnb).1 hdot

/-- C1: for every board and every cell `(row, col)` on it, `any_liberties` returns, and it
returns true exactly when some cell of the group of `(row, col)` (the maximal orthogonally
connected set of same-token cells containing it) has an orthogonal neighbour on the board
that is `'.'`.  Diagonal neighbours do not count: a token at (0,0) whose two orthogonal
neighbours hold the other token has no liberty although the diagonal cell (1,1) is Empty. -/
theorem any_liberties_iff_group_touches_empty (game : GameProperties) (row col : Int)
    (hin : inBounds game row col) :
    (∃ b : Bool, any_liberties game row col = some b
        ∧ (b = true ↔ ∃ q : Int × Int, sameGroup game (row, col) q
            ∧ ∃ n : Int × Int, orthogonal q n ∧ inBounds game n.1 n.2
                ∧ game.gameGrid n.1 n.2 = '.'))
    ∧ any_liberties
        (place (place (place (initialise_grid 4 4) 0 0 'O') 0 1 'X') 1 0 'X') 0 0 = some false :=
  ⟨any_liberties_spec game row col hin, by decide⟩

/-- C1 on a 4x4 board with a single token at (1,1). -/
theorem any_liberties_iff_group_touches_empty_witness :
    ∃ b : Bool, any_liberties (place (initialise_grid 4 4) 1 1 'O') 1 1 = some b
        ∧ (b = true ↔ ∃ q : Int × Int, sameGroup (place (initialise_grid 4 4) 1 1 'O') (1, 1) q
            ∧ ∃ n : Int × Int, orthogonal q n
                ∧ inBounds (place (initialise_grid 4 4) 1 1 'O') n.1 n.2
                ∧ (place (initialise_grid 4 4) 1 1 'O').gameGrid n.1 n.2 = '.') :=
  (any_liberties_iff_group_touches_empty (place (initialise_grid 4 4) 1 1 'O') 1 1
    (by decide)).1

/-! ### The game-over check -/

theorem mem_scan_order (game : GameProperties) (q : Int × Int) :
    q ∈ scan_order game ↔ inBounds game q.1 q.2 := by
  unfold scan_order inBounds
  simp only [List.mem_flatMap, List.mem_map, List.mem_range]
  constructor
  · rintro ⟨i, hi, j, hj, rfl⟩
    simp only
    omega
  · intro h
    exact ⟨q.1.toNat, by omega, q.2.toNat, by omega,
      Prod.ext (by simp only; omega) (by simp only; omega)⟩

theorem check_cells_spec (game : GameProperties) (token winner : Char) :
    ∀ L : List (Int × Int), (∀ q ∈ L, inBounds game q.1 q.2) →
      ((∃ q ∈ L, game.gameGrid q.1 q.2 = token ∧ ¬ groupHasLiberty game q.1 q.2)
          ∧ check_cells game token winner L = some (Outcome.wins winner))
      ∨ ((∀ q ∈ L, game.gameGrid q.1 q.2 = token → groupHasLiberty game q.1 q.2)
          ∧ check_cells game token winner L = some Outcome.continues) := by
  intro L
  induction L with
  | nil =>
    intro _
    exact Or.inr ⟨fun q hq => absurd hq (List.not_mem_nil q), rfl⟩
  | cons q L ih =>
    intro hL
    have hrest := ih (fun q' h' => hL q' (List.mem_cons_of_mem _ h'))
    have hq := hL q (List.mem_cons_self _ _)
    have lift : ((∃ q' ∈ L, game.gameGrid q'.1 q'.2 = token
            ∧ ¬ groupHasLiberty game q'.1 q'.2)
          ∧ check_cells game token winner L = some (Outcome.wins winner))
        ∨ ((∀ q' ∈ L, game.gameGrid q'.1 q'.2 = token → groupHasLiberty game q'.1 q'.2)
          ∧ check_cells game token winner L = some Outcome.continues) →
        (game.gameGrid q.1 q.2 = token → groupHasLiberty game q.1 q.2) →
        ((∃ q' ∈ q :: L, game.gameGrid q'.1 q'.2 = token
            ∧ ¬ groupHasLiberty game q'.1 q'.2)
          ∧ check_cells game token winner L = some (Outcome.wins winner))
        ∨ ((∀ q' ∈ q :: L, game.gameGrid q'.1 q'.2 = token
            → groupHasLiberty game q'.1 q'.2)
          ∧ check_cells game token winner L = some Outcome.continues) := by
      intro h hthis
      rcases h with ⟨⟨q', hm, hq'⟩, he⟩ | ⟨hall, he⟩
      · exact Or.inl ⟨⟨q', List.mem_cons_of_mem _ hm, hq'⟩, he⟩
      · refine Or.inr ⟨?_, he⟩
        intro q' hm
        rcases List.mem_cons.mp hm with rfl | hm'
        · exact hthis
        · exact hall q' hm'
    unfold check_cells
    by_cases htok : game.gameGrid q.1 q.2 = token
    · rw [if_pos htok]
      obtain ⟨b, hb, hiff⟩ := any_liberties_spec game q.1 q.2 hq
      rw [hb]
      cases b with
      | false =>
        refine Or.inl ⟨⟨q, List.mem_cons_self _ _, htok, ?_⟩, rfl⟩
        intro hg
        exact absurd (hiff.mpr hg) (by decide)
      | true => exact lift hrest (fun _ => hiff.mp rfl)
    · rw [if_neg htok]
      exact lift hrest (fun h => absurd h htok)

/-- `check_game_over` returns: with the opponent as winner when a cell of the player's
token lies in a group without liberty, normally otherwise. -/
theorem check_game_over_spec (game : GameProperties) (players : Players) (p : Int) :
    ((∃ i j, inBounds game i j ∧ game.gameGrid i j = (players.get p).token
          ∧ ¬ groupHasLiberty game i j)
        ∧ check_game_over game players p = some (Outcome.wins (players.get (1 - p)).token))
    ∨ ((∀ i j, inBounds game i j → game.gameGrid i j = (players.get p).token
          → groupHasLiberty game i j)
        ∧ check_game_over game players p = some Outcome.continues) := by
  unfold check_game_over
  rcases check_cells_spec game (players.get p).token (players.get (1 - p)).token
      (scan_order game) (fun q hq => (mem_scan_order game q).mp hq) with
    ⟨⟨q, hm, hq⟩, he⟩ | ⟨hall, he⟩
  · exact Or.inl ⟨⟨q.1, q.2, (mem_scan_order game q).mp hm, hq⟩, he⟩
  · exact Or.inr ⟨fun i j hin => hall (i, j) ((mem_scan_order game (i, j)).mpr hin), he⟩

/-! ### One pass of the loop of `run_game` -/

theorem sameButVars_refl (ps : Players) : sameButVars ps ps :=
  ⟨rfl, rfl, rfl, rfl, rfl, rfl⟩

theorem sameButVars_trans {a b c : Players} (h1 : sameButVars a b) (h2 : sameButVars b c) :
    sameButVars a c := by
  unfold sameButVars at *
  obtain ⟨a1, a2, a3, a4, a5, a6⟩ := h1
  obtain ⟨b1, b2, b3, b4, b5, b6⟩ := h2
  exact ⟨b1.trans a1, b2.trans a2, b3.trans a3, b4.trans a4, b5.trans a5, b6.trans a6⟩

theorem sameButVars_increment (game : GameProperties) (ps : Players) (active : Int) :
    sameButVars ps (increment_next_move game ps active) := by
  unfold increment_next_move Players.set Players.get sameButVars
  split <;> simp

theorem sameButVars_get {ps ps1 : Players} (h : sameButVars ps ps1) (i : Int) :
    (ps1.get i).type = (ps.get i).type ∧ (ps1.get i).token = (ps.get i).token
      ∧ (ps1.get i).move = (ps.get i).move := by
  unfold sameButVars at h
  unfold Players.get
  split
  · exact ⟨h.1, h.2.1, h.2.2.1⟩
  · exact ⟨h.2.2.2.1, h.2.2.2.2.1, h.2.2.2.2.2⟩

theorem search_move_found (game : GameProperties) (active : Int) :
    ∀ (fuel : Nat) (ps ps1 : Players), search_move game active fuel ps = Search.found ps1 →
      sameButVars ps ps1
      ∧ inBounds game (ps1.get active).vars.nextX (ps1.get active).vars.nextY
      ∧ game.gameGrid (ps1.get active).vars.nextX (ps1.get active).vars.nextY = '.' := by
  intro fuel
  induction fuel with
  | zero => intro ps ps1 h; cases h
  | succ fuel ih =>
    intro ps ps1 h
    unfold search_move at h
    split at h
    · rename_i hb
      split at h
      · obtain ⟨h1, h2, h3⟩ := ih _ _ h
        exact ⟨sameButVars_trans (sameButVars_increment game ps active) h1, h2, h3⟩
      · rename_i hdot
        cases h
        exact ⟨sameButVars_refl ps, hb, not_not.mp hdot⟩
    · cases h

theorem get_player_move_valid (game : GameProperties) (players : Players) (active : Int) :
    ∀ (input : List InputLine) (xy : Int × Int) (rest : List InputLine)
      (files : List (List Char)),
      get_player_move game players active input = some (xy, rest, files) →
      valid_move game xy.1 xy.2 = true := by
  intro input
  induction input with
  | nil => intro xy rest files h; cases h
  | cons line input ih =>
    intro xy rest files h
    cases line with
    | save =>
      unfold get_player_move at h
      split at h
      · cases h
      · rename_i xy1 rest1 files1 he
        cases h
        exact ih _ _ _ he
    | move x y =>
      unfold get_player_move at h
      split at h
      · rename_i hv
        cases h
        exact hv
      · exact ih _ _ _ h
    | other =>
      unfold get_player_move at h
      exact ih _ _ _ h

/-- A pass of the loop that plays a move: both game-over checks returned, the move was
valid on the board before it, and the new state is `apply_move` on players that differ
from the old ones in generator variables only. -/
theorem run_game_turn_played {fuel : Nat} {s s1 : GameState} {input rest : List InputLine}
    {x y : Int} {files : List (List Char)}
    (h : run_game_turn fuel s input = some (Turn.played s1 x y rest files)) :
    check_game_over s.game s.players (1 - s.active) = some Outcome.continues
    ∧ check_game_over s.game s.players s.active = some Outcome.continues
    ∧ valid_move s.game x y = true
    ∧ ∃ ps1 : Players, sameButVars s.players ps1
        ∧ s1 = apply_move s.game ps1 (next_active s.players) x y := by
  unfold run_game_turn at h
  split at h
  · cases h
  · cases h
  · rename_i hc1
    split at h
    · cases h
    · cases h
    · rename_i hc2
      refine ⟨hc1, hc2, ?_⟩
      split at h
      · split at h
        · cases h
        · cases h
        · rename_i players1 hs
          obtain ⟨h1, h2, h3⟩ := search_move_found _ _ _ _ _ hs
          simp only [Option.some.injEq, Turn.played.injEq] at h
          obtain ⟨hs1, hx, hy, _, _⟩ := h
          subst hx hy
          refine ⟨valid_move_spec.mpr ⟨h2, h3⟩, _, ?_, hs1.symm⟩
          exact sameButVars_trans h1 (sameButVars_increment _ _ _)
      · split at h
        · cases h
        · rename_i xy rest1 files1 hg
          simp only [Option.some.injEq, Turn.played.injEq] at h
          obtain ⟨hs1, hx, hy, _, _⟩ := h
          subst hx hy
          exact ⟨get_player_move_valid _ _ _ _ _ _ _ hg, _, sameButVars_refl _, hs1.symm⟩

/-- C6: `check_game_over(game, players, p)` ends the game with the opponent of `p` as
winner exactly when some cell holding the token of `p` lies in a group without liberty,
and returns normally exactly when there is none (it has no state to change).  Hence a pass
of the loop of `run_game` that does not end the game at its two checks, and so goes on to
ask for a move, starts from a board on which the group of every cell of either player has
a liberty; a single `'O'` enclosed by `'X'` on a 4x4 board makes X win at the checks,
whatever the input and before any move is asked for. -/
theorem check_game_over_iff_group_without_liberty (s : GameState) (p : Int)
    (hact : s.active = 0 ∨ s.active = 1) :
    (check_game_over s.game s.players p = some (Outcome.wins (s.players.get (1 - p)).token)
        ↔ ∃ i j, inBounds s.game i j ∧ s.game.gameGrid i j = (s.players.get p).token
            ∧ ¬ groupHasLiberty s.game i j)
    ∧ (check_game_over s.game s.players p = some Outcome.continues
        ↔ ¬ ∃ i j, inBounds s.game i j ∧ s.game.gameGrid i j = (s.players.get p).token
            ∧ ¬ groupHasLiberty s.game i j)
    ∧ (∀ (fuel : Nat) (input : List InputLine),
        (∀ t, run_game_turn fuel s input ≠ some (Turn.over t)) →
        ∀ i j, inBounds s.game i j →
          (s.game.gameGrid i j = (s.players.get 0).token
            ∨ s.game.gameGrid i j = (s.players.get 1).token) →
          groupHasLiberty s.game i j)
    ∧ (∀ (fuel : Nat) (input : List InputLine) (ps : Players) (a1 a2 : Char),
        run_game_turn fuel
          { game := enclosed_board,
            players := initialise_player enclosed_board ps a1 a2, active := 1 } input
          = some (Turn.over 'X')) := by
  refine ⟨?_, ?_, ?_, ?_⟩
  · rcases check_game_over_spec s.game s.players p with ⟨hex, he⟩ | ⟨hall, he⟩
    · exact ⟨fun _ => hex, fun _ => he⟩
    · rw [he]
      constructor
      · intro h; cases h
      · rintro ⟨i, j, hin, htok, hno⟩
        exact absurd (hall i j hin htok) hno
  · rcases check_game_over_spec s.game s.players p with ⟨hex, he⟩ | ⟨hall, he⟩
    · rw [he]
      constructor
      · intro h; cases h
      · intro h; exact absurd hex h
    · refine ⟨fun _ => ?_, fun _ => he⟩
      rintro ⟨i, j, hin, htok, hno⟩
      exact absurd (hall i j hin htok) hno
  · intro fuel input hnot
    have h1 : ∀ i j, inBounds s.game i j →
        s.game.gameGrid i j = (s.players.get (1 - s.active)).token →
        groupHasLiberty s.game i j := by
      rcases check_game_over_spec s.game s.players (1 - s.active) with ⟨_, he⟩ | ⟨hall, _⟩
      · exfalso
        apply hnot (s.players.get (1 - (1 - s.active))).token
        unfold run_game_turn
        rw [he]
      · exact hall
    have h2 : ∀ i j, inBounds s.game i j →
        s.game.gameGrid i j = (s.players.get s.active).token →
        groupHasLiberty s.game i j := by
      rcases check_game_over_spec s.game s.players (1 - s.active) with ⟨_, he1⟩ | ⟨_, he1⟩
      · exfalso
        apply hnot (s.players.get (1 - (1 - s.active))).token
        unfold run_game_turn
        rw [he1]
      · rcases check_game_over_spec s.game s.players s.active with ⟨_, he⟩ | ⟨hall, _⟩
        · exfalso
          apply hnot (s.players.get (1 - s.active)).token
          unfold run_game_turn
          rw [he1, he]
        · exact hall
    intro i j hin htok
    rcases hact with ha | ha
    · rw [ha] at h1 h2
      rcases htok with ht | ht
      · exact h2 i j hin ht
      · exact h1 i j hin ht
    · rw [ha] at h1 h2
      rcases htok with ht | ht
      · exact h1 i j hin ht
      · exact h2 i j hin ht
  · intro fuel input ps a1 a2
    rfl

/-- C6 on the board of the enclosed token, for player A. -/
theorem check_game_over_iff_group_without_liberty_witness :
    check_game_over enclosed_board (initialise_player enclosed_board zero_players 'h' 'h') 0
        = some (Outcome.wins 'X')
      ↔ ∃ i j, inBounds enclosed_board i j ∧ enclosed_board.gameGrid i j = 'O'
          ∧ ¬ groupHasLiberty enclosed_board i j :=
  (check_game_over_iff_group_without_liberty
    { game := enclosed_board,
      players := initialise_player enclosed_board zero_players 'h' 'h', active := 1 }
    0 (by decide)).1

/-! ### Turn order -/

theorem occupied_le (game : GameProperties) :
    occupied game ≤ game.height.toNat * game.width.toNat := by
  unfold occupied
  refine le_trans (Finset.card_filter_le _ _) ?_
  unfold cells
  simp [Finset.card_product, Int.card_Ico]

theorem occupied_place (game : GameProperties) (x y : Int) (t : Char)
    (hin : inBounds game x y) (hdot : game.gameGrid x y = '.') (ht : t ≠ '.') :
    occupied (place game x y t) = occupied game + 1 := by
  unfold occupied
  have hcells : cells (place game x y t) = cells game := rfl
  rw [hcells]
  have hset : (cells game).filter (fun p => (place game x y t).gameGrid p.1 p.2 ≠ '.')
      = insert (x, y) ((cells game).filter (fun p => game.gameGrid p.1 p.2 ≠ '.')) := by
    ext p
    rw [Finset.mem_insert, Finset.mem_filter, Finset.mem_filter]
    by_cases hp : p = (x, y)
    · subst hp
      simp only [true_or, iff_true]
      refine ⟨(mem_cells game _).mpr hin, ?_⟩
      simp [place, setCell, ht]
    · have hne : ¬ (p.1 = x ∧ p.2 = y) := by
        intro hc
        exact hp (Prod.ext hc.1 hc.2)
      simp only [hp, false_or]
      simp only [place, setCell, if_neg hne]
  rw [hset, Finset.card_insert_of_not_mem]
  rw [Finset.mem_filter]
  intro hc
  exact hc.2 hdot

theorem fresh_run_invariant (height width : Int) (ps : Players) (a1 a2 : Char)
    (hh : height ≤ 1000) (hw : width ≤ 1000) :
    ∀ (n : Nat) (s : GameState), ReachedIn (fresh_state height width ps a1 a2) n s →
      s.game.height = height ∧ s.game.width = width ∧ occupied s.game = n
      ∧ s.players.p0.token = 'O' ∧ s.players.p1.token = 'X'
      ∧ s.players.p0.move = ((n : Int) + 1) / 2 ∧ s.players.p1.move = (n : Int) / 2
      ∧ (1 ≤ n → s.active = ((n : Int) - 1) % 2) := by
  intro n s hr
  induction hr with
  | start =>
    refine ⟨rfl, rfl, ?_, rfl, rfl, rfl, rfl, ?_⟩
    · unfold occupied
      simp [fresh_state, initialise_grid]
    · intro h; omega
  | turn fuel input hprev hturn ih =>
    rename_i n s s1 rest x y files
    obtain ⟨hH, hW, hocc, ht0, ht1, hm0, hm1, _⟩ := ih
    obtain ⟨_, _, hvalid, ps1, hsame, hs1⟩ := run_game_turn_played hturn
    obtain ⟨hin, hdot⟩ := valid_move_spec.mp hvalid
    have hbound : (n : Int) < 1000000 := by
      have h1 := occupied_place s.game x y 'O' hin hdot (by decide)
      have h2 := occupied_le (place s.game x y 'O')
      have h3 : (place s.game x y 'O').height.toNat * (place s.game x y 'O').width.toNat
          ≤ 1000 * 1000 := by
        apply Nat.mul_le_mul
        · show s.game.height.toNat ≤ 1000
          omega
        · show s.game.width.toNat ≤ 1000
          omega
      omega
    have hn0 : (0 : Int) ≤ n := Int.ofNat_nonneg n
    obtain ⟨_, q0, r0, _, q1, r1⟩ := hsame
    have hact : next_active s.players = (n : Int) % 2 := by
      unfold next_active Players.get
      simp only [show ¬ ((1 : Int) = 0) by decide, if_true, if_false, hm0, hm1]
      split <;> omega
    have hcast : ((n + 1 : Nat) : Int) = (n : Int) + 1 := by push_cast; rfl
    rw [hs1, hcast]
    rcases Int.emod_two_eq_zero_or_one (n : Int) with hpar | hpar
    · rw [hact, hpar]
      have htok : (ps1.get 0).token ≠ '.' := by
        show ps1.p0.token ≠ '.'
        rw [q0, ht0]; decide
      refine ⟨hH, hW, ?_, ?_, ?_, ?_, ?_, ?_⟩
      · show occupied (place s.game x y (ps1.get 0).token) = n + 1
        rw [occupied_place s.game x y _ hin hdot htok, hocc]
      · show ps1.p0.token = 'O'
        rw [q0, ht0]
      · show ps1.p1.token = 'X'
        rw [q1, ht1]
      · show wrap32 (ps1.p0.move + 1) = _
        rw [r0, hm0, wrap32_of_isInt32 ⟨by omega, by omega⟩]
        omega
      · show ps1.p1.move = _
        rw [r1, hm1]
        omega
      · intro _
        show (0 : Int) = _
        omega
    · rw [hact, hpar]
      have htok : (ps1.get 1).token ≠ '.' := by
        show ps1.p1.token ≠ '.'
        rw [q1, ht1]; decide
      refine ⟨hH, hW, ?_, ?_, ?_, ?_, ?_, ?_⟩
      · show occupied (place s.game x y (ps1.get 1).token) = n + 1
        rw [occupied_place s.game x y _ hin hdot htok, hocc]
      · show ps1.p0.token = 'O'
        rw [q0, ht0]
      · show ps1.p1.token = 'X'
        rw [q1, ht1]
      · show ps1.p0.move = _
        rw [r0, hm0]
        omega
      · show wrap32 (ps1.p1.move + 1) = _
        rw [r1, hm1, wrap32_of_isInt32 ⟨by omega, by omega⟩]
        omega
      · intro _
        show (1 : Int) = _
        omega

/-- C5: `run_game` lets the player with the strictly smaller move count move, and player
A (index 0) when the counts are equal.  Hence in a fresh game (dimensions at most 1000)
the players alternate A, B, A, B, ...: after `n` turns the player to move is `n mod 2`,
the player who moved last is `(n-1) mod 2`, and the move counts are `(n+1)/2` and `n/2`,
so that moveCount(A) - moveCount(B) is 0 or 1. -/
theorem turn_order_alternates (height width : Int) (ps : Players) (a1 a2 : Char)
    (hh : height ≤ 1000) (hw : width ≤ 1000) :
    (∀ players : Players, (players.get 1).move < (players.get 0).move →
        next_active players = 1)
    ∧ (∀ players : Players, (players.get 0).move < (players.get 1).move →
        next_active players = 0)
    ∧ (∀ players : Players, (players.get 0).move = (players.get 1).move →
        next_active players = 0)
    ∧ ∀ (n : Nat) (s : GameState), ReachedIn (fresh_state height width ps a1 a2) n s →
        next_active s.players = (n : Int) % 2
        ∧ (1 ≤ n → s.active = ((n : Int) - 1) % 2)
        ∧ (s.players.get 0).move = ((n : Int) + 1) / 2
        ∧ (s.players.get 1).move = (n : Int) / 2
        ∧ ((s.players.get 0).move - (s.players.get 1).move = 0
            ∨ (s.players.get 0).move - (s.players.get 1).move = 1) := by
  refine ⟨?_, ?_, ?_, ?_⟩
  · intro players h
    unfold next_active
    rw [if_pos h]
  · intro players h
    unfold next_active
    rw [if_neg (by omega)]
  · intro players h
    unfold next_active
    rw [if_neg (by omega)]
  · intro n s hr
    obtain ⟨_, _, _, _, _, hm0, hm1, hact⟩ :=
      fresh_run_invariant height width ps a1 a2 hh hw n s hr
    have e0 : (s.players.get 0).move = s.players.p0.move := rfl
    have e1 : (s.players.get 1).move = s.players.p1.move := rfl
    rw [e0, e1, hm0, hm1]
    refine ⟨?_, hact, rfl, rfl, by omega⟩
    unfold next_active
    rw [e0, e1, hm0, hm1]
    split <;> omega

/-- C5 after the first turn of a fresh 4x4 game of two computer players: B is to move. -/
theorem turn_order_alternates_witness :
    next_active (apply_move (initialise_grid 4 4)
        (increment_next_move (initialise_grid 4 4)
          (initialise_player (initialise_grid 4 4) zero_players 'c' 'c') 0) 0 1 0).players
      = ((1 : Nat) : Int) % 2 :=
  ((turn_order_alternates 4 4 zero_players 'c' 'c' (by decide) (by decide)).2.2.2 1 _
    (ReachedIn.turn 1 [] ReachedIn.start (by rfl))).1

/-! ### Printing and reading integers -/

theorem scan_digits_cons (c : Char) (rest : List Char) (acc : Nat) :
    scan_digits (c :: rest) acc
      = if is_digit c then scan_digits rest (10 * acc + (c.toNat - 48)) else (acc, c :: rest) :=
  rfl

theorem scan_unsigned_cons (c : Char) (rest : List Char) :
    scan_unsigned (c :: rest)
      = if is_digit c then some (scan_digits (c :: rest) 0) else none := rfl

theorem skip_spaces_cons (c : Char) (rest : List Char) :
    skip_spaces (c :: rest) = if is_space c then skip_spaces rest else c :: rest := rfl

theorem digit_char_spec : ∀ d : Nat, d < 10 →
    is_digit (digit_char d) = true ∧ (digit_char d).toNat - 48 = d
      ∧ is_space (digit_char d) = false ∧ digit_char d ≠ '-' ∧ digit_char d ≠ '+' := by
  decide

theorem print_nat_aux_append : ∀ (fuel n : Nat) (acc : List Char),
    print_nat_aux fuel n acc = print_nat_aux fuel n [] ++ acc := by
  intro fuel
  induction fuel with
  | zero => intro n acc; rfl
  | succ fuel ih =>
    intro n acc
    unfold print_nat_aux
    split
    · rfl
    · rw [ih (n / 10) (digit_char (n % 10) :: acc), ih (n / 10) [digit_char (n % 10)],
        List.append_assoc]
      rfl

theorem scan_digits_print : ∀ (fuel n : Nat) (acc : List Char), n < fuel →
    scan_digits (print_nat_aux fuel n acc) 0 = scan_digits acc n := by
  intro fuel
  induction fuel with
  | zero => intro n acc h; omega
  | succ fuel ih =>
    intro n acc h
    unfold print_nat_aux
    split
    · rename_i h10
      obtain ⟨h1, h2, _⟩ := digit_char_spec n h10
      rw [scan_digits_cons, if_pos h1, h2]
      simp
    · rename_i h10
      rw [ih (n / 10) _ (by omega)]
      obtain ⟨h1, h2, _⟩ := digit_char_spec (n % 10) (by omega)
      rw [scan_digits_cons, if_pos h1, h2]
      have e : 10 * (n / 10) + n % 10 = n := by omega
      rw [e]

theorem print_nat_aux_head : ∀ (fuel n : Nat) (acc : List Char), n < fuel →
    ∃ (c : Char) (tail : List Char), print_nat_aux fuel n acc = c :: tail
      ∧ is_digit c = true := by
  intro fuel
  induction fuel with
  | zero => intro n acc h; omega
  | succ fuel ih =>
    intro n acc h
    unfold print_nat_aux
    split
    · rename_i h10
      exact ⟨_, _, rfl, (digit_char_spec n h10).1⟩
    · exact ih (n / 10) _ (by omega)

theorem is_digit_not_other {c : Char} (h : is_digit c = true) :
    is_space c = false ∧ c ≠ '-' ∧ c ≠ '+' := by
  unfold is_digit at h
  unfold is_space
  simp only [decide_eq_true_eq] at h
  refine ⟨?_, ?_, ?_⟩
  · simp only [decide_eq_false_iff_not]; omega
  · rintro rfl; revert h; decide
  · rintro rfl; revert h; decide

theorem scan_unsigned_print (n : Nat) (rest : List Char) (hrest : noDigitAhead rest) :
    scan_unsigned (print_nat n ++ rest) = some (n, rest) := by
  unfold print_nat
  rw [← print_nat_aux_append]
  obtain ⟨c, tail, he, hc⟩ := print_nat_aux_head (n + 1) n rest (by omega)
  have hs := scan_digits_print (n + 1) n rest (by omega)
  rw [he] at hs ⊢
  rw [scan_unsigned_cons, if_pos hc, hs]
  cases rest with
  | nil => rfl
  | cons d tail' =>
    rw [scan_digits_cons, if_neg (by rw [hrest d tail' rfl]; decide)]

theorem scan_int_print (x : Int) (rest : List Char) (hx : isInt32 x)
    (hrest : noDigitAhead rest) : scan_int (print_int x ++ rest) = some (x, rest) := by
  unfold print_int
  split
  · rename_i hneg
    unfold scan_int
    have hsk : skip_spaces ('-' :: print_nat (-x).toNat ++ rest)
        = '-' :: (print_nat (-x).toNat ++ rest) := by
      rw [List.cons_append, skip_spaces_cons, if_neg (by decide)]
    rw [hsk]
    simp only [if_true]
    rw [scan_unsigned_print _ _ hrest]
    simp only
    have e : -(((-x).toNat : Nat) : Int) = x := by omega
    rw [e, wrap32_of_isInt32 hx]
  · rename_i hpos
    unfold scan_int
    have hs := scan_unsigned_print x.toNat rest hrest
    obtain ⟨c, tail, he, hc⟩ : ∃ c tail, print_nat x.toNat ++ rest = c :: tail
        ∧ is_digit c = true := by
      unfold print_nat
      rw [← print_nat_aux_append]
      exact print_nat_aux_head (x.toNat + 1) x.toNat rest (by omega)
    rw [he] at hs ⊢
    obtain ⟨h1, h2, h3⟩ := is_digit_not_other hc
    have hsk : skip_spaces (c :: tail) = c :: tail := by
      rw [skip_spaces_cons, if_neg (by rw [h1]; decide)]
    rw [hsk]
    simp only [if_neg h2, if_neg h3]
    rw [hs]
    simp only
    have e : ((x.toNat : Nat) : Int) = x := by omega
    rw [e, wrap32_of_isInt32 hx]

theorem scan_int_space (s : List Char) : scan_int (' ' :: s) = scan_int s := by
  unfold scan_int
  rw [skip_spaces_cons, if_pos (by decide)]

theorem scan_ints_succ (n : Nat) (s : List Char) :
    scan_ints (n + 1) s
      = match scan_int s with
        | none => none
        | some (x, s1) =>
          match scan_ints n s1 with
          | none => none
          | some (xs, s2) => some (x :: xs, s2) := rfl

theorem scan_ints_space (n : Nat) (s : List Char) :
    scan_ints (n + 1) (' ' :: s) = scan_ints (n + 1) s := by
  rw [scan_ints_succ, scan_ints_succ, scan_int_space]

theorem scan_ints_print : ∀ (xs : List Int) (rest : List Char),
    (∀ x ∈ xs, isInt32 x) → noDigitAhead rest →
    scan_ints xs.length (print_ints xs ++ rest) = some (xs, rest) := by
  intro xs
  induction xs with
  | nil => intro rest _ _; rfl
  | cons x tl ih =>
    intro rest hx hrest
    cases tl with
    | nil =>
      show scan_ints 1 (print_int x ++ rest) = _
      rw [scan_ints_succ, scan_int_print x rest (hx x (List.mem_cons_self _ _)) hrest]
      rfl
    | cons y tl' =>
      show scan_ints ((y :: tl').length + 1)
        ((print_int x ++ ' ' :: print_ints (y :: tl')) ++ rest) = _
      rw [List.append_assoc, List.cons_append, scan_ints_succ,
        scan_int_print x _ (hx x (List.mem_cons_self _ _))
          (by intro c tail hc; cases hc; decide)]
      simp only
      rw [List.length_cons, scan_ints_space, ← List.length_cons,
        ih rest (fun z hz => hx z (List.mem_cons_of_mem _ hz)) hrest]

/-! ### Reading the grid of a snapshot -/

theorem next_token_cons (c : Char) (rest : List Char) :
    next_token (c :: rest) = if is_token c then some (c, rest) else next_token rest := rfl

theorem read_tokens_succ (n : Nat) (s : List Char) :
    read_tokens (n + 1) s
      = match next_token s with
        | none => none
        | some (c, s1) =>
          match read_tokens n s1 with
          | none => none
          | some (cs, s2) => some (c :: cs, s2) := rfl

theorem read_rows_succ (h w : Nat) (s : List Char) :
    read_rows (h + 1) w s
      = match read_tokens w s with
        | none => none
        | some (row, s1) =>
          match read_rows h w s1 with
          | none => none
          | some rows => some (row :: rows) := rfl

theorem read_tokens_row : ∀ (row rest : List Char), (∀ c ∈ row, is_token c = true) →
    read_tokens row.length (row ++ rest) = some (row, rest) := by
  intro row
  induction row with
  | nil => intro rest _; rfl
  | cons c row ih =>
    intro rest h
    rw [List.length_cons, read_tokens_succ, List.cons_append, next_token_cons,
      if_pos (h c (List.mem_cons_self _ _))]
    simp only
    rw [ih rest (fun d hd => h d (List.mem_cons_of_mem _ hd))]

theorem read_tokens_line (row rest : List Char) (hne : row ≠ [])
    (h : ∀ c ∈ row, is_token c = true) :
    read_tokens row.length ('\n' :: (row ++ rest)) = some (row, rest) := by
  cases row with
  | nil => exact absurd rfl hne
  | cons c row =>
    rw [List.length_cons, read_tokens_succ, next_token_cons, if_neg (by decide),
      ← read_tokens_succ, ← List.length_cons]
    exact read_tokens_row (c :: row) rest h

theorem read_rows_save (game : GameProperties) (hw : 1 ≤ game.width)
    (htok : ∀ i j, inBounds game i j → is_token (game.gameGrid i j) = true) :
    ∀ idx : List Nat, (∀ i ∈ idx, i < game.height.toNat) →
      read_rows idx.length game.width.toNat
          ('\n' :: idx.flatMap (fun (i : Nat) => save_row game (i : Int)))
        = some (idx.map (fun (i : Nat) => (List.range game.width.toNat).map
            (fun (j : Nat) => game.gameGrid (i : Int) (j : Int)))) := by
  intro idx
  induction idx with
  | nil => intro _; rfl
  | cons i idx ih =>
    intro hidx
    have hi := hidx i (List.mem_cons_self _ _)
    have hlen : ((List.range game.width.toNat).map
        (fun (j : Nat) => game.gameGrid (i : Int) (j : Int))).length = game.width.toNat := by
      rw [List.length_map, List.length_range]
    have hne : (List.range game.width.toNat).map
        (fun (j : Nat) => game.gameGrid (i : Int) (j : Int)) ≠ [] := by
      intro hc
      rw [hc] at hlen
      simp at hlen
      omega
    have hrow : ∀ c ∈ (List.range game.width.toNat).map
        (fun (j : Nat) => game.gameGrid (i : Int) (j : Int)), is_token c = true := by
      intro c hc
      rw [List.mem_map] at hc
      obtain ⟨j, hj, rfl⟩ := hc
      rw [List.mem_range] at hj
      apply htok
      unfold inBounds
      omega
    rw [List.length_cons, read_rows_succ, List.flatMap_cons]
    unfold save_row
    rw [List.append_assoc]
    have hline := read_tokens_line _ (['\n'] ++ idx.flatMap
      (fun (i : Nat) => (List.range game.width.toNat).map
        (fun (j : Nat) => game.gameGrid (i : Int) (j : Int)) ++ ['\n'])) hne hrow
    rw [hlen] at hline
    rw [hline]
    simp only
    have ih' := ih (fun k hk => hidx k (List.mem_cons_of_mem _ hk))
    unfold save_row at ih'
    rw [List.singleton_append, ih']
    rfl

theorem grid_of_rows_grid_rows (game : GameProperties) (i j : Int)
    (hin : inBounds game i j) :
    grid_of_rows (grid_rows game) i j = game.gameGrid i j := by
  unfold inBounds at hin
  unfold grid_of_rows grid_rows
  rw [if_pos ⟨hin.1, hin.2.2.1⟩]
  have hi : i.toNat < game.height.toNat := by omega
  have hj : j.toNat < game.width.toNat := by omega
  simp [List.getD_eq_getElem?_getD, List.getElem?_map, List.getElem?_range, hi, hj]
  congr 1 <;> omega

/-! ### Save followed by load -/

theorem validate_row_line : ∀ (row rest : List Char), (∀ c ∈ row, is_token c = true) →
    validate_row row.length (row ++ '\n' :: rest) = some rest := by
  intro row
  induction row with
  | nil =>
    intro rest _
    show (if '\n' = '\n' then some rest else none) = some rest
    rw [if_pos rfl]
  | cons c row ih =>
    intro rest h
    show (if is_token c = true then validate_row row.length (row ++ '\n' :: rest) else none)
      = some rest
    rw [if_pos (h c (List.mem_cons_self _ _)),
      ih rest (fun d hd => h d (List.mem_cons_of_mem _ hd))]

theorem save_row_tokens (game : GameProperties)
    (htok : ∀ i j, inBounds game i j → is_token (game.gameGrid i j) = true)
    (i : Nat) (hi : i < game.height.toNat) :
    ∀ c ∈ (List.range game.width.toNat).map
        (fun (j : Nat) => game.gameGrid (i : Int) (j : Int)), is_token c = true := by
  intro c hc
  rw [List.mem_map] at hc
  obtain ⟨j, hj, rfl⟩ := hc
  rw [List.mem_range] at hj
  apply htok
  unfold inBounds
  omega

theorem validate_rows_save (game : GameProperties)
    (htok : ∀ i j, inBounds game i j → is_token (game.gameGrid i j) = true) :
    ∀ idx : List Nat, (∀ i ∈ idx, i < game.height.toNat) →
      validate_rows idx.length game.width.toNat
          (idx.flatMap (fun (i : Nat) => save_row game (i : Int))) = true := by
  intro idx
  induction idx with
  | nil => intro _; rfl
  | cons i idx ih =>
    intro hidx
    have hrow := save_row_tokens game htok i (hidx i (List.mem_cons_self _ _))
    have hline := validate_row_line _
      (idx.flatMap (fun (i : Nat) => save_row game (i : Int))) hrow
    rw [List.length_map, List.length_range] at hline
    show (match validate_row game.width.toNat
        ((i :: idx).flatMap (fun (i : Nat) => save_row game (i : Int))) with
      | none => false
      | some rest => validate_rows idx.length game.width.toNat rest) = true
    rw [List.flatMap_cons]
    have e : save_row game (i : Int) ++ idx.flatMap (fun (i : Nat) => save_row game (i : Int))
        = (List.range game.width.toNat).map
            (fun (j : Nat) => game.gameGrid (i : Int) (j : Int))
          ++ '\n' :: idx.flatMap (fun (i : Nat) => save_row game (i : Int)) := by
      unfold save_row
      rw [List.append_assoc]
      rfl
    rw [e, hline]
    exact ih (fun k hk => hidx k (List.mem_cons_of_mem _ hk))

theorem save_header (game : GameProperties) (players : Players) (active : Int)
    (h : Saveable game players active) :
    scan_ints 9 (save game players active)
      = some ([game.height, game.width, active,
          (players.get 0).vars.nextX, (players.get 0).vars.nextY, (players.get 0).vars.m,
          (players.get 1).vars.nextX, (players.get 1).vars.nextY, (players.get 1).vars.m],
        '\n' :: (List.range game.height.toNat).flatMap
          (fun (i : Nat) => save_row game (i : Int))) := by
  obtain ⟨h1, h2, h3, h4, h5, _, i1, i2, i3, i4, i5, i6⟩ := h
  unfold save
  apply scan_ints_print
    [game.height, game.width, active,
      (players.get 0).vars.nextX, (players.get 0).vars.nextY, (players.get 0).vars.m,
      (players.get 1).vars.nextX, (players.get 1).vars.nextY, (players.get 1).vars.m]
  · intro x hx
    simp only [List.mem_cons, List.mem_singleton, List.not_mem_nil, or_false] at hx
    rcases hx with rfl | rfl | rfl | rfl | rfl | rfl | rfl | rfl | rfl
    · unfold isInt32; omega
    · unfold isInt32; omega
    · unfold isInt32; omega
    · exact i1
    · exact i2
    · exact i3
    · exact i4
    · exact i5
    · exact i6
  · intro c tail hc
    cases hc
    decide

/-- Loading the snapshot of a state: the validator accepts it, and `load_saved_data`
returns the saved board and the players rebuilt from the saved header. -/
theorem load_save (game : GameProperties) (players ps : Players) (active : Int)
    (a1 a2 : Char) (h : Saveable game players active) :
    validate_load_file (some (save game players active)) = Checked.passes
    ∧ load_saved_data (save game players active) ps a1 a2
      = some (reloaded_board game,
          loaded_players (reloaded_board game) ps a1 a2 active
            (players.get 0).vars.nextX (players.get 0).vars.nextY (players.get 0).vars.m
            (players.get 1).vars.nextX (players.get 1).vars.nextY (players.get 1).vars.m) := by
  have hhead := save_header game players active h
  obtain ⟨h1, h2, h3, h4, h5, htok, _⟩ := h
  have hidx : ∀ i ∈ List.range game.height.toNat, i < game.height.toNat :=
    fun i hi => List.mem_range.mp hi
  constructor
  · unfold validate_load_file
    simp only [hhead]
    rw [if_neg (by simp), if_neg (by omega), if_neg (by omega), if_neg (by omega)]
    have hv := validate_rows_save game htok (List.range game.height.toNat) hidx
    rw [List.length_range] at hv
    rw [hv]
    rfl
  · unfold load_saved_data
    simp only [hhead]
    have hr := read_rows_save game (by omega) htok (List.range game.height.toNat) hidx
    rw [List.length_range] at hr
    rw [hr]
    rfl

theorem is_token_place (game : GameProperties) (x y : Int) (t : Char)
    (ht : is_token t = true) (h : ∀ i j, is_token (game.gameGrid i j) = true) :
    ∀ i j, is_token ((place game x y t).gameGrid i j) = true := by
  intro i j
  show is_token (if i = x ∧ j = y then t else game.gameGrid i j) = true
  split
  · exact ht
  · exact h i j

theorem two_moves_saveable : Saveable two_moves.game two_moves.players 0 := by
  refine ⟨by decide, by decide, by decide, by decide, by decide, ?_, by decide, by decide,
    by decide, by decide, by decide, by decide⟩
  intro i j _
  exact is_token_place (place (initialise_grid 4 4) 0 0 'O') 0 1 'X' (by decide)
    (is_token_place (initialise_grid 4 4) 0 0 'O' (by decide) (fun _ _ => rfl)) i j

/-- C8 (as the claim states it, refuted): after A and B have each played once in a fresh
4x4 game both move counts are 1; the snapshot A can then take holds only the index 0 of
the player to move, and loading it gives the move counts (0, 0). -/
theorem save_load_forgets_move_counts :
    ReachedIn (fresh_state 4 4 zero_players 'h' 'h') 2 two_moves
    ∧ two_moves.players.p0.move = 1 ∧ two_moves.players.p1.move = 1
    ∧ (get_player_move two_moves.game two_moves.players (next_active two_moves.players)
          [InputLine.save, InputLine.move 2 2]).map (fun r => r.2.2)
        = some [save two_moves.game two_moves.players 0]
    ∧ (load_saved_data (save two_moves.game two_moves.players 0) zero_players 'h' 'h').map
          (fun r => (r.2.p0.move, r.2.p1.move))
        = some (0, 0) := by
  refine ⟨?_, by decide, by decide, by rfl, by decide⟩
  exact ReachedIn.turn 0 [InputLine.move 0 1]
    (ReachedIn.turn 0 [InputLine.move 0 0] ReachedIn.start (by rfl)) (by rfl)

/-- C8 (amended): for every state in which a snapshot can be taken, the saved text passes
`validate_load_file`, and `load_saved_data` on it reproduces the board (same height, same
width, every cell) and the player to move; of the move counts it keeps only that: player
A's becomes the saved index of the player to move and player B's becomes 0. -/
theorem save_load_keeps_board (game : GameProperties) (players ps : Players) (active : Int)
    (a1 a2 : Char) (h : Saveable game players active) :
    validate_load_file (some (save game players active)) = Checked.passes
    ∧ ∃ (game1 : GameProperties) (players1 : Players),
        load_saved_data (save game players active) ps a1 a2 = some (game1, players1)
        ∧ game1.height = game.height ∧ game1.width = game.width
        ∧ (∀ i j, inBounds game i j → game1.gameGrid i j = game.gameGrid i j)
        ∧ (players1.get 0).move = active ∧ (players1.get 1).move = 0
        ∧ next_active players1 = active := by
  obtain ⟨hv, hl⟩ := load_save game players ps active a1 a2 h
  refine ⟨hv, _, _, hl, rfl, rfl, ?_, rfl, rfl, ?_⟩
  · intro i j hin
    exact grid_of_rows_grid_rows game i j hin
  · obtain ⟨_, _, _, _, hact, _⟩ := h
    show (if (0 : Int) < active then 1 else 0) = active
    rcases hact with rfl | rfl <;> decide

/-- C8 (amended) on the state after one move of each player. -/
theorem save_load_keeps_board_witness :
    validate_load_file (some (save two_moves.game two_moves.players 0)) = Checked.passes
    ∧ ∃ (game1 : GameProperties) (players1 : Players),
        load_saved_data (save two_moves.game two_moves.players 0) zero_players 'h' 'h'
          = some (game1, players1)
        ∧ game1.height = two_moves.game.height ∧ game1.width = two_moves.game.width
        ∧ (∀ i j, inBounds two_moves.game i j → game1.gameGrid i j = two_moves.game.gameGrid i j)
        ∧ (players1.get 0).move = 0 ∧ (players1.get 1).move = 0
        ∧ next_active players1 = 0 :=
  save_load_keeps_board two_moves.game two_moves.players zero_players 0 'h' 'h'
    two_moves_saveable

/-! ### The search loop of a computer turn -/

/-- C9 (the code at the failing input): `validate_load_file` accepts a snapshot of an
empty 4x4 board whose cursor for player A is (7,0); `load_saved_data` publishes (7,0) as
A's candidate; the first pass of `run_game` with A a computer player reads
`gameGrid[7][0]`, outside the 4x4 grid.  The test a human move goes through,
`valid_move`, rejects the same point. -/
theorem unchecked_cursor_reads_off_board :
    validate_load_file (some off_board_snapshot) = Checked.passes
    ∧ (load_saved_data off_board_snapshot zero_players 'c' 'h').map
          (fun r => (r.1.height, r.1.width, (r.2.get 0).type,
                     (r.2.get 0).vars.nextX, (r.2.get 0).vars.nextY))
        = some (4, 4, COMPUTER, 7, 0)
    ∧ (load_saved_data off_board_snapshot zero_players 'c' 'h').map
          (fun r => run_game_turn 1 { game := r.1, players := r.2, active := r.2.p0.move } [])
        = some (some Turn.out_of_bounds)
    ∧ (load_saved_data off_board_snapshot zero_players 'c' 'h').map
          (fun r => valid_move r.1 7 0)
        = some false := by
  refine ⟨by decide, by decide, by rfl, by decide⟩

/-! ### The generator stream across save and load -/

theorem wrap32_isInt32 (x : Int) : isInt32 (wrap32 x) := by
  unfold isInt32 wrap32
  have h1 := @Int.le_bmod x 4294967296 (by decide)
  have h2 := @Int.bmod_lt x 4294967296 (by decide)
  omega

theorem neg_tmod_eq (a b : Int) : Int.tmod (-a) b = -(Int.tmod a b) := by
  rw [Int.tmod_def, Int.tmod_def, Int.neg_tdiv]
  ring

theorem tmod_bounds_nonneg {a b : Int} (ha : 0 ≤ a) (hb : 0 < b) :
    0 ≤ Int.tmod a b ∧ Int.tmod a b ≤ a ∧ Int.tmod a b < b := by
  rw [tmod_nonneg_eq ha hb.le]
  have h1 := Int.emod_nonneg a hb.ne'
  have h2 := Int.emod_lt_of_pos a hb
  have h3 := Int.emod_add_ediv a b
  have h4 : 0 ≤ b * (a / b) := mul_nonneg hb.le (Int.ediv_nonneg ha hb.le)
  exact ⟨h1, by omega, h2⟩

theorem tmod_bounds_nonpos {a b : Int} (ha : a ≤ 0) (hb : 0 < b) :
    a ≤ Int.tmod a b ∧ Int.tmod a b ≤ 0 ∧ -b < Int.tmod a b := by
  have h := tmod_bounds_nonneg (a := -a) (by omega) hb
  rw [neg_tmod_eq] at h
  omega

theorem tmod_tmod_self {a b : Int} (hb : 0 < b) :
    Int.tmod (Int.tmod a b) b = Int.tmod a b := by
  rcases le_total 0 a with ha | ha
  · obtain ⟨h1, _, h3⟩ := tmod_bounds_nonneg ha hb
    exact Int.tmod_eq_of_lt h1 h3
  · obtain ⟨_, h2, h3⟩ := tmod_bounds_nonpos ha hb
    have e : Int.tmod (-(Int.tmod a b)) b = -(Int.tmod a b) :=
      Int.tmod_eq_of_lt (by omega) (by omega)
    rw [neg_tmod_eq] at e
    omega

theorem tdiv_bounds_nonneg {a b : Int} (ha : 0 ≤ a) (hb : 0 < b) :
    0 ≤ Int.tdiv a b ∧ Int.tdiv a b ≤ a := by
  rw [tdiv_nonneg_eq ha hb.le]
  exact ⟨Int.ediv_nonneg ha hb.le, Int.ediv_le_self b ha⟩

theorem tdiv_bounds_nonpos {a b : Int} (ha : a ≤ 0) (hb : 0 < b) :
    a ≤ Int.tdiv a b ∧ Int.tdiv a b ≤ 0 := by
  have h := tdiv_bounds_nonneg (a := -a) (by omega) hb
  rw [Int.neg_tdiv] at h
  omega

theorem isInt32_tmod {a b : Int} (ha : isInt32 a) (hb : 0 < b) : isInt32 (Int.tmod a b) := by
  unfold isInt32 at *
  rcases le_total 0 a with h | h
  · have := tmod_bounds_nonneg h hb
    omega
  · have := tmod_bounds_nonpos h hb
    omega

theorem isInt32_tdiv {a b : Int} (ha : isInt32 a) (hb : 0 < b) : isInt32 (Int.tdiv a b) := by
  unfold isInt32 at *
  rcases le_total 0 a with h | h
  · have := tdiv_bounds_nonneg h hb
    omega
  · have := tdiv_bounds_nonpos h hb
    omega

theorem tmod_five_cases (x : Int) :
    Int.tmod x 5 = 0 ∨ Int.tmod x 5 = 1 ∨ Int.tmod x 5 = 2 ∨ Int.tmod x 5 = 3
      ∨ Int.tmod x 5 = 4 ∨ (Int.tmod x 5 < 0 ∧ x < 0) := by
  rcases le_total 0 x with h | h
  · have := tmod_bounds_nonneg h (show (0 : Int) < 5 by decide)
    omega
  · have := tmod_bounds_nonpos h (show (0 : Int) < 5 by decide)
    rcases eq_or_lt_of_le h with h0 | h0
    · left; rw [h0]; rfl
    · omega

/-- The cursor after one step, by the branch taken. -/
theorem next_move_rc (game : GameProperties) (v : MoveAlgorithm) :
    (Int.tmod (next_m v) 5 = 0
        ∧ (next_move game v).r = Int.tdiv (next_n v) game.width
        ∧ (next_move game v).c = Int.tmod (next_n v) game.width)
    ∨ (Int.tmod (next_m v) 5 = 1
        ∧ (next_move game v).r = wrap32 (v.r + 1) ∧ (next_move game v).c = wrap32 (v.c + 1))
    ∨ (Int.tmod (next_m v) 5 = 2
        ∧ (next_move game v).r = wrap32 (v.r + 2) ∧ (next_move game v).c = wrap32 (v.c + 1))
    ∨ (Int.tmod (next_m v) 5 = 3
        ∧ (next_move game v).r = wrap32 (v.r + 1) ∧ (next_move game v).c = wrap32 (v.c + 0))
    ∨ (Int.tmod (next_m v) 5 = 4
        ∧ (next_move game v).r = wrap32 (v.r + 0) ∧ (next_move game v).c = wrap32 (v.c + 1))
    ∨ ((Int.tmod (next_m v) 5 < 0 ∧ next_m v < 0)
        ∧ (next_move game v).r = v.r ∧ (next_move game v).c = v.c) := by
  rcases tmod_five_cases (next_m v) with h | h | h | h | h | h
  · left
    refine ⟨h, ?_, ?_⟩ <;> simp [next_move, h]
  · right; left
    refine ⟨h, ?_, ?_⟩ <;> simp [next_move, h]
  · right; right; left
    refine ⟨h, ?_, ?_⟩ <;> simp [next_move, h]
  · right; right; right; left
    refine ⟨h, ?_, ?_⟩ <;> simp [next_move, h]
  · right; right; right; right; left
    refine ⟨h, ?_, ?_⟩ <;> simp [next_move, h]
  · right; right; right; right; right
    refine ⟨h, ?_, ?_⟩
    · show (if Int.tmod (next_m v) 5 = 0 then _ else if Int.tmod (next_m v) 5 = 1 then _
        else if Int.tmod (next_m v) 5 = 2 then _ else if Int.tmod (next_m v) 5 = 3 then _
        else if Int.tmod (next_m v) 5 = 4 then _ else v.r) = v.r
      rw [if_neg (by omega), if_neg (by omega), if_neg (by omega), if_neg (by omega),
        if_neg (by omega)]
    · show (if Int.tmod (next_m v) 5 = 0 then _ else if Int.tmod (next_m v) 5 = 1 then _
        else if Int.tmod (next_m v) 5 = 2 then _ else if Int.tmod (next_m v) 5 = 3 then _
        else if Int.tmod (next_m v) 5 = 4 then _ else v.c) = v.c
      rw [if_neg (by omega), if_neg (by omega), if_neg (by omega), if_neg (by omega),
        if_neg (by omega)]

theorem tmod_add_congr {a a1 d h : Int} (ha : 0 ≤ a) (ha1 : 0 ≤ a1) (hd : 0 ≤ d)
    (hh : 0 < h) (hc : Int.tmod a1 h = Int.tmod a h) :
    Int.tmod (a1 + d) h = Int.tmod (a + d) h := by
  rw [tmod_nonneg_eq ha1 hh.le, tmod_nonneg_eq ha hh.le] at hc
  rw [tmod_nonneg_eq (by omega) hh.le, tmod_nonneg_eq (by omega) hh.le,
    Int.add_emod a1, hc, ← Int.add_emod]

theorem next_m_of_neg {v : MoveAlgorithm} (hm : isInt32 v.m) (hneg : v.m < 0) :
    next_m v = v.m + 1 ∧ Int.tmod (next_m v) 5 ≤ 0 := by
  unfold isInt32 at hm
  have e : next_m v = v.m + 1 := wrap32_of_isInt32 ⟨by omega, by omega⟩
  rw [e]
  exact ⟨rfl, (tmod_bounds_nonpos (show v.m + 1 ≤ 0 by omega) (by decide)).2.1⟩

theorem next_m_of_nonneg {v : MoveAlgorithm} (h0 : 0 ≤ v.m) (hq : v.m / 5 ≤ 268435456) :
    next_m v = v.m + 1 ∧ Int.tmod (next_m v) 5 = (v.m + 1) % 5 := by
  have e : next_m v = v.m + 1 := wrap32_of_isInt32 ⟨by omega, by omega⟩
  rw [e]
  exact ⟨rfl, tmod_nonneg_eq (by omega) (by decide)⟩

/-- One step keeps the relation when both cursors move by the same small offsets. -/
theorem lockstep_offsets (game : GameProperties) (hh : 0 < game.height) (hw : 0 < game.width)
    (v v1 : MoveAlgorithm) (dr dc R R1 C C1 : Int)
    (hdr : 0 ≤ dr ∧ dr ≤ 2) (hdc : 0 ≤ dc ∧ dc ≤ 1)
    (hk : 1 ≤ Int.tmod (next_m v) 5 ∧ Int.tmod (next_m v) 5 ≤ 4)
    (hm : isInt32 v.m)
    (hR : R = wrap32 (v.r + dr)) (hR1 : R1 = wrap32 (v1.r + dr))
    (hC : C = wrap32 (v.c + dc)) (hC1 : C1 = wrap32 (v1.c + dc))
    (hrc : (v1.r = v.r ∧ v1.c = v.c)
      ∨ (Int.tmod v1.r game.height = Int.tmod v.r game.height
          ∧ Int.tmod v1.c game.width = Int.tmod v.c game.width
          ∧ (v.m < 0
            ∨ (v.m / 5 ≤ 268435456
                ∧ 0 ≤ v.r ∧ v.r ≤ 250000 + 2 * (v.m % 5)
                ∧ 0 ≤ v1.r ∧ v1.r ≤ 250000 + 2 * (v.m % 5)
                ∧ 0 ≤ v.c ∧ v.c ≤ 1000 + v.m % 5
                ∧ 0 ≤ v1.c ∧ v1.c ≤ 1000 + v.m % 5)))) :
    (R1 = R ∧ C1 = C)
      ∨ (Int.tmod R1 game.height = Int.tmod R game.height
          ∧ Int.tmod C1 game.width = Int.tmod C game.width
          ∧ (next_m v < 0
            ∨ (next_m v / 5 ≤ 268435456
                ∧ 0 ≤ R ∧ R ≤ 250000 + 2 * (next_m v % 5)
                ∧ 0 ≤ R1 ∧ R1 ≤ 250000 + 2 * (next_m v % 5)
                ∧ 0 ≤ C ∧ C ≤ 1000 + next_m v % 5
                ∧ 0 ≤ C1 ∧ C1 ≤ 1000 + next_m v % 5))) := by
  rcases hrc with ⟨er, ec⟩ | ⟨cr, cc, hb⟩
  · left
    rw [hR, hR1, hC, hC1, er, ec]
    exact ⟨rfl, rfl⟩
  · right
    by_cases hneg : v.m < 0
    · have := (next_m_of_neg hm hneg).2
      omega
    · rcases hb with hb | ⟨hq, r0, r1, s0, s1, c0, c1, d0, d1⟩
      · exact absurd hb hneg
      · obtain ⟨em, ek⟩ := next_m_of_nonneg (by omega) hq
        rw [ek] at hk
        have wR : R = v.r + dr := by
          rw [hR]; exact wrap32_of_isInt32 ⟨by omega, by omega⟩
        have wR1 : R1 = v1.r + dr := by
          rw [hR1]; exact wrap32_of_isInt32 ⟨by omega, by omega⟩
        have wC : C = v.c + dc := by
          rw [hC]; exact wrap32_of_isInt32 ⟨by omega, by omega⟩
        have wC1 : C1 = v1.c + dc := by
          rw [hC1]; exact wrap32_of_isInt32 ⟨by omega, by omega⟩
        refine ⟨?_, ?_, Or.inr ?_⟩
        · rw [wR, wR1]
          exact tmod_add_congr r0 s0 hdr.1 hh cr
        · rw [wC, wC1]
          exact tmod_add_congr c0 d0 hdc.1 hw cc
        · rw [em, wR, wR1, wC, wC1]
          omega

theorem lockstep_step (game : GameProperties) (hh : 0 < game.height) (hw : 0 < game.width)
    (v v1 : MoveAlgorithm) (h : Lockstep game v v1) :
    Lockstep game (next_move game v) (next_move game v1) := by
  obtain ⟨e1, e2, e3, e4, e5, e6, e7, hm, hrc⟩ := h
  have hm1 : next_m v1 = next_m v := by unfold next_m; rw [e5]
  have hn1 : next_n v1 = next_n v := by unfold next_n; rw [hm1, e4, e3]
  have key : ((next_move game v1).r = (next_move game v).r
        ∧ (next_move game v1).c = (next_move game v).c)
      ∨ (Int.tmod (next_move game v1).r game.height = Int.tmod (next_move game v).r game.height
          ∧ Int.tmod (next_move game v1).c game.width
              = Int.tmod (next_move game v).c game.width
          ∧ (next_m v < 0
            ∨ (next_m v / 5 ≤ 268435456
                ∧ 0 ≤ (next_move game v).r ∧ (next_move game v).r ≤ 250000 + 2 * (next_m v % 5)
                ∧ 0 ≤ (next_move game v1).r
                ∧ (next_move game v1).r ≤ 250000 + 2 * (next_m v % 5)
                ∧ 0 ≤ (next_move game v).c ∧ (next_move game v).c ≤ 1000 + next_m v % 5
                ∧ 0 ≤ (next_move game v1).c
                ∧ (next_move game v1).c ≤ 1000 + next_m v % 5))) := by
    have c1 := next_move_rc game v1
    rw [hm1, hn1] at c1
    rcases next_move_rc game v with ⟨k, hr, hc⟩ | ⟨k, hr, hc⟩ | ⟨k, hr, hc⟩ | ⟨k, hr, hc⟩
        | ⟨k, hr, hc⟩ | ⟨k, hr, hc⟩
    · rcases c1 with ⟨k1, hr1, hc1⟩ | ⟨k1, _⟩ | ⟨k1, _⟩ | ⟨k1, _⟩ | ⟨k1, _⟩ | ⟨k1, _⟩
      · left
        rw [hr, hr1, hc, hc1]
        exact ⟨rfl, rfl⟩
      all_goals exfalso; omega
    · rcases c1 with ⟨k1, _⟩ | ⟨k1, hr1, hc1⟩ | ⟨k1, _⟩ | ⟨k1, _⟩ | ⟨k1, _⟩ | ⟨k1, _⟩
      · exfalso; omega
      · exact lockstep_offsets game hh hw v v1 1 1 _ _ _ _ (by omega) (by omega) (by omega)
          hm hr hr1 hc hc1 hrc
      all_goals exfalso; omega
    · rcases c1 with ⟨k1, _⟩ | ⟨k1, _⟩ | ⟨k1, hr1, hc1⟩ | ⟨k1, _⟩ | ⟨k1, _⟩ | ⟨k1, _⟩
      · exfalso; omega
      · exfalso; omega
      · exact lockstep_offsets game hh hw v v1 2 1 _ _ _ _ (by omega) (by omega) (by omega)
          hm hr hr1 hc hc1 hrc
      all_goals exfalso; omega
    · rcases c1 with ⟨k1, _⟩ | ⟨k1, _⟩ | ⟨k1, _⟩ | ⟨k1, hr1, hc1⟩ | ⟨k1, _⟩ | ⟨k1, _⟩
      · exfalso; omega
      · exfalso; omega
      · exfalso; omega
      · exact lockstep_offsets game hh hw v v1 1 0 _ _ _ _ (by omega) (by omega) (by omega)
          hm hr hr1 hc hc1 hrc
      all_goals exfalso; omega
    · rcases c1 with ⟨k1, _⟩ | ⟨k1, _⟩ | ⟨k1, _⟩ | ⟨k1, _⟩ | ⟨k1, hr1, hc1⟩ | ⟨k1, _⟩
      · exfalso; omega
      · exfalso; omega
      · exfalso; omega
      · exfalso; omega
      · exact lockstep_offsets game hh hw v v1 0 1 _ _ _ _ (by omega) (by omega) (by omega)
          hm hr hr1 hc hc1 hrc
      · exfalso; omega
    · rcases c1 with ⟨k1, _⟩ | ⟨k1, _⟩ | ⟨k1, _⟩ | ⟨k1, _⟩ | ⟨k1, _⟩ | ⟨k1, hr1, hc1⟩
      · exfalso; omega
      · exfalso; omega
      · exfalso; omega
      · exfalso; omega
      · exfalso; omega
      · rw [hr, hr1, hc, hc1]
        rcases hrc with ⟨er, ec⟩ | ⟨cr, cc, _⟩
        · exact Or.inl ⟨er, ec⟩
        · exact Or.inr ⟨cr, cc, Or.inl k.2⟩
  have hX : (next_move game v1).nextX = (next_move game v).nextX := by
    show Int.tmod (next_move game v1).r game.height = Int.tmod (next_move game v).r game.height
    rcases key with ⟨er, _⟩ | ⟨cr, _, _⟩
    · rw [er]
    · exact cr
  have hY : (next_move game v1).nextY = (next_move game v).nextY := by
    show Int.tmod (next_move game v1).c game.width = Int.tmod (next_move game v).c game.width
    rcases key with ⟨_, ec⟩ | ⟨_, cc, _⟩
    · rw [ec]
    · exact cc
  exact ⟨e1, e2, e3, e4, hm1, hX, hY, wrap32_isInt32 _, key⟩

theorem lockstep_steps (game : GameProperties) (hh : 0 < game.height) (hw : 0 < game.width)
    (v v1 : MoveAlgorithm) (h : Lockstep game v v1) :
    ∀ N : Nat, Lockstep game (steps game v N) (steps game v1 N) := by
  intro N
  induction N with
  | zero => exact h
  | succ N ih => exact lockstep_step game hh hw _ _ ih

theorem initial_b (game : GameProperties) (ir ic f : Int) (hseed : isSeed ir ic f)
    (hw4 : 4 ≤ game.width) (hw : game.width ≤ 1000) :
    (initial_variables game ir ic f).b = ir * game.width + ic := by
  show wrap32 (wrap32 (ir * game.width) + ic) = ir * game.width + ic
  rcases hseed with ⟨rfl, rfl, rfl⟩ | ⟨rfl, rfl, rfl⟩
  · rw [wrap32_of_isInt32 (x := 1 * game.width) ⟨by omega, by omega⟩,
      wrap32_of_isInt32 ⟨by omega, by omega⟩]
  · rw [wrap32_of_isInt32 (x := 2 * game.width) ⟨by omega, by omega⟩,
      wrap32_of_isInt32 ⟨by omega, by omega⟩]

theorem next_n_in_range {v : MoveAlgorithm} (hs : stepInRange v) (h0 : 0 ≤ v.m + 1)
    (hb : 0 ≤ v.b) (hf : 0 ≤ v.f) :
    next_m v = v.m + 1 ∧ 0 ≤ next_n v ∧ next_n v < 1000003 := by
  obtain ⟨s1, s2, s3, _⟩ := hs
  have em : next_m v = v.m + 1 := wrap32_of_isInt32 s1
  have hq : 0 ≤ Int.tdiv (v.m + 1) 5 := (tdiv_bounds_nonneg h0 (by decide)).1
  have hqf : 0 ≤ Int.tdiv (v.m + 1) 5 * v.f := mul_nonneg hq hf
  have en : next_n v = Int.tmod (v.b + Int.tdiv (v.m + 1) 5 * v.f) 1000003 := by
    unfold next_n
    rw [em, wrap32_of_isInt32 s2, wrap32_of_isInt32 s3]
  have hb3 := tmod_bounds_nonneg (a := v.b + Int.tdiv (v.m + 1) 5 * v.f)
    (b := 1000003) (by omega) (by decide)
  rw [en]
  exact ⟨em, hb3.1, hb3.2.2⟩

theorem genReachable_saved (game : GameProperties) (ir ic f : Int) (hseed : isSeed ir ic f)
    (hh4 : 4 ≤ game.height) (hh : game.height ≤ 1000)
    (hw4 : 4 ≤ game.width) (hw : game.width ≤ 1000) :
    ∀ v : MoveAlgorithm, GenReachable game ir ic f v → GenSaved game ir ic f v := by
  have hir : 0 ≤ ir ∧ ir ≤ 2 ∧ 0 ≤ ic ∧ ic ≤ 10 ∧ 17 ≤ f ∧ f ≤ 29 := by
    rcases hseed with ⟨rfl, rfl, rfl⟩ | ⟨rfl, rfl, rfl⟩ <;> omega
  have hbpos : 0 ≤ ir * game.width + ic ∧ ir * game.width + ic ≤ 2010 := by
    rcases hseed with ⟨rfl, rfl, rfl⟩ | ⟨rfl, rfl, rfl⟩ <;> omega
  intro v hv
  induction hv with
  | fresh =>
    refine ⟨rfl, rfl, rfl, initial_b game ir ic f hseed hw4 hw, ?_, ?_, ?_, ?_, ?_, Or.inr ?_⟩
    · show isInt32 0
      decide
    · show isInt32 ir
      unfold isInt32; omega
    · show isInt32 ic
      unfold isInt32; omega
    · exact isInt32_tmod (a := ir) (by unfold isInt32; omega) (by omega)
    · exact isInt32_tmod (a := ic) (by unfold isInt32; omega) (by omega)
    · refine ⟨rfl, rfl, Or.inr ?_⟩
      show (0 : Int) / 5 ≤ 268435456 ∧ 0 ≤ ir ∧ ir ≤ 250000 + 2 * ((0 : Int) % 5)
        ∧ 0 ≤ ic ∧ ic ≤ 1000 + (0 : Int) % 5
      omega
  | loaded x y m hx hy hm =>
    exact ⟨rfl, rfl, rfl, initial_b game ir ic f hseed hw4 hw, hm, hx, hy, hx, hy,
      Or.inl ⟨rfl, rfl⟩⟩
  | step hprev hin hs ih =>
    rename_i v
    obtain ⟨g1, g2, g3, g4, im, ir', ic', ix, iy, hdis⟩ := ih
    have hrc := next_move_rc game v
    have hmI : isInt32 (next_m v) := wrap32_isInt32 _
    have hnI : isInt32 (next_n v) := isInt32_tmod (wrap32_isInt32 _) (by decide)
    have hrI : isInt32 (next_move game v).r := by
      rcases hrc with ⟨_, hr, _⟩ | ⟨_, hr, _⟩ | ⟨_, hr, _⟩ | ⟨_, hr, _⟩ | ⟨_, hr, _⟩ | ⟨_, hr, _⟩
      · rw [hr]; exact isInt32_tdiv hnI (by omega)
      · rw [hr]; exact wrap32_isInt32 _
      · rw [hr]; exact wrap32_isInt32 _
      · rw [hr]; exact wrap32_isInt32 _
      · rw [hr]; exact wrap32_isInt32 _
      · rw [hr]; exact ir'
    have hcI : isInt32 (next_move game v).c := by
      rcases hrc with ⟨_, _, hc⟩ | ⟨_, _, hc⟩ | ⟨_, _, hc⟩ | ⟨_, _, hc⟩ | ⟨_, _, hc⟩ | ⟨_, _, hc⟩
      · rw [hc]; exact isInt32_tmod hnI (by omega)
      · rw [hc]; exact wrap32_isInt32 _
      · rw [hc]; exact wrap32_isInt32 _
      · rw [hc]; exact wrap32_isInt32 _
      · rw [hc]; exact wrap32_isInt32 _
      · rw [hc]; exact ic'
    refine ⟨g1, g2, g3, g4, hmI, hrI, hcI, isInt32_tmod hrI (by omega),
      isInt32_tmod hcI (by omega), Or.inr ⟨rfl, rfl, ?_⟩⟩
    have em : next_m v = v.m + 1 := wrap32_of_isInt32 hs.1
    show next_m v < 0 ∨ _
    by_cases hneg : next_m v < 0
    · exact Or.inl hneg
    · right
      have h0 : 0 ≤ v.m + 1 := by omega
      obtain ⟨_, n0, n1⟩ := next_n_in_range hs h0 (by rw [g4]; exact hbpos.1)
        (by rw [g3]; omega)
      have ek : Int.tmod (next_m v) 5 = (v.m + 1) % 5 := by
        rw [em]; exact tmod_nonneg_eq h0 (by decide)
      have hq : (v.m + 1) / 5 ≤ 268435456 := by
        have s2 := hs.2.1
        rw [tdiv_nonneg_eq h0 (by decide), g3] at s2
        unfold isInt32 at s2
        have : 0 ≤ (v.m + 1) / 5 := Int.ediv_nonneg h0 (by decide)
        nlinarith
      have hold : 0 ≤ v.r ∧ v.r ≤ 250000 + 2 * (v.m % 5) ∧ 0 ≤ v.c ∧ v.c ≤ 1000 + v.m % 5
          ∨ v.m + 1 = 0 := by
        unfold inBounds at hin
        rcases hdis with ⟨ex, ey⟩ | ⟨_, _, hb⟩
        · by_cases hm0 : v.m + 1 = 0
          · exact Or.inr hm0
          · left
            rw [← ex, ← ey]
            omega
        · rcases hb with hb | ⟨_, b1, b2, b3, b4⟩
          · right; omega
          · exact Or.inl ⟨b1, b2, b3, b4⟩
      have hstep := hs.2.2.2
      rw [← em] at hstep
      rw [ek] at hrc hstep
      have emm : (next_move game v).m = v.m + 1 := em
      rw [emm]
      show (v.m + 1) / 5 ≤ 268435456
        ∧ 0 ≤ (next_move game v).r ∧ (next_move game v).r ≤ 250000 + 2 * ((v.m + 1) % 5)
        ∧ 0 ≤ (next_move game v).c ∧ (next_move game v).c ≤ 1000 + (v.m + 1) % 5
      rcases hrc with ⟨k, hr, hc⟩ | ⟨k, hr, hc⟩ | ⟨k, hr, hc⟩ | ⟨k, hr, hc⟩ | ⟨k, hr, hc⟩
          | ⟨k, hr, hc⟩
      · have q0 := tdiv_bounds_nonneg (a := next_n v) (b := game.width) n0 (by omega)
        have q1 : Int.tdiv (next_n v) game.width ≤ 250000 := by
          rw [tdiv_nonneg_eq n0 (by omega)]
          exact ediv_width_le n1 hw4
        have q2 := tmod_bounds_nonneg (a := next_n v) (b := game.width) n0 (by omega)
        rw [hr, hc]
        omega
      · rcases hold with ho | ho
        · obtain ⟨a1, a2⟩ := hstep.1 k
          rw [hr, hc, wrap32_of_isInt32 a1, wrap32_of_isInt32 a2]
          omega
        · omega
      · rcases hold with ho | ho
        · obtain ⟨a1, a2⟩ := hstep.2.1 k
          rw [hr, hc, wrap32_of_isInt32 a1, wrap32_of_isInt32 a2]
          omega
        · omega
      · rcases hold with ho | ho
        · have a1 := hstep.2.2.1 k
          rw [hr, hc, wrap32_of_isInt32 a1, wrap32_of_isInt32 (x := v.c + 0) (by simpa using ic')]
          omega
        · omega
      · rcases hold with ho | ho
        · have a2 := hstep.2.2.2 k
          rw [hr, hc, wrap32_of_isInt32 a2, wrap32_of_isInt32 (x := v.r + 0) (by simpa using ir')]
          omega
        · omega
      · omega

theorem next_move_dims (game game1 : GameProperties) (hh : game1.height = game.height)
    (hw : game1.width = game.width) (v : MoveAlgorithm) :
    next_move game1 v = next_move game v := by
  unfold next_move
  rw [hh, hw]

theorem steps_dims (game game1 : GameProperties) (hh : game1.height = game.height)
    (hw : game1.width = game.width) (v : MoveAlgorithm) :
    ∀ N : Nat, steps game1 v N = steps game v N := by
  intro N
  induction N with
  | zero => rfl
  | succ N ih =>
    show next_move game1 (steps game1 v N) = next_move game (steps game v N)
    rw [ih, next_move_dims game game1 hh hw]

theorem lockstep_of_saved (game : GameProperties) (ir ic f : Int) (hseed : isSeed ir ic f)
    (hh4 : 4 ≤ game.height) (hw4 : 4 ≤ game.width) (hw : game.width ≤ 1000)
    (v : MoveAlgorithm) (h : GenSaved game ir ic f v) :
    Lockstep game v
      (restore_variables (initial_variables game ir ic f) v.nextX v.nextY v.m) := by
  obtain ⟨g1, g2, g3, g4, im, _, _, _, _, hdis⟩ := h
  refine ⟨g1.symm, g2.symm, g3.symm, ?_, rfl, rfl, rfl, im, ?_⟩
  · show (initial_variables game ir ic f).b = v.b
    rw [initial_b game ir ic f hseed hw4 hw, g4]
  · show (v.nextX = v.r ∧ v.nextY = v.c) ∨
      (Int.tmod v.nextX game.height = Int.tmod v.r game.height
        ∧ Int.tmod v.nextY game.width = Int.tmod v.c game.width
        ∧ (v.m < 0
          ∨ (v.m / 5 ≤ 268435456
              ∧ 0 ≤ v.r ∧ v.r ≤ 250000 + 2 * (v.m % 5)
              ∧ 0 ≤ v.nextX ∧ v.nextX ≤ 250000 + 2 * (v.m % 5)
              ∧ 0 ≤ v.c ∧ v.c ≤ 1000 + v.m % 5
              ∧ 0 ≤ v.nextY ∧ v.nextY ≤ 1000 + v.m % 5)))
    rcases hdis with hA | ⟨ex, ey, hb⟩
    · exact Or.inl hA
    · right
      refine ⟨?_, ?_, ?_⟩
      · rw [ex]; exact tmod_tmod_self (by omega)
      · rw [ey]; exact tmod_tmod_self (by omega)
      · rcases hb with hb | ⟨b0, b1, b2, b3, b4⟩
        · exact Or.inl hb
        · right
          have t1 := tmod_bounds_nonneg (a := v.r) (b := game.height) b1 (by omega)
          have t2 := tmod_bounds_nonneg (a := v.c) (b := game.width) b3 (by omega)
          rw [ex, ey]
          omega

/-- C7 (amended): for every state in which a snapshot can be taken and in which the
generator of each player is in a state reached without integer overflow, save followed by
`load_saved_data` gives generators that publish, now and after every number `N` of steps,
the candidates the unsaved generators publish. -/
theorem save_load_keeps_generator_stream (game : GameProperties) (players ps : Players)
    (active : Int) (a1 a2 : Char)
    (hh4 : 4 ≤ game.height) (hh : game.height ≤ 1000)
    (hw4 : 4 ≤ game.width) (hw : game.width ≤ 1000)
    (hact : active = 0 ∨ active = 1)
    (htok : ∀ i j, inBounds game i j → is_token (game.gameGrid i j) = true)
    (h0 : GenReachable game 1 4 29 (players.get 0).vars)
    (h1 : GenReachable game 2 10 17 (players.get 1).vars) :
    ∃ (game1 : GameProperties) (players1 : Players),
      load_saved_data (save game players active) ps a1 a2 = some (game1, players1)
      ∧ ∀ (i : Int) (N : Nat),
          published (steps game1 (players1.get i).vars N)
            = published (steps game (players.get i).vars N) := by
  have s0 := genReachable_saved game 1 4 29 (Or.inl ⟨rfl, rfl, rfl⟩) hh4 hh hw4 hw _ h0
  have s1 := genReachable_saved game 2 10 17 (Or.inr ⟨rfl, rfl, rfl⟩) hh4 hh hw4 hw _ h1
  have hsave : Saveable game players active := by
    obtain ⟨_, _, _, _, m0, _, _, x0, y0, _⟩ := s0
    obtain ⟨_, _, _, _, m1, _, _, x1, y1, _⟩ := s1
    exact ⟨hh4, hh, hw4, hw, hact, htok, x0, y0, m0, x1, y1, m1⟩
  obtain ⟨_, hl⟩ := load_save game players ps active a1 a2 hsave
  refine ⟨_, _, hl, ?_⟩
  intro i N
  rw [steps_dims game (reloaded_board game) rfl rfl]
  have l0 := lockstep_steps game (by omega) (by omega) _ _
    (lockstep_of_saved game 1 4 29 (Or.inl ⟨rfl, rfl, rfl⟩) hh4 hw4 hw _ s0) N
  have l1 := lockstep_steps game (by omega) (by omega) _ _
    (lockstep_of_saved game 2 10 17 (Or.inr ⟨rfl, rfl, rfl⟩) hh4 hw4 hw _ s1) N
  unfold published
  by_cases hi : i = 0
  · subst hi
    exact Prod.ext l0.2.2.2.2.2.1 l0.2.2.2.2.2.2.1
  · have e1 : ∀ q : Players, q.get i = q.get 1 := by
      intro q
      unfold Players.get
      rw [if_neg hi, if_neg (by decide)]
    rw [e1, e1]
    exact Prod.ext l1.2.2.2.2.2.1 l1.2.2.2.2.2.2.1

/-- C7 (as the claim states it, refuted): a game loaded from an accepted snapshot lets
computer player A play (0,0); the step that primes A's generator overflows and leaves the
cursor (-119301, -3), published as (-1, -3).  Human player B then saves.  Two steps later
the unsaved generator publishes (-2, -1) and the reloaded one (2, -1). -/
theorem save_load_breaks_stream_after_overflow :
    validate_load_file (some overflow_snapshot) = Checked.passes
    ∧ load_saved_data overflow_snapshot zero_players 'c' 'h'
        = some (overflow_loaded.game, overflow_loaded.players)
    ∧ run_game_turn 1 overflow_loaded [] = some (Turn.played overflow_played 0 0 [] [])
    ∧ ((overflow_played.players.get 0).vars.r, (overflow_played.players.get 0).vars.c)
        = (-119301, -3)
    ∧ published (overflow_played.players.get 0).vars = (-1, -3)
    ∧ (get_player_move overflow_played.game overflow_played.players
          (next_active overflow_played.players)
          [InputLine.save, InputLine.move 1 1]).map (fun r => r.2.2)
        = some [save overflow_played.game overflow_played.players 1]
    ∧ published (steps overflow_played.game (overflow_played.players.get 0).vars 2) = (-2, -1)
    ∧ (load_saved_data (save overflow_played.game overflow_played.players 1)
          zero_players 'c' 'h').map (fun r => published (steps r.1 (r.2.get 0).vars 2))
        = some (2, -1) := by
  refine ⟨by decide, by rfl, by rfl, by decide, by decide, by rfl, by decide, by decide⟩

theorem one_computer_move_reachable :
    GenReachable one_computer_move.game 1 4 29 (one_computer_move.players.get 0).vars :=
  @GenReachable.step one_computer_move.game 1 4 29 _ GenReachable.fresh (by decide)
    (by unfold stepInRange; decide)

/-- C7 (amended) on the state after the first move of a computer player A. -/
theorem save_load_keeps_generator_stream_witness :
    ∃ (game1 : GameProperties) (players1 : Players),
      load_saved_data (save one_computer_move.game one_computer_move.players 1)
          zero_players 'c' 'h' = some (game1, players1)
      ∧ ∀ (i : Int) (N : Nat),
          published (steps game1 (players1.get i).vars N)
            = published (steps one_computer_move.game (one_computer_move.players.get i).vars N) :=
  save_load_keeps_generator_stream one_computer_move.game one_computer_move.players
    zero_players 1 'c' 'h' (by decide) (by decide) (by decide) (by decide) (by decide)
    (fun i j _ => is_token_place (initialise_grid 4 4) 1 0 'O' (by decide) (fun _ _ => rfl) i j)
    one_computer_move_reachable GenReachable.fresh

/-! ### Board creation -/

/-- C10: when a board is created from dimensions (five arguments, valid player types),
`validate_arguments` exits with status 3 unless both `atoi(argv[3])` and `atoi(argv[4])`
are within [4,1000], and returns when they are; the board `initialise_grid` then builds
has these dimensions, `height * width` cells, and `'.'` in every cell. -/
theorem board_creation_checks_dimensions (argv : List (List Char))
    (h1 : argv.getD 1 [] = ['h'] ∨ argv.getD 1 [] = ['c'])
    (h2 : argv.getD 2 [] = ['h'] ∨ argv.getD 2 [] = ['c']) :
    (validate_arguments 5 argv = Checked.exits 3 ↔
        ¬ (4 ≤ atoi (argv.getD 3 []) ∧ atoi (argv.getD 3 []) ≤ 1000
            ∧ 4 ≤ atoi (argv.getD 4 []) ∧ atoi (argv.getD 4 []) ≤ 1000))
    ∧ (validate_arguments 5 argv = Checked.passes ↔
        (4 ≤ atoi (argv.getD 3 []) ∧ atoi (argv.getD 3 []) ≤ 1000
            ∧ 4 ≤ atoi (argv.getD 4 []) ∧ atoi (argv.getD 4 []) ≤ 1000))
    ∧ (∀ height width : Int,
        (initialise_grid height width).height = height
        ∧ (initialise_grid height width).width = width
        ∧ (cells (initialise_grid height width)).card = height.toNat * width.toNat
        ∧ ∀ i j : Int, (initialise_grid height width).gameGrid i j = '.') := by
  have e : validate_arguments 5 argv =
      if atoi (argv.getD 3 []) < 4 ∨ atoi (argv.getD 3 []) > 1000 then Checked.exits 3
      else if atoi (argv.getD 4 []) < 4 ∨ atoi (argv.getD 4 []) > 1000 then Checked.exits 3
      else Checked.passes := by
    unfold validate_arguments
    rw [if_neg (by decide), if_neg (by rintro ⟨n1, n2⟩; rcases h1 with h | h <;> contradiction),
      if_neg (by rintro ⟨n1, n2⟩; rcases h2 with h | h <;> contradiction), if_pos rfl]
  rw [e]
  refine ⟨?_, ?_, ?_⟩
  · split
    · simp only [true_iff]; omega
    · split
      · simp only [true_iff]; omega
      · constructor
        · intro h; cases h
        · intro h; omega
  · split
    · constructor
      · intro h; cases h
      · intro h; omega
    · split
      · constructor
        · intro h; cases h
        · intro h; omega
      · simp only [true_iff]; omega
  · intro height width
    refine ⟨rfl, rfl, ?_, fun _ _ => rfl⟩
    unfold cells
    simp [Finset.card_product, Int.card_Ico, initialise_grid]

/-- C10 on the command line `nogo h c 4 1001`. -/
theorem board_creation_checks_dimensions_witness :
    validate_arguments 5 [['n', 'o', 'g', 'o'], ['h'], ['c'], ['4'], ['1', '0', '0', '1']]
        = Checked.exits 3
      ↔ ¬ (4 ≤ atoi ([['n', 'o', 'g', 'o'], ['h'], ['c'], ['4'], ['1', '0', '0', '1']].getD 3 [])
          ∧ atoi ([['n', 'o', 'g', 'o'], ['h'], ['c'], ['4'], ['1', '0', '0', '1']].getD 3 [])
              ≤ 1000
          ∧ 4 ≤ atoi ([['n', 'o', 'g', 'o'], ['h'], ['c'], ['4'], ['1', '0', '0', '1']].getD 4 [])
          ∧ atoi ([['n', 'o', 'g', 'o'], ['h'], ['c'], ['4'], ['1', '0', '0', '1']].getD 4 [])
              ≤ 1000) :=
  (board_creation_checks_dimensions
    [['n', 'o', 'g', 'o'], ['h'], ['c'], ['4'], ['1', '0', '0', '1']]
    (by decide) (by decide)).1

/-! ### The generator step -/

theorem next_move_b (game : GameProperties) (v : MoveAlgorithm) :
    (next_move game v).b = v.b := rfl

theorem next_move_f (game : GameProperties) (v : MoveAlgorithm) :
    (next_move game v).f = v.f := rfl

theorem next_move_ir (game : GameProperties) (v : MoveAlgorithm) :
    (next_move game v).ir = v.ir := rfl

theorem next_move_ic (game : GameProperties) (v : MoveAlgorithm) :
    (next_move game v).ic = v.ic := rfl

theorem next_move_m (game : GameProperties) (v : MoveAlgorithm) :
    (next_move game v).m = wrap32 (v.m + 1) := rfl

theorem next_move_nextX (game : GameProperties) (v : MoveAlgorithm) :
    (next_move game v).nextX = Int.tmod (next_move game v).r game.height := rfl

theorem next_move_nextY (game : GameProperties) (v : MoveAlgorithm) :
    (next_move game v).nextY = Int.tmod (next_move game v).c game.width := rfl

/-- On non-negative operands that stay in the 32-bit range the source step is the
specification's step. -/
theorem next_move_eq_spec_step (game : GameProperties) (v : MoveAlgorithm)
    (hw : 0 < game.width) (hh : 0 < game.height)
    (hm : 0 ≤ v.m) (hm1 : v.m + 1 ≤ 2147483647)
    (hb : 0 ≤ v.b) (hf : 0 ≤ v.f) (hn : v.b + ((v.m + 1) / 5) * v.f ≤ 2147483647)
    (hr : 0 ≤ v.r) (hr2 : v.r + 2 ≤ 2147483647)
    (hc : 0 ≤ v.c) (hc1 : v.c + 1 ≤ 2147483647) :
    next_move game v = spec_step game.height game.width v := by
  have hq : 0 ≤ (v.m + 1) / 5 := Int.ediv_nonneg (by omega) (by norm_num)
  have hqf : 0 ≤ (v.m + 1) / 5 * v.f := mul_nonneg hq hf
  have e1 : wrap32 (v.m + 1) = v.m + 1 := wrap32_of_isInt32 ⟨by omega, by omega⟩
  have e2 : Int.tdiv (v.m + 1) 5 = (v.m + 1) / 5 := tdiv_nonneg_eq (by omega) (by norm_num)
  have e3 : wrap32 ((v.m + 1) / 5 * v.f) = (v.m + 1) / 5 * v.f :=
    wrap32_of_isInt32 ⟨by omega, by omega⟩
  have e4 : wrap32 (v.b + (v.m + 1) / 5 * v.f) = v.b + (v.m + 1) / 5 * v.f :=
    wrap32_of_isInt32 ⟨by omega, by omega⟩
  have e5 : Int.tmod (v.b + (v.m + 1) / 5 * v.f) 1000003 = (v.b + (v.m + 1) / 5 * v.f) % 1000003 :=
    tmod_nonneg_eq (by omega) (by norm_num)
  have e6 : Int.tmod (v.m + 1) 5 = (v.m + 1) % 5 := tmod_nonneg_eq (by omega) (by norm_num)
  have hn0 : 0 ≤ (v.b + (v.m + 1) / 5 * v.f) % 1000003 := Int.emod_nonneg _ (by norm_num)
  have e7 : Int.tdiv ((v.b + (v.m + 1) / 5 * v.f) % 1000003) game.width
      = (v.b + (v.m + 1) / 5 * v.f) % 1000003 / game.width := tdiv_nonneg_eq hn0 hw.le
  have e8 : Int.tmod ((v.b + (v.m + 1) / 5 * v.f) % 1000003) game.width
      = (v.b + (v.m + 1) / 5 * v.f) % 1000003 % game.width := tmod_nonneg_eq hn0 hw.le
  have hr0 : 0 ≤ (v.b + (v.m + 1) / 5 * v.f) % 1000003 / game.width :=
    Int.ediv_nonneg hn0 hw.le
  have hc0 : 0 ≤ (v.b + (v.m + 1) / 5 * v.f) % 1000003 % game.width :=
    Int.emod_nonneg _ hw.ne'
  have w1 : wrap32 (v.r + 1) = v.r + 1 := wrap32_of_isInt32 ⟨by omega, by omega⟩
  have w2 : wrap32 (v.r + 2) = v.r + 2 := wrap32_of_isInt32 ⟨by omega, by omega⟩
  have w3 : wrap32 (v.r + 0) = v.r + 0 := wrap32_of_isInt32 ⟨by omega, by omega⟩
  have w4 : wrap32 (v.c + 1) = v.c + 1 := wrap32_of_isInt32 ⟨by omega, by omega⟩
  have w5 : wrap32 (v.c + 0) = v.c + 0 := wrap32_of_isInt32 ⟨by omega, by omega⟩
  have hk : (v.m + 1) % 5 = 0 ∨ (v.m + 1) % 5 = 1 ∨ (v.m + 1) % 5 = 2
      ∨ (v.m + 1) % 5 = 3 ∨ (v.m + 1) % 5 = 4 := by omega
  unfold next_move next_n next_m spec_step
  simp only [e1, e2, e3, e4, e5, e6, e7, e8, w1, w2, w3, w4, w5]
  rcases hk with h | h | h | h | h <;> simp only [h] <;> norm_num
  · exact ⟨tmod_nonneg_eq hr0 hh.le, by rw [tmod_nonneg_eq hc0 hw.le, Int.emod_emod]⟩
  · exact ⟨tmod_nonneg_eq (by omega) hh.le, tmod_nonneg_eq (by omega) hw.le⟩
  · exact ⟨tmod_nonneg_eq (by omega) hh.le, tmod_nonneg_eq (by omega) hw.le⟩
  · exact ⟨tmod_nonneg_eq (by omega) hh.le, tmod_nonneg_eq (by omega) hw.le⟩
  · exact ⟨tmod_nonneg_eq (by omega) hh.le, tmod_nonneg_eq (by omega) hw.le⟩

theorem get_set_same (players : Players) (i : Int) (p : Player) :
    (players.set i p).get i = p := by
  unfold Players.get Players.set
  split <;> simp_all

/-- C3 (as the claim states it, refuted): on the generator state that `load_saved_data`
builds for player A from `overflow_snapshot` (all fields non-negative) the call of
`increment_next_move` overflows in `b + m / 5 * f` and publishes (-1,-3), where the
specification's step publishes (1,3); and on a state restored with the counter -7 the
source divides towards zero and takes no branch of its `switch`, publishing (0,0), where
the specification's step (floor division, branch 4) publishes (0,1). -/
theorem increment_next_move_differs_from_spec_step :
    load_saved_data overflow_snapshot zero_players 'c' 'h'
        = some (overflow_loaded.game, overflow_loaded.players)
    ∧ published ((increment_next_move overflow_loaded.game overflow_loaded.players 0).get 0).vars
        = (-1, -3)
    ∧ published (spec_step 4 4 (overflow_loaded.players.get 0).vars) = (1, 3)
    ∧ published (next_move (initialise_grid 4 4) negative_counter) = (0, 0)
    ∧ published (spec_step 4 4 negative_counter) = (0, 1) := by
  refine ⟨by rfl, by decide, by decide, by decide, by decide⟩

/-- C3 (amended): one call of `increment_next_move` on a player's generator state with
non-negative operands whose `int` operations stay below 2^31 is the specification's
step: `m` becomes `m+1`, `n = (b + (m/5)*f) mod 1000003`, the cursor moves by the branch
table on `m mod 5`, the published candidate is the cursor reduced modulo the board size,
and `b`, `f`, `ir`, `ic` keep their values.  On a 4x4 board the first step of player A's
fresh generator publishes (2,1). -/
theorem increment_next_move_is_spec_step (game : GameProperties) (players : Players)
    (active : Int)
    (hw : 0 < game.width) (hh : 0 < game.height)
    (hm : 0 ≤ (players.get active).vars.m) (hm1 : (players.get active).vars.m + 1 ≤ 2147483647)
    (hb : 0 ≤ (players.get active).vars.b) (hf : 0 ≤ (players.get active).vars.f)
    (hn : (players.get active).vars.b
            + (((players.get active).vars.m + 1) / 5) * (players.get active).vars.f ≤ 2147483647)
    (hr : 0 ≤ (players.get active).vars.r) (hr2 : (players.get active).vars.r + 2 ≤ 2147483647)
    (hc : 0 ≤ (players.get active).vars.c) (hc1 : (players.get active).vars.c + 1 ≤ 2147483647) :
    ((increment_next_move game players active).get active).vars
        = spec_step game.height game.width (players.get active).vars
      ∧ ((increment_next_move game players active).get active).vars.b
          = (players.get active).vars.b
      ∧ ((increment_next_move game players active).get active).vars.f
          = (players.get active).vars.f
      ∧ ((increment_next_move game players active).get active).vars.ir
          = (players.get active).vars.ir
      ∧ ((increment_next_move game players active).get active).vars.ic
          = (players.get active).vars.ic
      ∧ (∀ (ps : Players) (a1 a2 : Char),
          ((increment_next_move (initialise_grid 4 4)
              (initialise_player (initialise_grid 4 4) ps a1 a2) 0).get 0).vars.nextX = 2
          ∧ ((increment_next_move (initialise_grid 4 4)
              (initialise_player (initialise_grid 4 4) ps a1 a2) 0).get 0).vars.nextY = 1) := by
  have e : ((increment_next_move game players active).get active).vars
      = next_move game (players.get active).vars := by
    unfold increment_next_move
    rw [get_set_same]
  refine ⟨?_, ?_, ?_, ?_, ?_, ?_⟩
  · rw [e]; exact next_move_eq_spec_step game _ hw hh hm hm1 hb hf hn hr hr2 hc hc1
  · rw [e]; rfl
  · rw [e]; rfl
  · rw [e]; rfl
  · rw [e]; rfl
  · intro ps a1 a2
    constructor <;> rfl

/-- C3 (amended) on player A's fresh generator on a 4x4 board. -/
theorem increment_next_move_is_spec_step_witness :
    ((increment_next_move (initialise_grid 4 4)
        (initialise_player (initialise_grid 4 4) zero_players 'c' 'c') 0).get 0).vars
      = spec_step 4 4 ((initialise_player (initialise_grid 4 4) zero_players 'c' 'c').get 0).vars :=
  (increment_next_move_is_spec_step (initialise_grid 4 4)
    (initialise_player (initialise_grid 4 4) zero_players 'c' 'c') 0
    (by decide) (by decide) (by decide) (by decide) (by decide) (by decide) (by decide)
    (by decide) (by decide) (by decide) (by decide)).1

/-! ### The published candidate stays on the board -/

theorem increments_vars (game : GameProperties) (players : Players) (active : Int) (n : Nat) :
    ((increments game players active n).get active).vars
      = steps game (players.get active).vars n := by
  induction n with
  | zero => rfl
  | succ n ih =>
    show ((increment_next_move game (increments game players active n) active).get active).vars
      = next_move game (steps game (players.get active).vars n)
    unfold increment_next_move
    rw [get_set_same, ih]

theorem steps_GenInv (game : GameProperties) (ir ic f : Int)
    (hseed : (ir = 1 ∧ ic = 4 ∧ f = 29) ∨ (ir = 2 ∧ ic = 10 ∧ f = 17))
    (hh4 : 4 ≤ game.height) (hw4 : 4 ≤ game.width) (hw : game.width ≤ 1000) :
    ∀ N : Nat, ir * game.width + ic + ((N : Int) / 5) * f ≤ 2147483647 →
      GenInv game ir ic f (steps game (initial_variables game ir ic f) N) N := by
  intro N
  induction N with
  | zero =>
    intro _
    have hb : wrap32 (wrap32 (ir * game.width) + ic) = ir * game.width + ic := by
      rcases hseed with ⟨rfl, rfl, rfl⟩ | ⟨rfl, rfl, rfl⟩
      · rw [wrap32_of_isInt32 (x := 1 * game.width) ⟨by omega, by omega⟩,
          wrap32_of_isInt32 ⟨by omega, by omega⟩]
      · rw [wrap32_of_isInt32 (x := 2 * game.width) ⟨by omega, by omega⟩,
          wrap32_of_isInt32 ⟨by omega, by omega⟩]
    refine ⟨rfl, hb, rfl, ?_, ?_, ?_, ?_⟩ <;>
      rcases hseed with ⟨rfl, rfl, rfl⟩ | ⟨rfl, rfl, rfl⟩ <;>
      simp [steps, initial_variables]
  | succ N ih =>
    intro hov
    have hcast : ((N + 1 : Nat) : Int) = (N : Int) + 1 := by push_cast; rfl
    rw [hcast] at hov
    have hN0 : (0 : Int) ≤ N := Int.ofNat_nonneg N
    have hprev : ir * game.width + ic + ((N : Int) / 5) * f ≤ 2147483647 := by
      rcases hseed with ⟨rfl, rfl, rfl⟩ | ⟨rfl, rfl, rfl⟩ <;> omega
    obtain ⟨hm, hb, hf, hr0, hr1, hc0, hc1⟩ := ih hprev
    have hNs : (N : Int) + 1 ≤ 2147483647 := by
      rcases hseed with ⟨rfl, rfl, rfl⟩ | ⟨rfl, rfl, rfl⟩ <;> omega
    have hbn : 0 ≤ ir * game.width + ic := by
      rcases hseed with ⟨rfl, rfl, rfl⟩ | ⟨rfl, rfl, rfl⟩ <;> omega
    have hfn : 0 ≤ f := by
      rcases hseed with ⟨rfl, rfl, rfl⟩ | ⟨rfl, rfl, rfl⟩ <;> omega
    have hstep : steps game (initial_variables game ir ic f) (N + 1)
        = spec_step game.height game.width (steps game (initial_variables game ir ic f) N) := by
      show next_move game _ = _
      apply next_move_eq_spec_step
      · omega
      · omega
      · omega
      · omega
      · omega
      · omega
      · rw [hm, hb, hf]; exact hov
      · omega
      · omega
      · omega
      · omega
    rw [hstep]
    unfold GenInv spec_step
    rw [hcast, hm, hb, hf]
    have hn0 := Int.emod_nonneg (ir * game.width + ic + ((N : Int) + 1) / 5 * f)
      (show (1000003 : Int) ≠ 0 by norm_num)
    have hn1 := Int.emod_lt_of_pos (ir * game.width + ic + ((N : Int) + 1) / 5 * f)
      (show (0 : Int) < 1000003 by norm_num)
    have hq0 := Int.ediv_nonneg hn0 (show (0 : Int) ≤ game.width by omega)
    have hq1 := ediv_width_le hn1 hw4
    have hc0' := Int.emod_nonneg ((ir * game.width + ic + ((N : Int) + 1) / 5 * f) % 1000003)
      (show game.width ≠ 0 by omega)
    have hc1' := Int.emod_lt_of_pos ((ir * game.width + ic + ((N : Int) + 1) / 5 * f) % 1000003)
      (show 0 < game.width by omega)
    have hk : ((N : Int) + 1) % 5 = 0 ∨ ((N : Int) + 1) % 5 = 1 ∨ ((N : Int) + 1) % 5 = 2
        ∨ ((N : Int) + 1) % 5 = 3 ∨ ((N : Int) + 1) % 5 = 4 := by omega
    rcases hk with h | h | h | h | h <;> simp only [h] <;> norm_num <;>
      refine ⟨?_, ?_, ?_, ?_⟩ <;> omega

theorem steps_b (game : GameProperties) (v : MoveAlgorithm) (n : Nat) :
    (steps game v n).b = v.b := by
  induction n with
  | zero => rfl
  | succ n ih => exact ih

theorem steps_f (game : GameProperties) (v : MoveAlgorithm) (n : Nat) :
    (steps game v n).f = v.f := by
  induction n with
  | zero => rfl
  | succ n ih => exact ih

theorem steps_m (game : GameProperties) (v : MoveAlgorithm) (n : Nat)
    (h0 : 0 ≤ v.m) (h : v.m + n ≤ 2147483647) : (steps game v n).m = v.m + n := by
  induction n with
  | zero => simp [steps]
  | succ n ih =>
    have hcast : ((n + 1 : Nat) : Int) = (n : Int) + 1 := by push_cast; rfl
    rw [hcast] at h ⊢
    have hn0 : (0 : Int) ≤ n := Int.ofNat_nonneg n
    show wrap32 ((steps game v n).m + 1) = _
    rw [ih (by omega), wrap32_of_isInt32 ⟨by omega, by omega⟩]
    omega

theorem next_move_reseed (game : GameProperties) (v : MoveAlgorithm)
    (hk : Int.tmod (wrap32 (v.m + 1)) 5 = 0) :
    (next_move game v).nextX
        = Int.tmod (Int.tdiv (Int.tmod (wrap32 (v.b
            + wrap32 (Int.tdiv (wrap32 (v.m + 1)) 5 * v.f))) 1000003) game.width) game.height
      ∧ (next_move game v).nextY
        = Int.tmod (Int.tmod (Int.tmod (wrap32 (v.b
            + wrap32 (Int.tdiv (wrap32 (v.m + 1)) 5 * v.f))) 1000003) game.width) game.width := by
  unfold next_move next_n next_m
  simp only [hk, if_true]
  exact ⟨trivial, trivial⟩

/-- C4 (as the claim states it, refuted): on the 4x4 board player A's fresh generator
publishes (-1,-3) after 370255800 steps, the first step at which `b + m / 5 * f` leaves
the 32-bit range. -/
theorem published_candidate_off_board_at_overflow :
    ((increments (initialise_grid 4 4)
        (initialise_player (initialise_grid 4 4) zero_players 'c' 'c') 0 370255800).get 0).vars.nextX
      = -1
    ∧ ((increments (initialise_grid 4 4)
        (initialise_player (initialise_grid 4 4) zero_players 'c' 'c') 0 370255800).get 0).vars.nextY
      = -3 := by
  rw [increments_vars]
  have e : (370255800 : Nat) = 370255799 + 1 := rfl
  rw [e]
  show (next_move _ (steps _ _ 370255799)).nextX = -1
    ∧ (next_move _ (steps _ _ 370255799)).nextY = -3
  have hm := steps_m (initialise_grid 4 4)
    ((initialise_player (initialise_grid 4 4) zero_players 'c' 'c').get 0).vars 370255799
    (by decide) (by decide)
  have hb := steps_b (initialise_grid 4 4)
    ((initialise_player (initialise_grid 4 4) zero_players 'c' 'c').get 0).vars 370255799
  have hf := steps_f (initialise_grid 4 4)
    ((initialise_player (initialise_grid 4 4) zero_players 'c' 'c').get 0).vars 370255799
  have hk : Int.tmod (wrap32 ((steps (initialise_grid 4 4)
      ((initialise_player (initialise_grid 4 4) zero_players 'c' 'c').get 0).vars 370255799).m + 1)) 5
      = 0 := by
    rw [hm]; decide
  obtain ⟨hx, hy⟩ := next_move_reseed (initialise_grid 4 4) _ hk
  rw [hx, hy, hm, hb, hf]
  constructor <;> decide

/-- C4 (amended): for every board with height and width in [4,1000], for either player's
freshly initialised generator and every number `N >= 1` of steps below the overflow range
(`b + (N/5)*f` still a 32-bit `int`), the candidate published after the `N`-th step lies
on the board. -/
theorem published_candidate_on_board (game : GameProperties) (players : Players)
    (a1 a2 : Char) (active : Int) (N : Nat)
    (hh4 : 4 ≤ game.height) (hh : game.height ≤ 1000)
    (hw4 : 4 ≤ game.width) (hw : game.width ≤ 1000)
    (hact : active = 0 ∨ active = 1) (hN : 1 ≤ N)
    (hov : ((initialise_player game players a1 a2).get active).vars.b
        + ((N : Int) / 5) * ((initialise_player game players a1 a2).get active).vars.f
          ≤ 2147483647) :
    0 ≤ ((increments game (initialise_player game players a1 a2) active N).get active).vars.nextX
    ∧ ((increments game (initialise_player game players a1 a2) active N).get active).vars.nextX
        < game.height
    ∧ 0 ≤ ((increments game (initialise_player game players a1 a2) active N).get active).vars.nextY
    ∧ ((increments game (initialise_player game players a1 a2) active N).get active).vars.nextY
        < game.width := by
  rw [increments_vars]
  obtain ⟨ir, ic, f, hseed, hv⟩ : ∃ ir ic f,
      ((ir = 1 ∧ ic = 4 ∧ f = 29) ∨ (ir = 2 ∧ ic = 10 ∧ f = 17))
      ∧ ((initialise_player game players a1 a2).get active).vars
          = initial_variables game ir ic f := by
    rcases hact with rfl | rfl
    · exact ⟨1, 4, 29, Or.inl ⟨rfl, rfl, rfl⟩, rfl⟩
    · exact ⟨2, 10, 17, Or.inr ⟨rfl, rfl, rfl⟩, rfl⟩
  rw [hv] at hov ⊢
  have hb0 := (steps_GenInv game ir ic f hseed hh4 hw4 hw 0 (by
    rcases hseed with ⟨rfl, rfl, rfl⟩ | ⟨rfl, rfl, rfl⟩ <;> simp <;> omega)).2.1
  have hb : (initial_variables game ir ic f).b = ir * game.width + ic := hb0
  have hf : (initial_variables game ir ic f).f = f := rfl
  rw [hb, hf] at hov
  obtain ⟨_, _, _, hr0, _, hc0, _⟩ := steps_GenInv game ir ic f hseed hh4 hw4 hw N hov
  obtain ⟨M, rfl⟩ : ∃ M, N = M + 1 := ⟨N - 1, by omega⟩
  have hx : (steps game (initial_variables game ir ic f) (M + 1)).nextX
      = Int.tmod (steps game (initial_variables game ir ic f) (M + 1)).r game.height := rfl
  have hy : (steps game (initial_variables game ir ic f) (M + 1)).nextY
      = Int.tmod (steps game (initial_variables game ir ic f) (M + 1)).c game.width := rfl
  rw [hx, hy, tmod_nonneg_eq hr0 (by omega), tmod_nonneg_eq hc0 (by omega)]
  exact ⟨Int.emod_nonneg _ (by omega), Int.emod_lt_of_pos _ (by omega),
    Int.emod_nonneg _ (by omega), Int.emod_lt_of_pos _ (by omega)⟩

/-- C4 (amended) for player B after seven steps on a 4x4 board. -/
theorem published_candidate_on_board_witness :
    0 ≤ ((increments (initialise_grid 4 4)
          (initialise_player (initialise_grid 4 4) zero_players 'c' 'c') 1 7).get 1).vars.nextX
    ∧ ((increments (initialise_grid 4 4)
          (initialise_player (initialise_grid 4 4) zero_players 'c' 'c') 1 7).get 1).vars.nextX < 4
    ∧ 0 ≤ ((increments (initialise_grid 4 4)
          (initialise_player (initialise_grid 4 4) zero_players 'c' 'c') 1 7).get 1).vars.nextY
    ∧ ((increments (initialise_grid 4 4)
          (initialise_player (initialise_grid 4 4) zero_players 'c' 'c') 1 7).get 1).vars.nextY < 4 :=
  published_candidate_on_board (initialise_grid 4 4) zero_players 'c' 'c' 1 7
    (by decide) (by decide) (by decide) (by decide) (by decide) (by decide) (by decide)

/-! ### Isolated tokens and groups with one liberty -/

theorem sameGroup_token (game : GameProperties) {p q : Int × Int}
    (h : sameGroup game p q) : game.gameGrid q.1 q.2 = game.gameGrid p.1 p.2 := by
  induction h with
  | refl => rfl
  | tail _ hl ih => rw [hl.2.2, ih]

theorem sameGroup_closed (game : GameProperties) (S : Int × Int → Prop) {p q : Int × Int}
    (hp : S p) (hS : ∀ a b, S a → link game a b → S b) (h : sameGroup game p q) : S q := by
  induction h with
  | refl => exact hp
  | tail _ hl ih => exact hS _ _ ih hl

theorem sameGroup_isolated (game : GameProperties) {p q : Int × Int}
    (hiso : ∀ n : Int × Int, orthogonal p n → inBounds game n.1 n.2 →
      game.gameGrid n.1 n.2 ≠ game.gameGrid p.1 p.2)
    (h : sameGroup game p q) : q = p := by
  refine sameGroup_closed game (fun x => x = p) rfl ?_ h
  rintro a b rfl hl
  exact absurd hl.2.2 (hiso b hl.1 hl.2.1)

/-- C12: at an occupied point on the board none of whose on-board orthogonal neighbours
holds the same token, `any_liberties` returns true when some on-board orthogonal neighbour
is Empty, and false when every orthogonal neighbour is off the board or holds another
token that is not Empty. -/
theorem any_liberties_isolated_token (game : GameProperties) (row col : Int)
    (hin : inBounds game row col) (_hocc : game.gameGrid row col ≠ '.')
    (hiso : ∀ n : Int × Int, orthogonal (row, col) n → inBounds game n.1 n.2 →
      game.gameGrid n.1 n.2 ≠ game.gameGrid row col) :
    ((∃ n : Int × Int, orthogonal (row, col) n ∧ inBounds game n.1 n.2
        ∧ game.gameGrid n.1 n.2 = '.') → any_liberties game row col = some true)
    ∧ ((∀ n : Int × Int, orthogonal (row, col) n →
          ¬ inBounds game n.1 n.2
            ∨ (game.gameGrid n.1 n.2 ≠ '.' ∧ game.gameGrid n.1 n.2 ≠ game.gameGrid row col)) →
        any_liberties game row col = some false) := by
  obtain ⟨b, hb, hiff⟩ := any_liberties_spec game row col hin
  constructor
  · intro hn
    have : b = true := hiff.2 ⟨(row, col), Relation.ReflTransGen.refl, hn⟩
    rw [hb, this]
  · intro hall
    have : b = false := by
      cases b with
      | false => rfl
      | true =>
        obtain ⟨q, hq, n, hon, hnin, hne⟩ := hiff.1 rfl
        have hqp : q = (row, col) := sameGroup_isolated game hiso hq
        rw [hqp] at hon
        rcases hall n hon with h | h
        · exact absurd hnin h
        · exact absurd hne h.1
    rw [hb, this]

theorem orthogonal_cases {p n : Int × Int} (h : orthogonal p n) :
    n = (p.1, p.2 + 1) ∨ n = (p.1, p.2 - 1) ∨ n = (p.1 + 1, p.2) ∨ n = (p.1 - 1, p.2) := by
  rcases h with ⟨h1, h2 | h2⟩ | ⟨h1, h2 | h2⟩
  · exact Or.inl (Prod.ext h1 h2)
  · exact Or.inr (Or.inl (Prod.ext h1 h2))
  · exact Or.inr (Or.inr (Or.inl (Prod.ext h2 h1)))
  · exact Or.inr (Or.inr (Or.inr (Prod.ext h2 h1)))

/-- C12 on two 4x4 boards: a lone `'O'` at (1,1) with Empty neighbours, and the same
token enclosed by four `'X'`. -/
theorem any_liberties_isolated_token_witness :
    any_liberties (place (initialise_grid 4 4) 1 1 'O') 1 1 = some true
    ∧ any_liberties enclosed_board 1 1 = some false :=
  ⟨(any_liberties_isolated_token (place (initialise_grid 4 4) 1 1 'O') 1 1 (by decide)
      (by decide)
      (by
        intro n hn _
        rcases orthogonal_cases hn with rfl | rfl | rfl | rfl <;> decide)).1
      ⟨(1, 2), Or.inl ⟨rfl, Or.inl rfl⟩, by decide, by decide⟩,
   (any_liberties_isolated_token enclosed_board 1 1 (by decide) (by decide)
      (by
        intro n hn _
        rcases orthogonal_cases hn with rfl | rfl | rfl | rfl <;> decide)).2
      (by
        intro n hn
        rcases orthogonal_cases hn with rfl | rfl | rfl | rfl <;> exact Or.inr (by decide))⟩

theorem sameGroup_place_other (game : GameProperties) (e : Int × Int) (t : Char)
    {p q : Int × Int} (hp : game.gameGrid p.1 p.2 ≠ '.') (he : game.gameGrid e.1 e.2 = '.')
    (ht : t ≠ game.gameGrid p.1 p.2) (h : sameGroup (place game e.1 e.2 t) p q) :
    sameGroup game p q ∧ q ≠ e := by
  have hpe : p ≠ e := fun hpe => hp (by rw [hpe]; exact he)
  induction h with
  | refl => exact ⟨Relation.ReflTransGen.refl, hpe⟩
  | @tail a b _ hl ih =>
    obtain ⟨hpa, hae⟩ := ih
    have hga : game.gameGrid a.1 a.2 = game.gameGrid p.1 p.2 := sameGroup_token game hpa
    have hpa1 : (place game e.1 e.2 t).gameGrid a.1 a.2 = game.gameGrid a.1 a.2 := by
      show setCell game.gameGrid e.1 e.2 t a.1 a.2 = _
      unfold setCell
      rw [if_neg]
      rintro ⟨h1, h2⟩
      exact hae (Prod.ext h1 h2)
    obtain ⟨ho, hin, htok⟩ := hl
    rw [hpa1, hga] at htok
    have hbe : b ≠ e := by
      intro hbe
      apply ht
      rw [← htok, hbe]
      show t = setCell game.gameGrid e.1 e.2 t e.1 e.2
      unfold setCell
      rw [if_pos ⟨rfl, rfl⟩]
    have hpb1 : (place game e.1 e.2 t).gameGrid b.1 b.2 = game.gameGrid b.1 b.2 := by
      show setCell game.gameGrid e.1 e.2 t b.1 b.2 = _
      unfold setCell
      rw [if_neg]
      rintro ⟨h1, h2⟩
      exact hbe (Prod.ext h1 h2)
    refine ⟨Relation.ReflTransGen.tail hpa ⟨ho, hin, ?_⟩, hbe⟩
    rw [← hpb1, htok, hga]

/-- C13: when the group of an occupied point has exactly one Empty on-board orthogonal
neighbour `e`, `any_liberties` at the point returns true, and on the board on which `e`
holds another token it returns false at the same point. -/
theorem any_liberties_last_liberty (game : GameProperties) (row col : Int) (e : Int × Int)
    (t : Char) (hin : inBounds game row col) (hocc : game.gameGrid row col ≠ '.')
    (he : inBounds game e.1 e.2) (hee : game.gameGrid e.1 e.2 = '.')
    (hadj : ∃ q : Int × Int, sameGroup game (row, col) q ∧ orthogonal q e)
    (honly : ∀ q n : Int × Int, sameGroup game (row, col) q → orthogonal q n →
      inBounds game n.1 n.2 → game.gameGrid n.1 n.2 = '.' → n = e)
    (ht : t ≠ '.') (ht2 : t ≠ game.gameGrid row col) :
    any_liberties game row col = some true
    ∧ any_liberties (place game e.1 e.2 t) row col = some false := by
  constructor
  · obtain ⟨b, hb, hiff⟩ := any_liberties_spec game row col hin
    obtain ⟨q, hq, hqe⟩ := hadj
    have : b = true := hiff.2 ⟨q, hq, e, hqe, he, hee⟩
    rw [hb, this]
  · obtain ⟨b, hb, hiff⟩ := any_liberties_spec (place game e.1 e.2 t) row col hin
    have : b = false := by
      cases b with
      | false => rfl
      | true =>
        exfalso
        obtain ⟨q, hq, n, hon, hnin, hne⟩ := hiff.1 rfl
        obtain ⟨hq1, _⟩ := sameGroup_place_other game e t (p := (row, col)) hocc hee ht2 hq
        have hn : n ≠ e := by
          intro h
          apply ht
          rw [← hne, h]
          show t = setCell game.gameGrid e.1 e.2 t e.1 e.2
          unfold setCell
          rw [if_pos ⟨rfl, rfl⟩]
        have hgn : (place game e.1 e.2 t).gameGrid n.1 n.2 = game.gameGrid n.1 n.2 := by
          show setCell game.gameGrid e.1 e.2 t n.1 n.2 = _
          unfold setCell
          rw [if_neg]
          rintro ⟨h1, h2⟩
          exact hn (Prod.ext h1 h2)
        rw [hgn] at hne
        exact hn (honly q n hq1 hon hnin hne)
    rw [hb, this]

theorem snake_group {q : Int × Int} (h : sameGroup snake_board (0, 0) q) :
    q = (0, 0) ∨ q = (0, 1) ∨ q = (0, 2) := by
  refine sameGroup_closed snake_board (fun x => x = (0, 0) ∨ x = (0, 1) ∨ x = (0, 2))
    (Or.inl rfl) ?_ h
  rintro a b (rfl | rfl | rfl) ⟨ho, hin, htok⟩ <;>
    rcases orthogonal_cases ho with rfl | rfl | rfl | rfl <;>
    first
      | exact Or.inl rfl
      | exact Or.inr (Or.inl rfl)
      | exact Or.inr (Or.inr rfl)
      | exact absurd htok (by decide)

/-- C13 on the snake `'O'` at (0,0), (0,1), (0,2) of a 4x4 board, whose only liberty is
(0,3); the query is made at the far end (0,0). -/
theorem any_liberties_last_liberty_witness :
    any_liberties snake_board 0 0 = some true
    ∧ any_liberties (place snake_board 0 3 'X') 0 0 = some false :=
  any_liberties_last_liberty snake_board 0 0 (0, 3) 'X' (by decide) (by decide) (by decide)
    (by decide)
    ⟨(0, 2), Relation.ReflTransGen.tail
        (Relation.ReflTransGen.tail Relation.ReflTransGen.refl
          (show link snake_board (0, 0) (0, 1) from
            ⟨Or.inl ⟨rfl, Or.inl rfl⟩, by decide, by decide⟩))
        (show link snake_board (0, 1) (0, 2) from
          ⟨Or.inl ⟨rfl, Or.inl rfl⟩, by decide, by decide⟩),
      Or.inl ⟨rfl, Or.inl rfl⟩⟩
    (by
      intro q n hq ho hin hne
      rcases snake_group hq with rfl | rfl | rfl <;>
        rcases orthogonal_cases ho with rfl | rfl | rfl | rfl <;>
        first
          | rfl
          | exact absurd hne (by decide)
          | exact absurd hin (by decide))
    (by decide) (by decide)

/-! ### The generator does not read the board -/

theorem increment_next_move_dims (game game1 : GameProperties)
    (hh : game1.height = game.height) (hw : game1.width = game.width) (players : Players)
    (active : Int) :
    increment_next_move game1 players active = increment_next_move game players active := by
  unfold increment_next_move
  rw [next_move_dims game game1 hh hw]

/-- C14: on two boards of the same height and width, whatever their cells hold, `N` calls
of `increment_next_move` from the same generator state give the same state, hence the
same published candidate, for every `N`. -/
theorem generator_ignores_board_contents (game1 game2 : GameProperties) (players : Players)
    (active : Int) (hh : game1.height = game2.height) (hw : game1.width = game2.width) :
    ∀ N : Nat, increments game1 players active N = increments game2 players active N
      ∧ published ((increments game1 players active N).get active).vars
          = published ((increments game2 players active N).get active).vars := by
  have key : ∀ N : Nat, increments game1 players active N = increments game2 players active N := by
    intro N
    induction N with
    | zero => rfl
    | succ N ih =>
      show increment_next_move game1 (increments game1 players active N) active
        = increment_next_move game2 (increments game2 players active N) active
      rw [ih, increment_next_move_dims game2 game1 hh hw]
  intro N
  exact ⟨key N, by rw [key N]⟩

/-- C14 for the empty 4x4 board and the 4x4 board `enclosed_board`, after seven steps of
player A's generator. -/
theorem generator_ignores_board_contents_witness :
    increments (initialise_grid 4 4)
        (initialise_player (initialise_grid 4 4) zero_players 'c' 'c') 0 7
      = increments enclosed_board
        (initialise_player (initialise_grid 4 4) zero_players 'c' 'c') 0 7
    ∧ published ((increments (initialise_grid 4 4)
        (initialise_player (initialise_grid 4 4) zero_players 'c' 'c') 0 7).get 0).vars
      = published ((increments enclosed_board
        (initialise_player (initialise_grid 4 4) zero_players 'c' 'c') 0 7).get 0).vars :=
  generator_ignores_board_contents (initialise_grid 4 4) enclosed_board
    (initialise_player (initialise_grid 4 4) zero_players 'c' 'c') 0 rfl rfl 7

/-! ### What `validate_load_file` accepts -/

theorem is_token_iff (c : Char) : is_token c = true ↔ (c = '.' ∨ c = 'X' ∨ c = 'O') := by
  unfold is_token
  exact decide_eq_true_iff

theorem validate_row_iff : ∀ (w : Nat) (s rest : List Char),
    validate_row w s = some rest ↔
      ∃ row : List Char, row.length = w ∧ (∀ c ∈ row, c = '.' ∨ c = 'X' ∨ c = 'O')
        ∧ s = row ++ '\n' :: rest := by
  intro w
  induction w with
  | zero =>
    intro s rest
    cases s with
    | nil =>
      constructor
      · intro h; exact absurd h (by simp [validate_row])
      · rintro ⟨row, _, _, h⟩
        exact absurd h (by simp)
    | cons c s =>
      show (if c = '\n' then some s else none) = some rest ↔ _
      constructor
      · intro h
        by_cases hc : c = '\n'
        · rw [if_pos hc] at h
          refine ⟨[], rfl, by simp, ?_⟩
          rw [hc, Option.some.inj h]
          rfl
        · rw [if_neg hc] at h
          exact absurd h (by simp)
      · rintro ⟨row, hl, _, h⟩
        have hrow : row = [] := List.length_eq_zero.mp hl
        rw [hrow] at h
        have h1 : c = '\n' := (List.cons.inj h).1
        have h2 : s = rest := (List.cons.inj h).2
        rw [if_pos h1, h2]
  | succ w ih =>
    intro s rest
    cases s with
    | nil =>
      constructor
      · intro h; exact absurd h (by simp [validate_row])
      · rintro ⟨row, _, _, h⟩
        exact absurd h (by simp)
    | cons c s =>
      show (if is_token c then validate_row w s else none) = some rest ↔ _
      constructor
      · intro h
        by_cases hc : is_token c = true
        · rw [if_pos hc] at h
          obtain ⟨row, hl, htok, hs⟩ := (ih s rest).1 h
          refine ⟨c :: row, by simp [hl], ?_, by rw [hs]; rfl⟩
          intro x hx
          rcases List.mem_cons.mp hx with rfl | hx
          · exact (is_token_iff _).1 hc
          · exact htok x hx
        · rw [if_neg hc] at h
          exact absurd h (by simp)
      · rintro ⟨row, hl, htok, h⟩
        cases row with
        | nil => exact absurd hl (by simp)
        | cons x row =>
          have h1 : c = x := (List.cons.inj h).1
          have h2 : s = row ++ '\n' :: rest := (List.cons.inj h).2
          have hc : is_token c = true := by
            rw [h1]
            exact (is_token_iff _).2 (htok x (List.mem_cons_self _ _))
          rw [if_pos hc]
          exact (ih s rest).2 ⟨row, by simpa using hl,
            fun y hy => htok y (List.mem_cons_of_mem _ hy), h2⟩

theorem validate_rows_iff : ∀ (h w : Nat) (s : List Char),
    validate_rows h w s = true ↔ GridLines h w s := by
  intro h
  induction h with
  | zero =>
    intro w s
    constructor
    · intro _
      exact ⟨[], s, rfl, by simp, by simp⟩
    · intro _
      rfl
  | succ h ih =>
    intro w s
    constructor
    · intro hv
      cases hr : validate_row w s with
      | none =>
        have : validate_rows (h + 1) w s = false := by
          show (match validate_row w s with
            | none => false
            | some rest => validate_rows h w rest) = false
          rw [hr]
        rw [this] at hv
        exact absurd hv (by simp)
      | some rest =>
        have hv2 : validate_rows h w rest = true := by
          have : validate_rows (h + 1) w s = validate_rows h w rest := by
            show (match validate_row w s with
              | none => false
              | some rest => validate_rows h w rest) = _
            rw [hr]
          rw [← this]
          exact hv
        obtain ⟨row, hl, htok, hs⟩ := (validate_row_iff w s rest).1 hr
        obtain ⟨rows, tail, hlen, hrows, hrest⟩ := (ih w rest).1 hv2
        refine ⟨row :: rows, tail, by simp [hlen], ?_, ?_⟩
        · intro x hx
          rcases List.mem_cons.mp hx with rfl | hx
          · exact ⟨hl, htok⟩
          · exact hrows x hx
        · rw [hs, hrest]
          simp
    · rintro ⟨rows, tail, hlen, hrows, hs⟩
      cases rows with
      | nil => exact absurd hlen (by simp)
      | cons row rows =>
        have hr : validate_row w s
            = some (rows.flatMap (fun row => row ++ ['\n']) ++ tail) := by
          apply (validate_row_iff w s _).2
          refine ⟨row, (hrows row (List.mem_cons_self _ _)).1,
            (hrows row (List.mem_cons_self _ _)).2, ?_⟩
          rw [hs]
          simp
        show (match validate_row w s with
          | none => false
          | some rest => validate_rows h w rest) = true
        rw [hr]
        exact (ih w _).2 ⟨rows, tail, by simpa using hlen,
          fun x hx => hrows x (List.mem_cons_of_mem _ hx), rfl⟩

theorem scan_ints_length : ∀ (n : Nat) (s : List Char) (xs : List Int) (rest : List Char),
    scan_ints n s = some (xs, rest) → xs.length = n := by
  intro n
  induction n with
  | zero =>
    intro s xs rest h
    have : xs = [] := by
      have h1 : some (([] : List Int), s) = some (xs, rest) := h
      exact (Prod.mk.inj (Option.some.inj h1)).1.symm
    rw [this]
    rfl
  | succ n ih =>
    intro s xs rest h
    rw [scan_ints_succ] at h
    cases h1 : scan_int s with
    | none => rw [h1] at h; exact absurd h (by simp)
    | some r =>
      obtain ⟨x, s1⟩ := r
      rw [h1] at h
      dsimp only at h
      cases h2 : scan_ints n s1 with
      | none => rw [h2] at h; exact absurd h (by simp)
      | some r2 =>
        obtain ⟨ys, s2⟩ := r2
        rw [h2] at h
        dsimp only at h
        have h3 : some (x :: ys, s2) = some (xs, rest) := h
        have h4 : xs = x :: ys := (Prod.mk.inj (Option.some.inj h3)).1.symm
        rw [h4, List.length_cons, ih s1 ys s2 h2]

theorem validate_load_file_of_header (text : List Char)
    (a1 a2 a3 a4 a5 a6 a7 a8 a9 : Int) (grid : List Char)
    (hs : scan_ints 9 text = some ([a1, a2, a3, a4, a5, a6, a7, a8, a9], '\n' :: grid)) :
    validate_load_file (some text)
      = if a1 < 4 ∨ a1 > 1000 then Checked.exits 5
        else if a2 < 4 ∨ a2 > 1000 then Checked.exits 5
        else if a3 ≠ 0 ∧ a3 ≠ 1 then Checked.exits 5
        else if validate_rows a1.toNat a2.toNat grid then Checked.passes
        else Checked.exits 5 := by
  unfold validate_load_file
  simp only [hs]
  rw [if_neg (by simp)]

theorem validate_load_file_cases (text : List Char) :
    (validate_load_file (some text) = Checked.exits 5
      ∧ ∀ (xs : List Int) (grid : List Char), scan_ints 9 text ≠ some (xs, '\n' :: grid))
    ∨ ∃ (a1 a2 a3 a4 a5 a6 a7 a8 a9 : Int) (grid : List Char),
        scan_ints 9 text = some ([a1, a2, a3, a4, a5, a6, a7, a8, a9], '\n' :: grid) := by
  cases hs : scan_ints 9 text with
  | none =>
    left
    refine ⟨?_, fun _ _ h => by simp at h⟩
    unfold validate_load_file
    simp only [hs]
  | some r =>
    obtain ⟨xs, rest⟩ := r
    have hlen := scan_ints_length 9 text xs rest hs
    match xs, hlen with
    | [a1, a2, a3, a4, a5, a6, a7, a8, a9], _ =>
      cases rest with
      | nil =>
        left
        refine ⟨?_, fun _ _ h => by simp at h⟩
        unfold validate_load_file
        simp only [hs]
      | cons c grid =>
        by_cases hc : c = '\n'
        · right
          rw [hc]
          exact ⟨a1, a2, a3, a4, a5, a6, a7, a8, a9, grid, rfl⟩
        · left
          refine ⟨?_, fun _ _ h => ?_⟩
          · unfold validate_load_file
            simp only [hs]
            rw [if_pos hc]
          · simp only [Option.some.injEq, Prod.mk.injEq, List.cons.injEq] at h
            exact hc h.2.1

/-- What follows the last grid line is not examined: `validate_load_file` accepts a text
whose first line holds one integer (the other eight are on the second line) and in which
the four grid lines are followed by more text. -/
theorem validate_load_file_accepts_loose_text :
    validate_load_file (some loose_snapshot) = Checked.passes
    ∧ loose_snapshot.takeWhile (fun c => c ≠ '\n') = ['4']
    ∧ loose_snapshot
        = "4\n4 0 0 0 0 0 0 0\n".toList ++ "....\n....\n....\n....\n".toList ++ ['O', 'X'] := by
  decide

/-- What the code of `validate_load_file` accepts: the text of a file passes exactly when
it begins with nine integers as `%d` reads them (each after optional white space, newlines
included) and a newline right after the ninth, the first two integers are within
[4,1000], the third is 0 or 1, and what follows the newline begins with `height` grid
lines of exactly `width` cell values and a newline each; every other text of an opened
file is rejected with exit status 5. -/
theorem validate_load_file_accepts_iff (text : List Char) :
    (validate_load_file (some text) = Checked.passes ↔
      ∃ (height width active x1 y1 m1 x2 y2 m2 : Int) (grid : List Char),
        scan_ints 9 text
            = some ([height, width, active, x1, y1, m1, x2, y2, m2], '\n' :: grid)
          ∧ 4 ≤ height ∧ height ≤ 1000 ∧ 4 ≤ width ∧ width ≤ 1000
          ∧ (active = 0 ∨ active = 1)
          ∧ GridLines height.toNat width.toNat grid)
    ∧ (validate_load_file (some text) ≠ Checked.passes →
        validate_load_file (some text) = Checked.exits 5) := by
  rcases validate_load_file_cases text with ⟨h5, hno⟩ | ⟨a1, a2, a3, a4, a5, a6, a7, a8, a9, grid, hs⟩
  · refine ⟨⟨fun h => ?_, ?_⟩, fun _ => h5⟩
    · rw [h5] at h
      exact absurd h (by decide)
    · rintro ⟨height, width, active, x1, y1, m1, x2, y2, m2, grid, hs, _⟩
      exact absurd hs (hno _ _)
  · have hv := validate_load_file_of_header text a1 a2 a3 a4 a5 a6 a7 a8 a9 grid hs
    rw [hv]
    by_cases h1 : a1 < 4 ∨ a1 > 1000
    · rw [if_pos h1]
      refine ⟨⟨fun h => absurd h (by decide), ?_⟩, fun _ => rfl⟩
      rintro ⟨height, width, active, x1, y1, m1, x2, y2, m2, grid1, hs1, c1, c2, _⟩
      rw [hs] at hs1
      simp only [Option.some.injEq, Prod.mk.injEq, List.cons.injEq] at hs1
      omega
    rw [if_neg h1]
    by_cases h2 : a2 < 4 ∨ a2 > 1000
    · rw [if_pos h2]
      refine ⟨⟨fun h => absurd h (by decide), ?_⟩, fun _ => rfl⟩
      rintro ⟨height, width, active, x1, y1, m1, x2, y2, m2, grid1, hs1, _, _, c3, c4, _⟩
      rw [hs] at hs1
      simp only [Option.some.injEq, Prod.mk.injEq, List.cons.injEq] at hs1
      omega
    rw [if_neg h2]
    by_cases h3 : a3 ≠ 0 ∧ a3 ≠ 1
    · rw [if_pos h3]
      refine ⟨⟨fun h => absurd h (by decide), ?_⟩, fun _ => rfl⟩
      rintro ⟨height, width, active, x1, y1, m1, x2, y2, m2, grid1, hs1, _, _, _, _, c5, _⟩
      rw [hs] at hs1
      simp only [Option.some.injEq, Prod.mk.injEq, List.cons.injEq] at hs1
      omega
    rw [if_neg h3]
    by_cases h4 : validate_rows a1.toNat a2.toNat grid = true
    · rw [if_pos h4]
      refine ⟨⟨fun _ => ?_, fun _ => rfl⟩, fun h => absurd rfl h⟩
      exact ⟨a1, a2, a3, a4, a5, a6, a7, a8, a9, grid, hs, by omega, by omega, by omega,
        by omega, by omega, (validate_rows_iff _ _ _).1 h4⟩
    · rw [if_neg h4]
      refine ⟨⟨fun h => absurd h (by decide), ?_⟩, fun _ => rfl⟩
      rintro ⟨height, width, active, x1, y1, m1, x2, y2, m2, grid1, hs1, _, _, _, _, _, c6⟩
      rw [hs] at hs1
      simp only [Option.some.injEq, Prod.mk.injEq, List.cons.injEq] at hs1
      obtain ⟨⟨e1, e2, _⟩, _, e3⟩ := hs1
      rw [← e1, ← e2, ← e3] at c6
      exact absurd ((validate_rows_iff _ _ _).2 c6) h4

/-! ### The order of the two game-over checks -/

theorem mutual_capture_reached :
    ReachedIn (fresh_state 4 4 zero_players 'h' 'h') 6 mutual_capture :=
  ReachedIn.turn 0 [InputLine.move 0 1]
    (ReachedIn.turn 0 [InputLine.move 1 1]
      (ReachedIn.turn 0 [InputLine.move 3 3]
        (ReachedIn.turn 0 [InputLine.move 0 2]
          (ReachedIn.turn 0 [InputLine.move 1 0]
            (ReachedIn.turn 0 [InputLine.move 0 0] ReachedIn.start (by rfl))
            (by rfl))
          (by rfl))
        (by rfl))
      (by rfl))
    (by rfl)

theorem mutual_capture_facts :
    next_active mutual_capture.players = 0
    ∧ mutual_capture.game.gameGrid 0 0 = (mutual_capture.players.get 0).token
    ∧ any_liberties mutual_capture.game 0 0 = some false
    ∧ mutual_capture.game.gameGrid 0 1 = (mutual_capture.players.get 1).token
    ∧ any_liberties mutual_capture.game 0 1 = some false
    ∧ (mutual_capture.players.get 1).token = 'X' := by
  decide

theorem no_liberty_of_any_liberties (game : GameProperties) (row col : Int)
    (hin : inBounds game row col) (h : any_liberties game row col = some false) :
    ¬ groupHasLiberty game row col := by
  obtain ⟨b, hb, hiff⟩ := any_liberties_spec game row col hin
  intro hg
  have hbt : b = true := hiff.2 hg
  rw [hb, hbt] at h
  exact absurd h (by decide)

/-- C15 (as stated) fails: in the state reached by six moves of a fresh 4x4 game both
players own a group without liberty and player O (index 0) is the one about to move, yet
the pass of the loop declares `'X'`, the player not about to move, the winner. -/
theorem game_over_declares_next_mover_loser :
    ReachedIn (fresh_state 4 4 zero_players 'h' 'h') 6 mutual_capture
    ∧ next_active mutual_capture.players = 0
    ∧ mutual_capture.game.gameGrid 0 0 = (mutual_capture.players.get 0).token
    ∧ any_liberties mutual_capture.game 0 0 = some false
    ∧ mutual_capture.game.gameGrid 0 1 = (mutual_capture.players.get 1).token
    ∧ any_liberties mutual_capture.game 0 1 = some false
    ∧ ∀ (fuel : Nat) (input : List InputLine),
        run_game_turn fuel mutual_capture input
          = some (Turn.over (mutual_capture.players.get 1).token) := by
  obtain ⟨h1, h2, h3, h4, h5, _⟩ := mutual_capture_facts
  exact ⟨mutual_capture_reached, h1, h2, h3, h4, h5, fun _ _ => rfl⟩

/-- C15 (amended): every pass of the loop of `run_game` examines first the groups of
`players[1 - active]` and second those of `players[active]`, where `active` is the value
the loop variable has at the head of the pass.  When the first owns a group without
liberty, `players[active]` is declared the winner, whatever its own groups;
`players[1 - active]` wins only when it owns none and `players[active]` owns one.  In a
new game, after at least one move, `active` is the player who just moved, so the player
examined first is the one about to move. -/
theorem game_over_checks_last_mover_second (s : GameState) (fuel : Nat)
    (input : List InputLine) :
    ((∃ i j, inBounds s.game i j ∧ s.game.gameGrid i j = (s.players.get (1 - s.active)).token
          ∧ ¬ groupHasLiberty s.game i j) →
        run_game_turn fuel s input = some (Turn.over (s.players.get s.active).token))
    ∧ ((∀ i j, inBounds s.game i j → s.game.gameGrid i j = (s.players.get (1 - s.active)).token
          → groupHasLiberty s.game i j) →
        (∃ i j, inBounds s.game i j ∧ s.game.gameGrid i j = (s.players.get s.active).token
          ∧ ¬ groupHasLiberty s.game i j) →
        run_game_turn fuel s input = some (Turn.over (s.players.get (1 - s.active)).token))
    ∧ (∀ (height width : Int) (ps : Players) (a1 a2 : Char) (n : Nat),
        height ≤ 1000 → width ≤ 1000 →
        ReachedIn (fresh_state height width ps a1 a2) (n + 1) s →
        next_active s.players = 1 - s.active) := by
  have h11 : 1 - (1 - s.active) = s.active := by omega
  refine ⟨?_, ?_, ?_⟩
  · rintro ⟨i, j, hin, htok, hno⟩
    rcases check_game_over_spec s.game s.players (1 - s.active) with ⟨_, he⟩ | ⟨hall, _⟩
    · rw [h11] at he
      unfold run_game_turn
      rw [he]
    · exact absurd (hall i j hin htok) hno
  · rintro hall ⟨i, j, hin, htok, hno⟩
    rcases check_game_over_spec s.game s.players (1 - s.active) with ⟨⟨i1, j1, h1, h2, h3⟩, _⟩ | ⟨_, he1⟩
    · exact absurd (hall i1 j1 h1 h2) h3
    · rcases check_game_over_spec s.game s.players s.active with ⟨_, he2⟩ | ⟨hall2, _⟩
      · unfold run_game_turn
        rw [he1]
        dsimp only
        rw [he2]
      · exact absurd (hall2 i j hin htok) hno
  · intro height width ps a1 a2 n hh hw hr
    obtain ⟨_, _, _, _, _, hm0, hm1, ha⟩ :=
      fresh_run_invariant height width ps a1 a2 hh hw (n + 1) s hr
    have ha1 := ha (by omega)
    unfold next_active
    have g0 : s.players.get 0 = s.players.p0 := rfl
    have g1 : s.players.get 1 = s.players.p1 := rfl
    rw [g0, g1, hm0, hm1, ha1]
    push_cast
    split <;> omega

/-- C15 (amended) in the state `mutual_capture`, where X moved last and both players own
a group without liberty: X is declared the winner. -/
theorem game_over_checks_last_mover_second_witness :
    run_game_turn 0 mutual_capture [] = some (Turn.over 'X') :=
  (game_over_checks_last_mover_second mutual_capture 0 []).1
    ⟨0, 0, by decide, rfl,
      no_liberty_of_any_liberties mutual_capture.game 0 0 (by decide) (by decide)⟩

/-! ### The effect of a move -/

theorem occupied_bound (game : GameProperties) (hh : game.height ≤ 1000)
    (hw : game.width ≤ 1000) : (occupied game : Int) ≤ 1000000 := by
  have h2 := occupied_le game
  have h3 : game.height.toNat * game.width.toNat ≤ 1000 * 1000 := by
    apply Nat.mul_le_mul
    · omega
    · omega
  omega

theorem started_bounded (s0 : GameState) (h : Started s0) : MovesBounded s0 := by
  rcases h with ⟨height, width, ps, a1, a2, _, hh, _, hw, rfl⟩
    | ⟨text, ps, a1, a2, game, players, hv, hl, rfl⟩
  · exact ⟨hh, hw, rfl, rfl, le_refl _, le_refl _, by
      show (0 : Int) + 0 ≤ _
      omega⟩
  · rcases validate_load_file_cases text with ⟨h5, _⟩
      | ⟨b1, b2, b3, b4, b5, b6, b7, b8, b9, grid, hs⟩
    · rw [h5] at hv
      exact absurd hv (by decide)
    · have hv1 := validate_load_file_of_header text b1 b2 b3 b4 b5 b6 b7 b8 b9 grid hs
      rw [hv1] at hv
      have r1 : ¬ (b1 < 4 ∨ b1 > 1000) := by
        intro hc
        rw [if_pos hc] at hv
        exact absurd hv (by decide)
      rw [if_neg r1] at hv
      have r2 : ¬ (b2 < 4 ∨ b2 > 1000) := by
        intro hc
        rw [if_pos hc] at hv
        exact absurd hv (by decide)
      rw [if_neg r2] at hv
      have r3 : ¬ (b3 ≠ 0 ∧ b3 ≠ 1) := by
        intro hc
        rw [if_pos hc] at hv
        exact absurd hv (by decide)
      unfold load_saved_data at hl
      simp only [hs] at hl
      cases hrows : read_rows b1.toNat b2.toNat ('\n' :: grid) with
      | none =>
        rw [hrows] at hl
        exact absurd hl (by simp)
      | some rows =>
        rw [hrows] at hl
        simp only [Option.some.injEq, Prod.mk.injEq] at hl
        obtain ⟨hg, hp⟩ := hl
        subst hg
        subst hp
        refine ⟨by show b1 ≤ 1000; omega, by show b2 ≤ 1000; omega, rfl, rfl, ?_, le_refl _, ?_⟩
        · show 0 ≤ b3
          omega
        · show b3 + 0 ≤ _
          omega

theorem next_active_cases (players : Players) :
    next_active players = 0 ∨ next_active players = 1 := by
  unfold next_active
  split
  · exact Or.inr rfl
  · exact Or.inl rfl

theorem turn_bounded {fuel : Nat} {s s1 : GameState} {input rest : List InputLine}
    {x y : Int} {files : List (List Char)} (hb : MovesBounded s)
    (h : run_game_turn fuel s input = some (Turn.played s1 x y rest files)) :
    MovesBounded s1 := by
  obtain ⟨hH, hW, ht0, ht1, hm0, hm1, hsum⟩ := hb
  obtain ⟨_, _, hvalid, ps1, hsame, hs1⟩ := run_game_turn_played h
  obtain ⟨hin, hdot⟩ := valid_move_spec.mp hvalid
  have hocc := occupied_bound s.game hH hW
  obtain ⟨_, q0, r0, _, q1, r1⟩ := hsame
  rw [hs1]
  rcases next_active_cases s.players with ha | ha
  · rw [ha]
    have htok : (ps1.get 0).token ≠ '.' := by
      show ps1.p0.token ≠ '.'
      rw [q0, ht0]; decide
    have ho := occupied_place s.game x y _ hin hdot htok
    refine ⟨hH, hW, ?_, ?_, ?_, ?_, ?_⟩
    · show ps1.p0.token = 'O'
      rw [q0, ht0]
    · show ps1.p1.token = 'X'
      rw [q1, ht1]
    · show 0 ≤ wrap32 (ps1.p0.move + 1)
      rw [r0, wrap32_of_isInt32 ⟨by omega, by omega⟩]
      omega
    · show 0 ≤ ps1.p1.move
      rw [r1]; exact hm1
    · show wrap32 (ps1.p0.move + 1) + ps1.p1.move
          ≤ (occupied (place s.game x y (ps1.get 0).token) : Int) + 1
      rw [r0, r1, wrap32_of_isInt32 ⟨by omega, by omega⟩, ho]
      push_cast
      omega
  · rw [ha]
    have htok : (ps1.get 1).token ≠ '.' := by
      show ps1.p1.token ≠ '.'
      rw [q1, ht1]; decide
    have ho := occupied_place s.game x y _ hin hdot htok
    refine ⟨hH, hW, ?_, ?_, ?_, ?_, ?_⟩
    · show ps1.p0.token = 'O'
      rw [q0, ht0]
    · show ps1.p1.token = 'X'
      rw [q1, ht1]
    · show 0 ≤ ps1.p0.move
      rw [r0]; exact hm0
    · show 0 ≤ wrap32 (ps1.p1.move + 1)
      rw [r1, wrap32_of_isInt32 ⟨by omega, by omega⟩]
      omega
    · show ps1.p0.move + wrap32 (ps1.p1.move + 1)
          ≤ (occupied (place s.game x y (ps1.get 1).token) : Int) + 1
      rw [r0, r1, wrap32_of_isInt32 ⟨by omega, by omega⟩, ho]
      push_cast
      omega

theorem started_run_bounded (s0 : GameState) (hstart : Started s0) :
    ∀ (n : Nat) (s : GameState), ReachedIn s0 n s → MovesBounded s := by
  intro n s hr
  induction hr with
  | start => exact started_bounded s0 hstart
  | turn fuel input _ hturn ih => exact turn_bounded ih hturn

/-- C17: in every pass of the loop of `run_game` that applies a move `(x, y)`, in any
state of a game started by `main`, the point is on the board and Empty before, holds the
token of the player who moves after, that token is not Empty, every other cell and the
two dimensions are unchanged, the move count of the player who moves grows by exactly 1
and the one of the other player is unchanged; hence no occupied cell changes. -/
theorem move_changes_one_cell (s0 s s1 : GameState) (n fuel : Nat)
    (input rest : List InputLine) (x y : Int) (files : List (List Char))
    (hstart : Started s0) (hr : ReachedIn s0 n s)
    (hturn : run_game_turn fuel s input = some (Turn.played s1 x y rest files)) :
    inBounds s.game x y ∧ s.game.gameGrid x y = '.'
    ∧ s1.game.gameGrid x y = (s.players.get (next_active s.players)).token
    ∧ (s.players.get (next_active s.players)).token ≠ '.'
    ∧ (∀ i j, ¬ (i = x ∧ j = y) → s1.game.gameGrid i j = s.game.gameGrid i j)
    ∧ s1.game.height = s.game.height ∧ s1.game.width = s.game.width
    ∧ (s1.players.get (next_active s.players)).move
        = (s.players.get (next_active s.players)).move + 1
    ∧ (s1.players.get (1 - next_active s.players)).move
        = (s.players.get (1 - next_active s.players)).move
    ∧ (∀ i j, s.game.gameGrid i j ≠ '.' → s1.game.gameGrid i j = s.game.gameGrid i j) := by
  obtain ⟨hH, hW, ht0, ht1, hm0, hm1, hsum⟩ := started_run_bounded s0 hstart n s hr
  obtain ⟨_, _, hvalid, ps1, hsame, hs1⟩ := run_game_turn_played hturn
  obtain ⟨hin, hdot⟩ := valid_move_spec.mp hvalid
  have hocc := occupied_bound s.game hH hW
  have hg := sameButVars_get hsame (next_active s.players)
  have hg1 := sameButVars_get hsame (1 - next_active s.players)
  have hcell : ∀ i j, ¬ (i = x ∧ j = y) → s1.game.gameGrid i j = s.game.gameGrid i j := by
    intro i j hne
    rw [hs1]
    show setCell s.game.gameGrid x y _ i j = _
    unfold setCell
    rw [if_neg hne]
  have htok : (s.players.get (next_active s.players)).token ≠ '.' := by
    unfold Players.get
    split
    · rw [ht0]; decide
    · rw [ht1]; decide
  have hmove : 0 ≤ (s.players.get (next_active s.players)).move
      ∧ (s.players.get (next_active s.players)).move ≤ 1000001 := by
    unfold Players.get
    split
    · constructor <;> omega
    · constructor <;> omega
  refine ⟨hin, hdot, ?_, htok, hcell, ?_, ?_, ?_, ?_, ?_⟩
  · rw [hs1, ← hg.2.1]
    show setCell s.game.gameGrid x y _ x y = _
    unfold setCell
    rw [if_pos ⟨rfl, rfl⟩]
  · rw [hs1]; rfl
  · rw [hs1]; rfl
  · rw [hs1]
    show ((ps1.set _ _).get _).move = _
    rw [get_set_same]
    show wrap32 ((ps1.get (next_active s.players)).move + 1) = _
    rw [hg.2.2, wrap32_of_isInt32 ⟨by omega, by omega⟩]
  · rw [hs1, ← hg1.2.2]
    show ((ps1.set _ _).get _).move = _
    rcases next_active_cases s.players with ha | ha <;> rw [ha] <;> rfl
  · intro i j hne
    apply hcell
    rintro ⟨rfl, rfl⟩
    exact hne hdot

/-- C17 for the first move, (0,0) by player O, of a fresh 4x4 game of two human players. -/
theorem move_changes_one_cell_witness :
    inBounds (fresh_state 4 4 zero_players 'h' 'h').game 0 0
    ∧ (fresh_state 4 4 zero_players 'h' 'h').game.gameGrid 0 0 = '.'
    ∧ (human_turn (fresh_state 4 4 zero_players 'h' 'h') 0 0).game.gameGrid 0 0
        = ((fresh_state 4 4 zero_players 'h' 'h').players.get
            (next_active (fresh_state 4 4 zero_players 'h' 'h').players)).token
    ∧ ((fresh_state 4 4 zero_players 'h' 'h').players.get
          (next_active (fresh_state 4 4 zero_players 'h' 'h').players)).token ≠ '.'
    ∧ (∀ i j, ¬ (i = 0 ∧ j = 0) →
        (human_turn (fresh_state 4 4 zero_players 'h' 'h') 0 0).game.gameGrid i j
          = (fresh_state 4 4 zero_players 'h' 'h').game.gameGrid i j)
    ∧ (human_turn (fresh_state 4 4 zero_players 'h' 'h') 0 0).game.height
        = (fresh_state 4 4 zero_players 'h' 'h').game.height
    ∧ (human_turn (fresh_state 4 4 zero_players 'h' 'h') 0 0).game.width
        = (fresh_state 4 4 zero_players 'h' 'h').game.width
    ∧ ((human_turn (fresh_state 4 4 zero_players 'h' 'h') 0 0).players.get
          (next_active (fresh_state 4 4 zero_players 'h' 'h').players)).move
        = ((fresh_state 4 4 zero_players 'h' 'h').players.get
            (next_active (fresh_state 4 4 zero_players 'h' 'h').players)).move + 1
    ∧ ((human_turn (fresh_state 4 4 zero_players 'h' 'h') 0 0).players.get
          (1 - next_active (fresh_state 4 4 zero_players 'h' 'h').players)).move
        = ((fresh_state 4 4 zero_players 'h' 'h').players.get
            (1 - next_active (fresh_state 4 4 zero_players 'h' 'h').players)).move
    ∧ (∀ i j, (fresh_state 4 4 zero_players 'h' 'h').game.gameGrid i j ≠ '.' →
        (human_turn (fresh_state 4 4 zero_players 'h' 'h') 0 0).game.gameGrid i j
          = (fresh_state 4 4 zero_players 'h' 'h').game.gameGrid i j) :=
  move_changes_one_cell (fresh_state 4 4 zero_players 'h' 'h')
    (fresh_state 4 4 zero_players 'h' 'h')
    (human_turn (fresh_state 4 4 zero_players 'h' 'h') 0 0) 0 0 [InputLine.move 0 0] [] 0 0 []
    (Or.inl ⟨4, 4, zero_players, 'h', 'h', by decide, by decide, by decide, by decide, rfl⟩)
    ReachedIn.start (by rfl)

/-! ### A computer turn -/

theorem increments_shift (game : GameProperties) (players : Players) (active : Int) :
    ∀ n : Nat, increments game (increment_next_move game players active) active n
      = increments game players active (n + 1) := by
  intro n
  induction n with
  | zero => rfl
  | succ n ih =>
    show increment_next_move game
        (increments game (increment_next_move game players active) active n) active = _
    rw [ih]
    rfl

theorem search_move_found_steps (game : GameProperties) (active : Int) :
    ∀ (fuel : Nat) (ps ps1 : Players), search_move game active fuel ps = Search.found ps1 →
      ∃ d : Nat, d < fuel ∧ ps1 = increments game ps active d
        ∧ (∀ k : Nat, k < d →
            inBounds game ((increments game ps active k).get active).vars.nextX
              ((increments game ps active k).get active).vars.nextY
            ∧ game.gameGrid ((increments game ps active k).get active).vars.nextX
              ((increments game ps active k).get active).vars.nextY ≠ '.')
        ∧ inBounds game ((increments game ps active d).get active).vars.nextX
            ((increments game ps active d).get active).vars.nextY
        ∧ game.gameGrid ((increments game ps active d).get active).vars.nextX
            ((increments game ps active d).get active).vars.nextY = '.' := by
  intro fuel
  induction fuel with
  | zero => intro ps ps1 h; cases h
  | succ fuel ih =>
    intro ps ps1 h
    unfold search_move at h
    by_cases hin : inBounds game (ps.get active).vars.nextX (ps.get active).vars.nextY
    · rw [if_pos hin] at h
      by_cases hocc : game.gameGrid (ps.get active).vars.nextX (ps.get active).vars.nextY ≠ '.'
      · rw [if_pos hocc] at h
        obtain ⟨d, hd, he, hbefore, hin1, hdot1⟩ := ih _ _ h
        refine ⟨d + 1, by omega, ?_, ?_, ?_, ?_⟩
        · rw [he, increments_shift]
        · intro k hk
          cases k with
          | zero => exact ⟨hin, hocc⟩
          | succ k =>
            have := hbefore k (by omega)
            rw [increments_shift] at this
            exact this
        · rw [increments_shift] at hin1
          exact hin1
        · rw [increments_shift] at hdot1
          exact hdot1
      · rw [if_neg hocc] at h
        have he : ps = ps1 := Search.found.inj h
        refine ⟨0, by omega, he.symm, fun k hk => absurd hk (by omega), hin, ?_⟩
        exact not_not.mp hocc
    · rw [if_neg hin] at h
      cases h

theorem wrap32_succ (x : Int) : wrap32 (wrap32 x + 1) = wrap32 (x + 1) := by
  unfold wrap32
  exact Int.bmod_add_bmod_congr

theorem steps_m_wrap (game : GameProperties) (v : MoveAlgorithm) (hm : isInt32 v.m) :
    ∀ n : Nat, (steps game v n).m = wrap32 (v.m + n) := by
  intro n
  induction n with
  | zero =>
    show v.m = wrap32 (v.m + ((0 : Nat) : Int))
    rw [Int.natCast_zero, add_zero, wrap32_of_isInt32 hm]
  | succ n ih =>
    show wrap32 ((steps game v n).m + 1) = _
    rw [ih, wrap32_succ]
    congr 1
    push_cast
    ring

theorem run_game_turn_computer {fuel : Nat} {s s1 : GameState} {input rest : List InputLine}
    {x y : Int} {files : List (List Char)}
    (hc : (s.players.get (next_active s.players)).type = COMPUTER)
    (h : run_game_turn fuel s input = some (Turn.played s1 x y rest files)) :
    ∃ ps1 : Players,
      search_move s.game (next_active s.players) fuel s.players = Search.found ps1
      ∧ x = (ps1.get (next_active s.players)).vars.nextX
      ∧ y = (ps1.get (next_active s.players)).vars.nextY
      ∧ s1 = apply_move s.game (increment_next_move s.game ps1 (next_active s.players))
          (next_active s.players) x y := by
  unfold run_game_turn at h
  split at h
  · cases h
  · cases h
  · split at h
    · cases h
    · cases h
    · rw [if_pos hc] at h
      split at h
      · cases h
      · cases h
      · rename_i ps1 hfound
        cases h
        exact ⟨ps1, hfound, rfl, rfl, rfl⟩

theorem apply_move_vars (game : GameProperties) (players : Players) (active x y : Int) :
    ((apply_move game players active x y).players.get active).vars
      = (players.get active).vars := by
  show ((players.set active _).get active).vars = _
  rw [get_set_same]

/-- C16 (as stated) fails: a game loaded from an accepted snapshot in which the counter of
computer player A is 2147483647 lets A play its published candidate (0,0) at once (no
discard), and the one priming step leaves the counter at -2147483648, not one more. -/
theorem computer_turn_counter_wraps :
    validate_load_file (some full_counter_snapshot) = Checked.passes
    ∧ load_saved_data full_counter_snapshot zero_players 'c' 'h'
        = some (full_counter_loaded.game, full_counter_loaded.players)
    ∧ (full_counter_loaded.players.get 0).vars.m = 2147483647
    ∧ published (full_counter_loaded.players.get 0).vars = (0, 0)
    ∧ run_game_turn 1 full_counter_loaded []
        = some (Turn.played
            (apply_move full_counter_loaded.game
              (increment_next_move full_counter_loaded.game full_counter_loaded.players 0)
              0 0 0) 0 0 [] [])
    ∧ ((apply_move full_counter_loaded.game
          (increment_next_move full_counter_loaded.game full_counter_loaded.players 0)
          0 0 0).players.get 0).vars.m = -2147483648 := by
  refine ⟨by decide, by rfl, by decide, by decide, by rfl, by decide⟩

/-- C16 (amended): a computer turn that plays `(x, y)` discards some number `d` of
candidates, each on the board and occupied, `(x, y)` is the candidate published after `d`
steps from the one published at the start of the turn and is Empty, and the generator is
left after exactly `d + 1` steps, so that the candidate published at the end of the turn
is the one following `(x, y)` in the stream; the counter `m` has grown by exactly `d + 1`
provided it does not pass 2147483647. -/
theorem computer_turn_takes_first_empty_candidate (s s1 : GameState) (fuel : Nat)
    (input rest : List InputLine) (x y : Int) (files : List (List Char))
    (hc : (s.players.get (next_active s.players)).type = COMPUTER)
    (hturn : run_game_turn fuel s input = some (Turn.played s1 x y rest files)) :
    ∃ d : Nat,
      (∀ k : Nat, k < d →
        inBounds s.game
            (steps s.game (s.players.get (next_active s.players)).vars k).nextX
            (steps s.game (s.players.get (next_active s.players)).vars k).nextY
        ∧ s.game.gameGrid
            (steps s.game (s.players.get (next_active s.players)).vars k).nextX
            (steps s.game (s.players.get (next_active s.players)).vars k).nextY ≠ '.')
      ∧ (x, y) = published (steps s.game (s.players.get (next_active s.players)).vars d)
      ∧ inBounds s.game x y ∧ s.game.gameGrid x y = '.'
      ∧ (s1.players.get (next_active s.players)).vars
          = steps s.game (s.players.get (next_active s.players)).vars (d + 1)
      ∧ (isInt32 (s.players.get (next_active s.players)).vars.m →
          (s.players.get (next_active s.players)).vars.m + ((d : Int) + 1) ≤ 2147483647 →
          (s1.players.get (next_active s.players)).vars.m
            = (s.players.get (next_active s.players)).vars.m + ((d : Int) + 1)) := by
  obtain ⟨ps1, hfound, hx, hy, hs1⟩ := run_game_turn_computer hc hturn
  obtain ⟨d, _, he, hbefore, hin, hdot⟩ :=
    search_move_found_steps s.game (next_active s.players) fuel s.players ps1 hfound
  have hvars : (s1.players.get (next_active s.players)).vars
      = steps s.game (s.players.get (next_active s.players)).vars (d + 1) := by
    rw [hs1, apply_move_vars, he]
    exact increments_vars s.game s.players (next_active s.players) (d + 1)
  rw [he, increments_vars] at hx hy
  refine ⟨d, ?_, ?_, ?_, ?_, hvars, ?_⟩
  · intro k hk
    have := hbefore k hk
    rw [increments_vars] at this
    exact this
  · rw [hx, hy]
    rfl
  · rw [increments_vars] at hin
    rw [hx, hy]
    exact hin
  · rw [increments_vars] at hdot
    rw [hx, hy]
    exact hdot
  · intro hm hle
    rw [hvars, steps_m_wrap s.game _ hm (d + 1)]
    push_cast
    have hlo := hm.1
    have hd : (0 : Int) ≤ d := Int.ofNat_nonneg d
    exact wrap32_of_isInt32 ⟨by omega, by omega⟩

theorem candidate_taken_turn :
    run_game_turn 2 candidate_taken []
      = some (Turn.played
          (apply_move candidate_taken.game
            (increments candidate_taken.game candidate_taken.players 0 2) 0 0 2)
          0 2 [] []) := by
  rfl

/-- C16 (amended) in the state `candidate_taken`: computer player A discards the occupied
candidate (2,1) and plays the next one, (0,2). -/
theorem computer_turn_takes_first_empty_candidate_witness :
    ∃ d : Nat,
      (∀ k : Nat, k < d →
        inBounds candidate_taken.game
            (steps candidate_taken.game
              (candidate_taken.players.get (next_active candidate_taken.players)).vars k).nextX
            (steps candidate_taken.game
              (candidate_taken.players.get (next_active candidate_taken.players)).vars k).nextY
        ∧ candidate_taken.game.gameGrid
            (steps candidate_taken.game
              (candidate_taken.players.get (next_active candidate_taken.players)).vars k).nextX
            (steps candidate_taken.game
              (candidate_taken.players.get (next_active candidate_taken.players)).vars k).nextY
            ≠ '.')
      ∧ ((0 : Int), (2 : Int)) = published (steps candidate_taken.game
            (candidate_taken.players.get (next_active candidate_taken.players)).vars d)
      ∧ inBounds candidate_taken.game 0 2 ∧ candidate_taken.game.gameGrid 0 2 = '.'
      ∧ ((apply_move candidate_taken.game
            (increments candidate_taken.game candidate_taken.players 0 2) 0 0 2).players.get
              (next_active candidate_taken.players)).vars
          = steps candidate_taken.game
              (candidate_taken.players.get (next_active candidate_taken.players)).vars (d + 1)
      ∧ (isInt32 (candidate_taken.players.get (next_active candidate_taken.players)).vars.m →
          (candidate_taken.players.get (next_active candidate_taken.players)).vars.m
              + ((d : Int) + 1) ≤ 2147483647 →
          ((apply_move candidate_taken.game
              (increments candidate_taken.game candidate_taken.players 0 2) 0 0 2).players.get
                (next_active candidate_taken.players)).vars.m
            = (candidate_taken.players.get (next_active candidate_taken.players)).vars.m
                + ((d : Int) + 1)) :=
  computer_turn_takes_first_empty_candidate candidate_taken _ 2 [] [] 0 2 [] (by decide)
    candidate_taken_turn

/-! ### The game-over scan limited to the last-placed point -/

theorem place_other (game : GameProperties) (x y : Int) (t : Char) (q : Int × Int)
    (h : q ≠ (x, y)) : (place game x y t).gameGrid q.1 q.2 = game.gameGrid q.1 q.2 := by
  show setCell game.gameGrid x y t q.1 q.2 = _
  unfold setCell
  rw [if_neg]
  rintro ⟨h1, h2⟩
  exact h (Prod.ext h1 h2)

theorem sameGroup_place (game : GameProperties) (x y : Int) (t : Char) {a b : Int × Int}
    (ha : game.gameGrid a.1 a.2 ≠ '.') (hp : game.gameGrid x y = '.')
    (h : sameGroup game a b) : sameGroup (place game x y t) a b := by
  have hne : ∀ q : Int × Int, game.gameGrid q.1 q.2 = game.gameGrid a.1 a.2 → q ≠ (x, y) := by
    intro q hq hqp
    apply ha
    rw [← hq, hqp]
    exact hp
  induction h with
  | refl => exact Relation.ReflTransGen.refl
  | @tail c d hac hl ih =>
    have hc : game.gameGrid c.1 c.2 = game.gameGrid a.1 a.2 := sameGroup_token game hac
    have hd : game.gameGrid d.1 d.2 = game.gameGrid a.1 a.2 := by rw [hl.2.2, hc]
    refine Relation.ReflTransGen.tail ih ⟨hl.1, hl.2.1, ?_⟩
    rw [place_other game x y t d (hne d hd), place_other game x y t c (hne c hc)]
    exact hl.2.2

theorem orthogonal_symm {p q : Int × Int} (h : orthogonal p q) : orthogonal q p := by
  unfold orthogonal at h ⊢
  omega

theorem sameGroup_inBounds (game : GameProperties) {p q : Int × Int}
    (hp : inBounds game p.1 p.2) (h : sameGroup game p q) : inBounds game q.1 q.2 := by
  induction h with
  | refl => exact hp
  | tail _ hl _ => exact hl.2.1

theorem zero_liberty_near_placed (game : GameProperties) (x y : Int) (t : Char)
    (hall : ∀ r c, inBounds game r c → game.gameGrid r c ≠ '.' → groupHasLiberty game r c)
    (hp : game.gameGrid x y = '.') (r c : Int) (hin : inBounds game r c)
    (hocc : (place game x y t).gameGrid r c ≠ '.')
    (hno : ¬ groupHasLiberty (place game x y t) r c) :
    ∃ q : Int × Int, sameGroup (place game x y t) (r, c) q
      ∧ (q = (x, y) ∨ orthogonal (x, y) q) := by
  by_cases hrc : (r, c) = (x, y)
  · exact ⟨(r, c), Relation.ReflTransGen.refl, Or.inl hrc⟩
  · have hsame : (place game x y t).gameGrid r c = game.gameGrid r c :=
      place_other game x y t (r, c) hrc
    rw [hsame] at hocc
    obtain ⟨z, hz, n, hon, hnin, hne⟩ := hall r c hin hocc
    have hz1 : sameGroup (place game x y t) (r, c) z :=
      sameGroup_place game x y t (a := (r, c)) hocc hp hz
    refine ⟨z, hz1, Or.inr ?_⟩
    by_cases hnp : n = (x, y)
    · rw [← hnp]
      exact orthogonal_symm hon
    · exfalso
      apply hno
      refine ⟨z, hz1, n, hon, hnin, ?_⟩
      rw [place_other game x y t n hnp]
      exact hne

theorem mem_near_order (game : GameProperties) (x y : Int) (q : Int × Int) :
    q ∈ (near_order x y).filter (fun q => decide (inBounds game q.1 q.2))
      ↔ inBounds game q.1 q.2 ∧ (q = (x, y) ∨ orthogonal (x, y) q) := by
  rw [List.mem_filter, decide_eq_true_iff]
  unfold near_order orthogonal
  simp only [List.mem_cons, List.mem_singleton, List.not_mem_nil, or_false]
  constructor
  · rintro ⟨h | h | h | h | h, hin⟩ <;> subst h
    · exact ⟨hin, Or.inl rfl⟩
    · exact ⟨hin, Or.inr (Or.inr ⟨rfl, Or.inr rfl⟩)⟩
    · exact ⟨hin, Or.inr (Or.inl ⟨rfl, Or.inr rfl⟩)⟩
    · exact ⟨hin, Or.inr (Or.inl ⟨rfl, Or.inl rfl⟩)⟩
    · exact ⟨hin, Or.inr (Or.inr ⟨rfl, Or.inl rfl⟩)⟩
  · rintro ⟨hin, h | ⟨h1, h2 | h2⟩ | ⟨h1, h2 | h2⟩⟩
    · exact ⟨Or.inl h, hin⟩
    · exact ⟨Or.inr (Or.inr (Or.inr (Or.inl (Prod.ext h1 h2)))), hin⟩
    · exact ⟨Or.inr (Or.inr (Or.inl (Prod.ext h1 h2))), hin⟩
    · exact ⟨Or.inr (Or.inr (Or.inr (Or.inr (Prod.ext h2 h1)))), hin⟩
    · exact ⟨Or.inr (Or.inl (Prod.ext h2 h1)), hin⟩

theorem groupHasLiberty_of_sameGroup (game : GameProperties) {p q : Int × Int}
    (h : sameGroup game p q) (hq : groupHasLiberty game q.1 q.2) :
    groupHasLiberty game p.1 p.2 := by
  obtain ⟨z, hz, ht⟩ := hq
  exact ⟨z, Relation.ReflTransGen.trans h hz, ht⟩

/-- C19: on a board on which the group of every occupied cell has a liberty, after a token
is placed at a valid Empty point `(x, y)`, every occupied cell whose group has no liberty
is in the group of `(x, y)` or of an orthogonal neighbour of `(x, y)`; hence
`check_game_over` over the whole board and the scan limited to `(x, y)` and its neighbours
return the same outcome for either player. -/
theorem limited_scan_same_outcome (game : GameProperties) (players : Players)
    (x y : Int) (t : Char)
    (hall : ∀ r c, inBounds game r c → game.gameGrid r c ≠ '.' → groupHasLiberty game r c)
    (hvalid : valid_move game x y = true)
    (htok : (players.get 0).token ≠ '.' ∧ (players.get 1).token ≠ '.') :
    (∀ r c, inBounds game r c → (place game x y t).gameGrid r c ≠ '.' →
        ¬ groupHasLiberty (place game x y t) r c →
        ∃ q : Int × Int, sameGroup (place game x y t) (r, c) q
          ∧ (q = (x, y) ∨ orthogonal (x, y) q))
    ∧ ∀ i : Int, check_game_over (place game x y t) players i
        = check_game_over_near (place game x y t) players i x y := by
  obtain ⟨_, hp⟩ := valid_move_spec.mp hvalid
  have part1 := zero_liberty_near_placed game x y t hall hp
  refine ⟨part1, ?_⟩
  intro i
  have hti : (players.get i).token ≠ '.' := by
    unfold Players.get
    split
    · exact htok.1
    · exact htok.2
  unfold check_game_over check_game_over_near
  rcases check_cells_spec (place game x y t) (players.get i).token (players.get (1 - i)).token
      (scan_order (place game x y t))
      (fun q hq => (mem_scan_order (place game x y t) q).mp hq) with
    ⟨⟨q, hm, hq, hno⟩, he⟩ | ⟨hfull, he⟩
  · rw [he]
    rcases check_cells_spec (place game x y t) (players.get i).token
        (players.get (1 - i)).token
        ((near_order x y).filter (fun q => decide (inBounds (place game x y t) q.1 q.2)))
        (fun q hq => ((mem_near_order (place game x y t) x y q).mp hq).1) with
      ⟨_, he2⟩ | ⟨hnear, _⟩
    · rw [he2]
    · exfalso
      have hqin : inBounds game q.1 q.2 := (mem_scan_order (place game x y t) q).mp hm
      obtain ⟨z, hz, hzp⟩ := part1 q.1 q.2 hqin (by rw [hq]; exact hti) hno
      have hzin : inBounds (place game x y t) z.1 z.2 :=
        sameGroup_inBounds (place game x y t) (p := (q.1, q.2)) hqin hz
      have hztok : (place game x y t).gameGrid z.1 z.2 = (players.get i).token := by
        rw [sameGroup_token (place game x y t) hz]
        exact hq
      have hzlib := hnear z ((mem_near_order (place game x y t) x y z).mpr ⟨hzin, hzp⟩) hztok
      exact hno (groupHasLiberty_of_sameGroup (place game x y t) (p := (q.1, q.2)) hz hzlib)
  · rw [he]
    rcases check_cells_spec (place game x y t) (players.get i).token
        (players.get (1 - i)).token
        ((near_order x y).filter (fun q => decide (inBounds (place game x y t) q.1 q.2)))
        (fun q hq => ((mem_near_order (place game x y t) x y q).mp hq).1) with
      ⟨⟨q, hm, hq, hno⟩, _⟩ | ⟨_, he2⟩
    · exfalso
      have hqin := ((mem_near_order (place game x y t) x y q).mp hm).1
      exact hno (hfull q ((mem_scan_order (place game x y t) q).mpr hqin) hq)
    · rw [he2]

theorem all_liberties_of_scan (game : GameProperties)
    (h : ∀ q ∈ scan_order game, game.gameGrid q.1 q.2 ≠ '.' →
      any_liberties game q.1 q.2 = some true) :
    ∀ r c, inBounds game r c → game.gameGrid r c ≠ '.' → groupHasLiberty game r c := by
  intro r c hin hocc
  obtain ⟨b, hb, hiff⟩ := any_liberties_spec game r c hin
  have h1 := h (r, c) ((mem_scan_order game (r, c)).mpr hin) hocc
  rw [hb] at h1
  exact hiff.1 (Option.some.inj h1)

/-- C19 on `corner_board` when `'O'` is placed in the corner (0,0), which leaves it
without liberty: both scans of player O end the game for `'X'`. -/
theorem limited_scan_same_outcome_witness :
    check_game_over (place corner_board 0 0 'O')
        (initialise_player corner_board zero_players 'h' 'h') 0
      = check_game_over_near (place corner_board 0 0 'O')
        (initialise_player corner_board zero_players 'h' 'h') 0 0 0
    ∧ check_game_over_near (place corner_board 0 0 'O')
        (initialise_player corner_board zero_players 'h' 'h') 0 0 0
      = some (Outcome.wins 'X') :=
  ⟨(limited_scan_same_outcome corner_board
      (initialise_player corner_board zero_players 'h' 'h') 0 0 'O'
      (all_liberties_of_scan corner_board (by decide)) (by decide)
      ⟨by decide, by decide⟩).2 0, by decide⟩

/-! ### Termination of the flood fill and the number of its calls -/

theorem check_offset_calls_erase (game : GameProperties)
    (recurseC : Counted → Int → Int → Option Counted)
    (recurse : Scan → Int → Int → Option Scan)
    (hrec : ∀ st r c, (recurseC st r c).map Prod.fst = recurse st.1 r c)
    (row col : Int) (st : Counted) (ij : Int × Int) :
    (check_offset_calls game recurseC row col st ij).map Prod.fst
      = check_offset game recurse row col st.1 ij := by
  unfold check_offset_calls check_offset
  split_ifs <;> first | rfl | exact hrec _ _ _

theorem scan_offsets_calls_erase (bodyC : Counted → Int × Int → Option Counted)
    (body : Scan → Int × Int → Option Scan)
    (hbody : ∀ st ij, (bodyC st ij).map Prod.fst = body st.1 ij) :
    ∀ (L : List (Int × Int)) (st : Counted),
      (scan_offsets_calls bodyC L st).map Prod.fst = scan_offsets body L st.1 := by
  intro L
  induction L with
  | nil => intro st; rfl
  | cons ij L ih =>
    intro st
    have hb := hbody st ij
    show (match bodyC st ij with
      | none => none
      | some st1 => scan_offsets_calls bodyC L st1).map Prod.fst
      = match body st.1 ij with
        | none => none
        | some st1 => scan_offsets body L st1
    cases hc : bodyC st ij with
    | none =>
      rw [hc] at hb
      rw [← hb]
      rfl
    | some st1 =>
      rw [hc] at hb
      rw [← hb]
      exact ih st1

theorem adjacent_space_check_calls_erase (game : GameProperties) :
    ∀ (fuel : Nat) (st : Counted) (row col : Int),
      (adjacent_space_check_calls game fuel st row col).map Prod.fst
        = adjacent_space_check game fuel st.1 row col := by
  intro fuel
  induction fuel with
  | zero => intro st row col; rfl
  | succ fuel ih =>
    intro st row col
    unfold adjacent_space_check_calls adjacent_space_check
    by_cases h : st.1.1 = true
    · rw [if_pos h, if_pos h]
      rfl
    · rw [if_neg h, if_neg h]
      exact scan_offsets_calls_erase _ _
        (check_offset_calls_erase game _ _ ih row col) window _

theorem unconsidered_setCell_eq (game : GameProperties) {v : Int → Int → Char}
    {row col : Int} (hin : inBounds game row col) (hN : v row col = 'N') :
    unconsidered game (setCell v row col 'Y') + 1 = unconsidered game v := by
  unfold unconsidered
  have hset : (cells game).filter (fun p => setCell v row col 'Y' p.1 p.2 = 'N')
      = ((cells game).filter (fun p => v p.1 p.2 = 'N')).erase (row, col) := by
    ext p
    rw [Finset.mem_erase, Finset.mem_filter, Finset.mem_filter]
    unfold setCell
    constructor
    · rintro ⟨hp, h⟩
      by_cases hpe : p.1 = row ∧ p.2 = col
      · rw [if_pos hpe] at h
        exact absurd h (by decide)
      · rw [if_neg hpe] at h
        exact ⟨fun e => hpe ⟨by rw [e], by rw [e]⟩, hp, h⟩
    · rintro ⟨hne, hp, h⟩
      refine ⟨hp, ?_⟩
      rw [if_neg]
      · exact h
      · rintro ⟨h1, h2⟩
        exact hne (Prod.ext h1 h2)
  rw [hset, Finset.card_erase_of_mem]
  · have hpos : 0 < ((cells game).filter (fun p => v p.1 p.2 = 'N')).card := by
      apply Finset.card_pos.mpr
      exact ⟨(row, col), by rw [Finset.mem_filter, mem_cells]; exact ⟨hin, hN⟩⟩
    omega
  · rw [Finset.mem_filter, mem_cells]
    exact ⟨hin, hN⟩

theorem check_offset_calls_spec (game : GameProperties) (fuel : Nat)
    (hrec : CallsOk game fuel) (row col : Int) (ij : Int × Int) (hmem : ij ∈ window)
    (b0 : Bool) (v : Int → Int → Char) (n : Nat)
    (hU : b0 = false → unconsidered game v ≤ fuel) :
    ∃ (b1 : Bool) (v1 : Int → Int → Char) (n1 : Nat),
      check_offset_calls game (adjacent_space_check_calls game fuel) row col ((b0, v), n) ij
        = some ((b1, v1), n1)
      ∧ (∀ x y, v x y ≠ 'N' → v1 x y ≠ 'N')
      ∧ n1 + unconsidered game v1 = n + unconsidered game v
      ∧ (∀ x y, v x y = 'N' → v1 x y ≠ 'N' →
          inBounds game x y ∧ sameGroup game (row, col) (x, y))
      ∧ (b1 = false → b0 = false) := by
  have same : ∃ (b1 : Bool) (v1 : Int → Int → Char) (n1 : Nat),
      some (((b0, v), n) : Counted) = some ((b1, v1), n1)
      ∧ (∀ x y, v x y ≠ 'N' → v1 x y ≠ 'N')
      ∧ n1 + unconsidered game v1 = n + unconsidered game v
      ∧ (∀ x y, v x y = 'N' → v1 x y ≠ 'N' →
          inBounds game x y ∧ sameGroup game (row, col) (x, y))
      ∧ (b1 = false → b0 = false) :=
    ⟨b0, v, n, rfl, fun _ _ h => h, rfl, fun x y h1 h2 => absurd h1 h2, fun h => h⟩
  unfold check_offset_calls
  dsimp only
  by_cases hb0 : b0 = true
  · rw [if_pos hb0]
    exact same
  · rw [if_neg hb0]
    have hb0f : b0 = false := by
      cases b0 with
      | false => rfl
      | true => exact absurd rfl hb0
    by_cases htest : ij.1 - ij.2 = 1 ∨ ij.2 - ij.1 = 1
    · rw [if_pos htest]
      by_cases hneg : ij.1 + row < 0 ∨ ij.2 + col < 0
      · rw [if_pos hneg]
        exact same
      · rw [if_neg hneg]
        by_cases hbig : ij.1 + row > game.height - 1 ∨ ij.2 + col > game.width - 1
        · rw [if_pos hbig]
          exact same
        · rw [if_neg hbig]
          have hnb : inBounds game (ij.1 + row) (ij.2 + col) := by
            unfold inBounds; omega
          by_cases hdot : game.gameGrid (ij.1 + row) (ij.2 + col) = '.'
          · rw [if_pos hdot]
            exact ⟨true, v, n, rfl, fun _ _ h => h, rfl, fun x y h1 h2 => absurd h1 h2,
              fun h => absurd h (by decide)⟩
          · rw [if_neg hdot]
            by_cases hsame : game.gameGrid (ij.1 + row) (ij.2 + col) = game.gameGrid row col
            · rw [if_pos hsame]
              by_cases hN : v (ij.1 + row) (ij.2 + col) = 'N'
              · rw [if_pos hN]
                subst hb0f
                obtain ⟨b, v', n', he, hmono, hcount, hnew, _⟩ :=
                  hrec v n (ij.1 + row) (ij.2 + col) hnb hN (hU rfl)
                refine ⟨b, v', n', he, hmono, hcount, ?_, fun _ => rfl⟩
                intro x y h1 h2
                obtain ⟨hxin, hxg⟩ := hnew x y h1 h2
                exact ⟨hxin, Relation.ReflTransGen.head
                  ⟨window_orthogonal row col ij hmem htest, hnb, hsame⟩ hxg⟩
              · rw [if_neg hN]
                exact same
            · rw [if_neg hsame]
              exact same
    · rw [if_neg htest]
      exact same

theorem scan_offsets_calls_spec (game : GameProperties) (fuel : Nat)
    (hrec : CallsOk game fuel) (row col : Int) :
    ∀ (L : List (Int × Int)), (∀ ij ∈ L, ij ∈ window) →
    ∀ (b0 : Bool) (v : Int → Int → Char) (n : Nat),
      (b0 = false → unconsidered game v ≤ fuel) →
    ∃ (b : Bool) (v' : Int → Int → Char) (n' : Nat),
      scan_offsets_calls
          (check_offset_calls game (adjacent_space_check_calls game fuel) row col) L
          ((b0, v), n) = some ((b, v'), n')
      ∧ (∀ x y, v x y ≠ 'N' → v' x y ≠ 'N')
      ∧ n' + unconsidered game v' = n + unconsidered game v
      ∧ (∀ x y, v x y = 'N' → v' x y ≠ 'N' →
          inBounds game x y ∧ sameGroup game (row, col) (x, y)) := by
  intro L
  induction L with
  | nil =>
    intro _ b0 v n _
    exact ⟨b0, v, n, rfl, fun _ _ h => h, rfl, fun x y h1 h2 => absurd h1 h2⟩
  | cons ij L ih =>
    intro hL b0 v n hU
    obtain ⟨b1, v1, n1, he1, hm1, hc1, hnew1, hb1⟩ :=
      check_offset_calls_spec game fuel hrec row col ij (hL ij (List.mem_cons_self _ _))
        b0 v n hU
    have hU1 : b1 = false → unconsidered game v1 ≤ fuel := fun hb =>
      le_trans (unconsidered_mono game hm1) (hU (hb1 hb))
    obtain ⟨b, v', n', he, hm, hc, hnew⟩ :=
      ih (fun ij' h' => hL ij' (List.mem_cons_of_mem _ h')) b1 v1 n1 hU1
    refine ⟨b, v', n', ?_, fun x y h => hm x y (hm1 x y h), by omega, ?_⟩
    · show (match check_offset_calls game (adjacent_space_check_calls game fuel) row col
          ((b0, v), n) ij with
        | none => none
        | some st1 => scan_offsets_calls _ L st1) = some ((b, v'), n')
      rw [he1]
      exact he
    · intro x y hx hx'
      by_cases h1 : v1 x y = 'N'
      · exact hnew x y h1 hx'
      · exact hnew1 x y hx h1

theorem adjacent_space_check_calls_spec (game : GameProperties) :
    ∀ fuel : Nat, CallsOk game fuel := by
  intro fuel
  induction fuel with
  | zero =>
    intro v n row col hin hN hU
    have := unconsidered_pos game hin hN
    omega
  | succ fuel ih =>
    intro v n row col hin hN hU
    have hcard := unconsidered_setCell_eq game hin hN
    obtain ⟨b, v', n', he, hm, hc, hnew⟩ :=
      scan_offsets_calls_spec game fuel ih row col window (fun _ h => h) false
        (setCell v row col 'Y') (n + 1) (fun _ => by omega)
    have hmark : ∀ x y, v x y ≠ 'N' → setCell v row col 'Y' x y ≠ 'N' := by
      intro x y h
      unfold setCell
      split
      · decide
      · exact h
    refine ⟨b, v', n', ?_, fun x y h => hm x y (hmark x y h), by omega, ?_, ?_⟩
    · show (if (false : Bool) = true then some ((((false, v) : Scan), n + 1) : Counted)
        else _) = _
      rw [if_neg (by decide)]
      exact he
    · intro x y hx hx'
      by_cases hxy : x = row ∧ y = col
      · obtain ⟨rfl, rfl⟩ := hxy
        exact ⟨hin, Relation.ReflTransGen.refl⟩
      · apply hnew x y _ hx'
        unfold setCell
        rw [if_neg hxy]
        exact hx
    · apply hm
      unfold setCell
      rw [if_pos ⟨rfl, rfl⟩]
      decide

theorem check_offset_more (game : GameProperties) (f g : Scan → Int → Int → Option Scan)
    (hfg : ∀ st r c x, f st r c = some x → g st r c = some x)
    (row col : Int) (st : Scan) (ij : Int × Int) (x : Scan)
    (h : check_offset game f row col st ij = some x) :
    check_offset game g row col st ij = some x := by
  unfold check_offset at h ⊢
  split_ifs at h ⊢ <;> first | exact h | exact hfg _ _ _ _ h

theorem scan_offsets_more (body body1 : Scan → Int × Int → Option Scan)
    (hbody : ∀ st ij x, body st ij = some x → body1 st ij = some x) :
    ∀ (L : List (Int × Int)) (st x : Scan),
      scan_offsets body L st = some x → scan_offsets body1 L st = some x := by
  intro L
  induction L with
  | nil => intro st x h; exact h
  | cons ij L ih =>
    intro st x h
    have h1 : (match body st ij with
      | none => none
      | some st1 => scan_offsets body L st1) = some x := h
    show (match body1 st ij with
      | none => none
      | some st1 => scan_offsets body1 L st1) = some x
    cases hb : body st ij with
    | none =>
      rw [hb] at h1
      exact absurd h1 (by simp)
    | some st1 =>
      rw [hb] at h1
      rw [hbody st ij st1 hb]
      exact ih st1 x h1

theorem adjacent_space_check_more (game : GameProperties) :
    ∀ (fuel : Nat) (st : Scan) (row col : Int) (x : Scan),
      adjacent_space_check game fuel st row col = some x →
      adjacent_space_check game (fuel + 1) st row col = some x := by
  intro fuel
  induction fuel with
  | zero => intro st row col x h; cases h
  | succ fuel ih =>
    intro st row col x h
    unfold adjacent_space_check at h ⊢
    by_cases hany : st.1 = true
    · rw [if_pos hany] at h ⊢
      exact h
    · rw [if_neg hany] at h ⊢
      exact scan_offsets_more _ _
        (fun st1 ij y => check_offset_more game _ _ ih row col st1 ij y) window _ x h

theorem adjacent_space_check_fuel (game : GameProperties) (st : Scan) (row col : Int)
    (x : Scan) (fuel : Nat) (h : adjacent_space_check game fuel st row col = some x) :
    ∀ more : Nat, adjacent_space_check game (fuel + more) st row col = some x := by
  intro more
  induction more with
  | zero => exact h
  | succ more ih => exact adjacent_space_check_more game (fuel + more) st row col x ih

/-- C18: `adjacent_space_check` returns on every board, from every point of the board not
yet considered, whenever the nesting allowed is at least the number of cells not yet
considered, and it leaves strictly fewer of them; in a query of `any_liberties` the result
does not depend on the nesting allowed beyond `height * width`, and the calls entered are
as many as the cells of a set of pairwise different cells of the board, all in the group
of the queried point: at most `height * width`. -/
theorem flood_fill_terminates_within_group (game : GameProperties) (row col : Int)
    (hin : inBounds game row col) :
    (∀ (v : Int → Int → Char) (fuel : Nat), v row col = 'N' → unconsidered game v ≤ fuel →
        ∃ st : Scan, adjacent_space_check game fuel (false, v) row col = some st
          ∧ unconsidered game st.2 < unconsidered game v)
    ∧ ∃ (b : Bool) (v : Int → Int → Char) (calls : Nat) (S : Finset (Int × Int)),
        adjacent_space_check_calls game (game.height.toNat * game.width.toNat)
            ((false, fun _ _ => 'N'), 0) row col = some ((b, v), calls)
        ∧ any_liberties game row col = some b
        ∧ (∀ fuel : Nat, game.height.toNat * game.width.toNat ≤ fuel →
            adjacent_space_check game fuel (false, fun _ _ => 'N') row col = some (b, v))
        ∧ S.card = calls
        ∧ (∀ q ∈ S, inBounds game q.1 q.2 ∧ sameGroup game (row, col) q)
        ∧ calls ≤ game.height.toNat * game.width.toNat := by
  constructor
  · intro v fuel hN hU
    obtain ⟨b, v', n', he, hm, _, _, hself⟩ :=
      adjacent_space_check_calls_spec game fuel v 0 row col hin hN hU
    have herase := adjacent_space_check_calls_erase game fuel ((false, v), 0) row col
    rw [he] at herase
    refine ⟨(b, v'), herase.symm, ?_⟩
    refine lt_of_le_of_lt (unconsidered_mono game ?_) (unconsidered_setCell game hin hN)
    intro x y h
    by_cases hxy : x = row ∧ y = col
    · obtain ⟨rfl, rfl⟩ := hxy
      exact hself
    · apply hm
      unfold setCell at h
      rw [if_neg hxy] at h
      exact h
  · obtain ⟨b, v', n', he, _, hc, hnew, _⟩ :=
      adjacent_space_check_calls_spec game (game.height.toNat * game.width.toNat)
        (fun _ _ => 'N') 0 row col hin rfl (le_of_eq (unconsidered_fresh game))
    have herase := adjacent_space_check_calls_erase game
      (game.height.toNat * game.width.toNat) ((false, fun _ _ => 'N'), 0) row col
    rw [he] at herase
    have hasc : adjacent_space_check game (game.height.toNat * game.width.toNat)
        (false, fun _ _ => 'N') row col = some (b, v') := herase.symm
    have hsplit := Finset.filter_card_add_filter_neg_card_eq_card (s := cells game)
      (fun p => v' p.1 p.2 = 'N')
    have hcells : (cells game).card = game.height.toNat * game.width.toNat := by
      unfold cells
      simp [Finset.card_product, Int.card_Ico]
    have hfresh := unconsidered_fresh game
    have hunc : unconsidered game v'
        = ((cells game).filter (fun p => v' p.1 p.2 = 'N')).card := rfl
    refine ⟨b, v', n', (cells game).filter (fun p => ¬ v' p.1 p.2 = 'N'), he, ?_, ?_, ?_,
      ?_, ?_⟩
    · unfold any_liberties
      rw [hasc]
    · intro fuel hle
      obtain ⟨more, rfl⟩ := Nat.exists_eq_add_of_le hle
      exact adjacent_space_check_fuel game _ row col _ _ hasc more
    · omega
    · intro q hq
      rw [Finset.mem_filter, mem_cells] at hq
      exact ⟨hq.1, (hnew q.1 q.2 rfl hq.2).2⟩
    · omega

/-- C18 on a closed ring of eight `'O'` without liberty: the query at (0,0) returns false
after eight calls. -/
theorem flood_fill_terminates_within_group_witness :
    ((∀ (v : Int → Int → Char) (fuel : Nat), v 0 0 = 'N' → unconsidered ring_board v ≤ fuel →
        ∃ st : Scan, adjacent_space_check ring_board fuel (false, v) 0 0 = some st
          ∧ unconsidered ring_board st.2 < unconsidered ring_board v)
    ∧ ∃ (b : Bool) (v : Int → Int → Char) (calls : Nat) (S : Finset (Int × Int)),
        adjacent_space_check_calls ring_board
            (ring_board.height.toNat * ring_board.width.toNat)
            ((false, fun _ _ => 'N'), 0) 0 0 = some ((b, v), calls)
        ∧ any_liberties ring_board 0 0 = some b
        ∧ (∀ fuel : Nat, ring_board.height.toNat * ring_board.width.toNat ≤ fuel →
            adjacent_space_check ring_board fuel (false, fun _ _ => 'N') 0 0 = some (b, v))
        ∧ S.card = calls
        ∧ (∀ q ∈ S, inBounds ring_board q.1 q.2 ∧ sameGroup ring_board (0, 0) q)
        ∧ calls ≤ ring_board.height.toNat * ring_board.width.toNat)
    ∧ (adjacent_space_check_calls ring_board 16 ((false, fun _ _ => 'N'), 0) 0 0).map
        (fun r => (r.1.1, r.2)) = some (false, 8) :=
  ⟨flood_fill_terminates_within_group ring_board 0 0 (by decide), by decide⟩

/-! ### The generator reaches every cell -/

theorem reseed_hits (game : GameProperties) (v : MoveAlgorithm) (k r c : Int)
    (hm : wrap32 (v.m + 1) = 5 * k) (hk0 : 0 ≤ k)
    (hb : 0 ≤ v.b) (hf : 0 ≤ v.f) (hov : v.b + k * v.f ≤ 2147483647)
    (hn : (v.b + k * v.f) % 1000003 = r * game.width + c)
    (hin : inBounds game r c) :
    published (next_move game v) = (r, c) := by
  obtain ⟨hr0, hrh, hc0, hcw⟩ := hin
  have hw : 0 < game.width := by omega
  have hh : 0 < game.height := by omega
  have hkf : 0 ≤ k * v.f := mul_nonneg hk0 hf
  have h5 : Int.tmod (5 * k) 5 = 0 := by
    rw [tmod_nonneg_eq (by omega) (by decide)]
    omega
  obtain ⟨hx, hy⟩ := next_move_reseed game v (by rw [hm]; exact h5)
  have hq : Int.tdiv (5 * k) 5 = k := by
    rw [tdiv_nonneg_eq (by omega) (by decide)]
    omega
  have hn0 : Int.tmod (v.b + k * v.f) 1000003 = r * game.width + c := by
    rw [tmod_nonneg_eq (by omega) (by decide)]
    exact hn
  have hdiv : (r * game.width + c) / game.width = r := by
    rw [Int.add_comm, Int.add_mul_ediv_right _ _ (ne_of_gt hw), Int.ediv_eq_zero_of_lt hc0 hcw]
    omega
  have hmod : (r * game.width + c) % game.width = c := by
    rw [Int.add_comm, Int.add_mul_emod_self]
    exact Int.emod_eq_of_lt hc0 hcw
  have hrw : 0 ≤ r * game.width := mul_nonneg hr0 (by omega)
  rw [hm, hq, wrap32_of_isInt32 (x := k * v.f) ⟨by omega, by omega⟩,
    wrap32_of_isInt32 (x := v.b + k * v.f) ⟨by omega, by omega⟩, hn0,
    tdiv_nonneg_eq (a := r * game.width + c) (by omega) (by omega), hdiv,
    tmod_nonneg_eq hr0 (by omega),
    Int.emod_eq_of_lt hr0 hrh] at hx
  rw [hm, hq, wrap32_of_isInt32 (x := k * v.f) ⟨by omega, by omega⟩,
    wrap32_of_isInt32 (x := v.b + k * v.f) ⟨by omega, by omega⟩, hn0,
    tmod_nonneg_eq (a := r * game.width + c) (by omega) (by omega), hmod,
    tmod_nonneg_eq hc0 (by omega),
    Int.emod_eq_of_lt hc0 hcw] at hy
  unfold published
  rw [hx, hy]

theorem residue_hit (f : Int) (hf : f = 29 ∨ f = 17) (n b K : Int)
    (hn : 0 ≤ n) (hn2 : n < 1000003) :
    ∃ k : Int, K < k ∧ k ≤ K + 1000003 ∧ (b + k * f) % 1000003 = n := by
  rcases hf with rfl | rfl
  · exact ⟨K + 1 + (((n - b) * 758623 - K - 1) % 1000003), by omega, by omega, by omega⟩
  · exact ⟨K + 1 + (((n - b) * 411766 - K - 1) % 1000003), by omega, by omega, by omega⟩

theorem cell_index_bounds (game : GameProperties) (hh : game.height ≤ 1000)
    (hw : game.width ≤ 1000) (r c : Int) (hin : inBounds game r c) :
    0 ≤ r * game.width + c ∧ r * game.width + c < 1000003 := by
  obtain ⟨hr0, hrh, hc0, hcw⟩ := hin
  have h1 : 0 ≤ r * game.width := mul_nonneg hr0 (by omega)
  have h2 : r * game.width ≤ 999 * 1000 := by
    have : r * game.width ≤ 999 * game.width :=
      mul_le_mul_of_nonneg_right (by omega) (by omega)
    omega
  omega

theorem wrap32_eq_of_congr {x y : Int} (hy : isInt32 y) (h : (x - y) % 4294967296 = 0) :
    wrap32 x = y := by
  unfold isInt32 at hy
  unfold wrap32
  rw [Int.bmod_def]
  split <;> omega

theorem fresh_hits (game : GameProperties) (ir ic f : Int) (hseed : isSeed ir ic f)
    (hh : game.height ≤ 1000) (hw4 : 4 ≤ game.width) (hw : game.width ≤ 1000)
    (r c : Int) (hin : inBounds game r c) :
    ∃ m : Nat, 1 ≤ m ∧ m ≤ 5 * 1000003
      ∧ published (steps game (initial_variables game ir ic f) m) = (r, c) := by
  obtain ⟨hn0, hn1⟩ := cell_index_bounds game hh hw r c hin
  have hb := initial_b game ir ic f hseed hw4 hw
  have hf : f = 29 ∨ f = 17 := by
    rcases hseed with ⟨_, _, h⟩ | ⟨_, _, h⟩
    · exact Or.inl h
    · exact Or.inr h
  have hbr : 0 ≤ ir * game.width + ic ∧ ir * game.width + ic ≤ 2010 := by
    rcases hseed with ⟨rfl, rfl, _⟩ | ⟨rfl, rfl, _⟩ <;> constructor <;> omega
  obtain ⟨k, hk1, hk2, hk3⟩ :=
    residue_hit f hf (r * game.width + c) (ir * game.width + ic) 0 hn0 hn1
  obtain ⟨M, hM⟩ : ∃ M : Nat, (M : Int) + 1 = 5 * k := ⟨(5 * k - 1).toNat, by omega⟩
  refine ⟨M + 1, by omega, by omega, ?_⟩
  have hkf : k * f ≤ 1000003 * 29 := by
    rcases hf with rfl | rfl <;> omega
  have hkf0 : 0 ≤ k * f := by
    rcases hf with rfl | rfl <;> omega
  have hm : (steps game (initial_variables game ir ic f) M).m = (M : Int) := by
    have := steps_m game (initial_variables game ir ic f) M (le_refl _)
      (by show (0 : Int) + M ≤ 2147483647; omega)
    rw [this]
    show (0 : Int) + M = M
    omega
  show published (next_move game (steps game (initial_variables game ir ic f) M)) = (r, c)
  apply reseed_hits game _ k r c
  · rw [hm, hM]
    exact wrap32_of_isInt32 ⟨by omega, by omega⟩
  · omega
  · rw [steps_b, hb]
    exact hbr.1
  · rw [steps_f]
    show 0 ≤ f
    rcases hf with rfl | rfl <;> decide
  · rw [steps_b, steps_f, hb]
    show ir * game.width + ic + k * f ≤ 2147483647
    omega
  · rw [steps_b, steps_f, hb]
    exact hk3
  · exact hin

theorem stream_hits (game : GameProperties) (ir ic f : Int) (hseed : isSeed ir ic f)
    (hh : game.height ≤ 1000) (hw4 : 4 ≤ game.width) (hw : game.width ≤ 1000)
    (r c : Int) (hin : inBounds game r c) (v : MoveAlgorithm)
    (hb : v.b = ir * game.width + ic) (hvf : v.f = f) (hm : isInt32 v.m) :
    ∃ j : Nat, published (steps game v (j + 1)) = (r, c) := by
  obtain ⟨hn0, hn1⟩ := cell_index_bounds game hh hw r c hin
  have hf : f = 29 ∨ f = 17 := by
    rcases hseed with ⟨_, _, h⟩ | ⟨_, _, h⟩
    · exact Or.inl h
    · exact Or.inr h
  have hbr : 0 ≤ ir * game.width + ic ∧ ir * game.width + ic ≤ 2010 := by
    rcases hseed with ⟨rfl, rfl, _⟩ | ⟨rfl, rfl, _⟩ <;> constructor <;> omega
  obtain ⟨k, hk1, hk2, hk3⟩ :=
    residue_hit f hf (r * game.width + c) (ir * game.width + ic) 0 hn0 hn1
  have hkf : k * f ≤ 1000003 * 29 := by
    rcases hf with rfl | rfl <;> omega
  have hkf0 : 0 ≤ k * f := by
    rcases hf with rfl | rfl <;> omega
  obtain ⟨j, hj⟩ : ∃ j : Nat, (v.m + ((j : Int) + 1) - 5 * k) % 4294967296 = 0 :=
    ⟨((5 * k - v.m - 1) % 4294967296).toNat, by omega⟩
  refine ⟨j, ?_⟩
  show published (next_move game (steps game v j)) = (r, c)
  apply reseed_hits game _ k r c
  · rw [steps_m_wrap game v hm j, wrap32_succ]
    exact wrap32_eq_of_congr ⟨by omega, by omega⟩ (by
      rw [← hj]
      congr 1
      ring)
  · omega
  · rw [steps_b, hb]
    exact hbr.1
  · rw [steps_f, hvf]
    rcases hf with rfl | rfl <;> decide
  · rw [steps_b, steps_f, hb, hvf]
    omega
  · rw [steps_b, steps_f, hb, hvf]
    exact hk3
  · exact hin

theorem search_move_ends (game : GameProperties) (active : Int) :
    ∀ (j : Nat) (ps : Players),
      inBounds game ((increments game ps active j).get active).vars.nextX
        ((increments game ps active j).get active).vars.nextY →
      game.gameGrid ((increments game ps active j).get active).vars.nextX
        ((increments game ps active j).get active).vars.nextY = '.' →
      search_move game active (j + 1) ps ≠ Search.out_of_fuel := by
  intro j
  induction j with
  | zero =>
    intro ps hin hdot
    have hin0 : inBounds game (ps.get active).vars.nextX (ps.get active).vars.nextY := hin
    have hdot0 : game.gameGrid (ps.get active).vars.nextX (ps.get active).vars.nextY = '.' :=
      hdot
    unfold search_move
    rw [if_pos hin0, if_neg (not_not.mpr hdot0)]
    exact fun h => Search.noConfusion h
  | succ j ih =>
    intro ps hin hdot
    unfold search_move
    by_cases hin0 : inBounds game (ps.get active).vars.nextX (ps.get active).vars.nextY
    · rw [if_pos hin0]
      by_cases hocc : game.gameGrid (ps.get active).vars.nextX (ps.get active).vars.nextY ≠ '.'
      · rw [if_pos hocc]
        apply ih
        · rw [increments_shift]
          exact hin
        · rw [increments_shift]
          exact hdot
      · rw [if_neg hocc]
        exact fun h => Search.noConfusion h
    · rw [if_neg hin0]
      exact fun h => Search.noConfusion h

theorem steps_add (game : GameProperties) (v : MoveAlgorithm) (N : Nat) :
    ∀ k : Nat, steps game (steps game v N) k = steps game v (N + k) := by
  intro k
  induction k with
  | zero => rfl
  | succ k ih =>
    show next_move game (steps game (steps game v N) k) = next_move game (steps game v (N + k))
    rw [ih]

theorem steps_on_board (game : GameProperties) (ir ic f : Int) (hseed : isSeed ir ic f)
    (hh4 : 4 ≤ game.height) (hw4 : 4 ≤ game.width) (hw : game.width ≤ 1000) (N : Nat)
    (hov : ir * game.width + ic + ((N : Int) / 5) * f ≤ 2147483647) :
    inBounds game (steps game (initial_variables game ir ic f) N).nextX
      (steps game (initial_variables game ir ic f) N).nextY := by
  cases N with
  | zero =>
    show inBounds game (Int.tmod ir game.height) (Int.tmod ic game.width)
    have hir : 0 ≤ ir := by
      rcases hseed with ⟨rfl, _, _⟩ | ⟨rfl, _, _⟩ <;> decide
    have hic : 0 ≤ ic := by
      rcases hseed with ⟨_, rfl, _⟩ | ⟨_, rfl, _⟩ <;> decide
    rw [tmod_nonneg_eq hir (by omega), tmod_nonneg_eq hic (by omega)]
    exact ⟨Int.emod_nonneg _ (by omega), Int.emod_lt_of_pos _ (by omega),
      Int.emod_nonneg _ (by omega), Int.emod_lt_of_pos _ (by omega)⟩
  | succ M =>
    obtain ⟨_, _, _, hr0, _, hc0, _⟩ := steps_GenInv game ir ic f hseed hh4 hw4 hw (M + 1) hov
    have hx : (steps game (initial_variables game ir ic f) (M + 1)).nextX
        = Int.tmod (steps game (initial_variables game ir ic f) (M + 1)).r game.height := rfl
    have hy : (steps game (initial_variables game ir ic f) (M + 1)).nextY
        = Int.tmod (steps game (initial_variables game ir ic f) (M + 1)).c game.width := rfl
    rw [hx, hy, tmod_nonneg_eq hr0 (by omega), tmod_nonneg_eq hc0 (by omega)]
    exact ⟨Int.emod_nonneg _ (by omega), Int.emod_lt_of_pos _ (by omega),
      Int.emod_nonneg _ (by omega), Int.emod_lt_of_pos _ (by omega)⟩

theorem window_hit (game : GameProperties) (ir ic f : Int) (hseed : isSeed ir ic f)
    (hh : game.height ≤ 1000) (hw4 : 4 ≤ game.width) (hw : game.width ≤ 1000)
    (r c : Int) (hin : inBounds game r c) (N : Nat)
    (hov : ir * game.width + ic + ((N : Int) / 5 + 1000003) * f ≤ 2147483647) :
    ∃ j : Nat, j + 1 ≤ 5 * 1000003
      ∧ published (steps game (initial_variables game ir ic f) (N + (j + 1))) = (r, c)
      ∧ ir * game.width + ic + (((N + (j + 1) : Nat) : Int) / 5) * f ≤ 2147483647 := by
  obtain ⟨hn0, hn1⟩ := cell_index_bounds game hh hw r c hin
  have hb := initial_b game ir ic f hseed hw4 hw
  have hf : f = 29 ∨ f = 17 := by
    rcases hseed with ⟨_, _, h⟩ | ⟨_, _, h⟩
    · exact Or.inl h
    · exact Or.inr h
  have hbr : 0 ≤ ir * game.width + ic ∧ ir * game.width + ic ≤ 2010 := by
    rcases hseed with ⟨rfl, rfl, _⟩ | ⟨rfl, rfl, _⟩ <;> constructor <;> omega
  obtain ⟨k, hk1, hk2, hk3⟩ :=
    residue_hit f hf (r * game.width + c) (ir * game.width + ic) ((N : Int) / 5) hn0 hn1
  have hN0 : (0 : Int) ≤ N := Int.ofNat_nonneg N
  have hkov : ir * game.width + ic + k * f ≤ 2147483647 := by
    rcases hf with rfl | rfl <;> omega
  have hkf0 : 0 ≤ k * f := by
    rcases hf with rfl | rfl <;> omega
  have hk5 : 5 * k ≤ 2147483647 := by
    rcases hf with rfl | rfl <;> omega
  obtain ⟨j, hj⟩ : ∃ j : Nat, (N : Int) + ((j : Int) + 1) = 5 * k :=
    ⟨(5 * k - N - 1).toNat, by omega⟩
  have hcast : ((N + (j + 1) : Nat) : Int) = 5 * k := by
    push_cast
    exact hj
  refine ⟨j, by omega, ?_, ?_⟩
  · have hm : (steps game (initial_variables game ir ic f) (N + j)).m = ((N + j : Nat) : Int) := by
      have := steps_m game (initial_variables game ir ic f) (N + j) (le_refl _)
        (by show (0 : Int) + ((N + j : Nat) : Int) ≤ 2147483647; push_cast; omega)
      rw [this]
      show (0 : Int) + ((N + j : Nat) : Int) = _
      omega
    show published (next_move game (steps game (initial_variables game ir ic f) (N + j)))
      = (r, c)
    apply reseed_hits game _ k r c
    · rw [hm]
      push_cast
      rw [show (N : Int) + (j : Int) + 1 = 5 * k by omega]
      exact wrap32_of_isInt32 ⟨by omega, by omega⟩
    · omega
    · rw [steps_b, hb]
      exact hbr.1
    · rw [steps_f]
      show 0 ≤ f
      rcases hf with rfl | rfl <;> decide
    · rw [steps_b, steps_f, hb]
      exact hkov
    · rw [steps_b, steps_f, hb]
      exact hk3
    · exact hin
  · rw [hcast]
    have : 5 * k / 5 = k := by omega
    rw [this]
    exact hkov

theorem search_move_finds (game : GameProperties) (active : Int) :
    ∀ (j : Nat) (ps : Players),
      (∀ k : Nat, k ≤ j →
        inBounds game ((increments game ps active k).get active).vars.nextX
          ((increments game ps active k).get active).vars.nextY) →
      game.gameGrid ((increments game ps active j).get active).vars.nextX
        ((increments game ps active j).get active).vars.nextY = '.' →
      ∃ ps1 : Players, search_move game active (j + 1) ps = Search.found ps1 := by
  intro j
  induction j with
  | zero =>
    intro ps hin hdot
    have hin0 : inBounds game (ps.get active).vars.nextX (ps.get active).vars.nextY :=
      hin 0 (le_refl _)
    have hdot0 : game.gameGrid (ps.get active).vars.nextX (ps.get active).vars.nextY = '.' :=
      hdot
    unfold search_move
    rw [if_pos hin0, if_neg (not_not.mpr hdot0)]
    exact ⟨ps, rfl⟩
  | succ j ih =>
    intro ps hin hdot
    have hin0 : inBounds game (ps.get active).vars.nextX (ps.get active).vars.nextY :=
      hin 0 (Nat.zero_le _)
    unfold search_move
    rw [if_pos hin0]
    by_cases hocc : game.gameGrid (ps.get active).vars.nextX (ps.get active).vars.nextY ≠ '.'
    · rw [if_pos hocc]
      apply ih
      · intro k hk
        rw [increments_shift]
        exact hin (k + 1) (by omega)
      · rw [increments_shift]
        exact hdot
    · rw [if_neg hocc]
      exact ⟨ps, rfl⟩

theorem scan_int_isInt32 (s : List Char) (x : Int) (rest : List Char)
    (h : scan_int s = some (x, rest)) : isInt32 x := by
  unfold scan_int at h
  split at h
  · cases h
  · split_ifs at h <;>
    · split at h
      · cases h
      · simp only [Option.some.injEq, Prod.mk.injEq] at h
        rw [← h.1]
        exact wrap32_isInt32 _

theorem scan_ints_isInt32 : ∀ (n : Nat) (s : List Char) (xs : List Int) (rest : List Char),
    scan_ints n s = some (xs, rest) → ∀ x ∈ xs, isInt32 x := by
  intro n
  induction n with
  | zero =>
    intro s xs rest h x hx
    have h1 : some (([] : List Int), s) = some (xs, rest) := h
    have h2 : xs = [] := (Prod.mk.inj (Option.some.inj h1)).1.symm
    rw [h2] at hx
    exact absurd hx (List.not_mem_nil x)
  | succ n ih =>
    intro s xs rest h x hx
    rw [scan_ints_succ] at h
    cases h1 : scan_int s with
    | none => rw [h1] at h; exact absurd h (by simp)
    | some r =>
      obtain ⟨y, s1⟩ := r
      rw [h1] at h
      dsimp only at h
      cases h2 : scan_ints n s1 with
      | none => rw [h2] at h; exact absurd h (by simp)
      | some r2 =>
        obtain ⟨ys, s2⟩ := r2
        rw [h2] at h
        dsimp only at h
        have h3 : some (y :: ys, s2) = some (xs, rest) := h
        have h4 : xs = y :: ys := (Prod.mk.inj (Option.some.inj h3)).1.symm
        rw [h4] at hx
        rcases List.mem_cons.mp hx with rfl | hx
        · exact scan_int_isInt32 s _ s1 h1
        · exact ih s1 ys s2 h2 x hx

theorem started_seeded (s0 : GameState) (h : Started s0) : Seeded s0 := by
  rcases h with ⟨height, width, ps, a1, a2, hh4, hh, hw4, hw, rfl⟩
    | ⟨text, ps, a1, a2, game, players, hv, hl, rfl⟩
  · have hz : isInt32 (0 : Int) := ⟨by decide, by decide⟩
    refine ⟨hh4, hh, hw4, hw, ?_, rfl, hz, ?_, rfl, hz⟩
    · exact initial_b (initialise_grid height width) 1 4 29 (Or.inl ⟨rfl, rfl, rfl⟩) hw4 hw
    · exact initial_b (initialise_grid height width) 2 10 17 (Or.inr ⟨rfl, rfl, rfl⟩) hw4 hw
  · rcases validate_load_file_cases text with ⟨h5, _⟩
      | ⟨b1, b2, b3, b4, b5, b6, b7, b8, b9, grid, hs⟩
    · rw [h5] at hv
      exact absurd hv (by decide)
    · have hv1 := validate_load_file_of_header text b1 b2 b3 b4 b5 b6 b7 b8 b9 grid hs
      rw [hv1] at hv
      have r1 : ¬ (b1 < 4 ∨ b1 > 1000) := by
        intro hc
        rw [if_pos hc] at hv
        exact absurd hv (by decide)
      rw [if_neg r1] at hv
      have r2 : ¬ (b2 < 4 ∨ b2 > 1000) := by
        intro hc
        rw [if_pos hc] at hv
        exact absurd hv (by decide)
      have hints := scan_ints_isInt32 9 text _ _ hs
      have i6 : isInt32 b6 := hints b6 (by simp)
      have i9 : isInt32 b9 := hints b9 (by simp)
      unfold load_saved_data at hl
      simp only [hs] at hl
      cases hrows : read_rows b1.toNat b2.toNat ('\n' :: grid) with
      | none =>
        rw [hrows] at hl
        exact absurd hl (by simp)
      | some rows =>
        rw [hrows] at hl
        simp only [Option.some.injEq, Prod.mk.injEq] at hl
        obtain ⟨hg, hp⟩ := hl
        subst hg
        subst hp
        refine ⟨by show 4 ≤ b1; omega, by show b1 ≤ 1000; omega, by show 4 ≤ b2; omega,
          by show b2 ≤ 1000; omega, ?_, rfl, i6, ?_, rfl, i9⟩
        · exact initial_b { height := b1, width := b2, gameGrid := grid_of_rows rows }
            1 4 29 (Or.inl ⟨rfl, rfl, rfl⟩) (by show 4 ≤ b2; omega) (by show b2 ≤ 1000; omega)
        · exact initial_b { height := b1, width := b2, gameGrid := grid_of_rows rows }
            2 10 17 (Or.inr ⟨rfl, rfl, rfl⟩) (by show 4 ≤ b2; omega) (by show b2 ≤ 1000; omega)

theorem increment_genSeeded (game : GameProperties) (ps : Players) (active : Int)
    (h : GenSeeded game.width ps) :
    GenSeeded game.width (increment_next_move game ps active) := by
  obtain ⟨h1, h2, h3, h4, h5, h6⟩ := h
  unfold increment_next_move Players.set Players.get
  by_cases ha : active = 0
  · simp only [if_pos ha]
    exact ⟨h1, h2, wrap32_isInt32 _, h4, h5, h6⟩
  · simp only [if_neg ha]
    exact ⟨h1, h2, h3, h4, h5, wrap32_isInt32 _⟩

theorem increments_genSeeded (game : GameProperties) (ps : Players) (active : Int)
    (h : GenSeeded game.width ps) :
    ∀ k : Nat, GenSeeded game.width (increments game ps active k) := by
  intro k
  induction k with
  | zero => exact h
  | succ k ih => exact increment_genSeeded game _ active ih

theorem run_game_turn_increments {fuel : Nat} {s s1 : GameState} {input rest : List InputLine}
    {x y : Int} {files : List (List Char)}
    (h : run_game_turn fuel s input = some (Turn.played s1 x y rest files)) :
    ∃ k : Nat, s1 = apply_move s.game
      (increments s.game s.players (next_active s.players) k) (next_active s.players) x y := by
  by_cases hc : (s.players.get (next_active s.players)).type = COMPUTER
  · obtain ⟨ps1, hfound, _, _, hs1⟩ := run_game_turn_computer hc h
    obtain ⟨d, _, he, _⟩ :=
      search_move_found_steps s.game (next_active s.players) fuel s.players ps1 hfound
    refine ⟨d + 1, ?_⟩
    rw [hs1, he]
    rfl
  · unfold run_game_turn at h
    split at h
    · cases h
    · cases h
    · split at h
      · cases h
      · cases h
      · rw [if_neg hc] at h
        split at h
        · cases h
        · cases h
          exact ⟨0, rfl⟩

theorem turn_seeded {fuel : Nat} {s s1 : GameState} {input rest : List InputLine}
    {x y : Int} {files : List (List Char)} (hs : Seeded s)
    (h : run_game_turn fuel s input = some (Turn.played s1 x y rest files)) : Seeded s1 := by
  obtain ⟨k, rfl⟩ := run_game_turn_increments h
  obtain ⟨h1, h2, h3, h4, hg⟩ := hs
  obtain ⟨g1, g2, g3, g4, g5, g6⟩ :=
    increments_genSeeded s.game s.players (next_active s.players) hg k
  refine ⟨h1, h2, h3, h4, ?_⟩
  unfold apply_move Players.set Players.get GenSeeded
  by_cases ha : next_active s.players = 0
  · simp only [if_pos ha]
    exact ⟨g1, g2, g3, g4, g5, g6⟩
  · simp only [if_neg ha]
    exact ⟨g1, g2, g3, g4, g5, g6⟩

theorem started_run_seeded (s0 : GameState) (hstart : Started s0) :
    ∀ (n : Nat) (s : GameState), ReachedIn s0 n s → Seeded s := by
  intro n s hr
  induction hr with
  | start => exact started_seeded s0 hstart
  | turn fuel input _ hturn ih => exact turn_seeded ih hturn

theorem published_eq {v : MoveAlgorithm} {r c : Int} (h : published v = (r, c)) :
    v.nextX = r ∧ v.nextY = c :=
  ⟨(Prod.mk.inj h).1, (Prod.mk.inj h).2⟩

/-- On a board with height at most 1000 and width within [4,1000], for each player's
seeds and every cell `(r, c)` of the board, the generator started by `initialise_player`
publishes `(r, c)` after some number `m` of steps with `1 ≤ m ≤ 5 * 1000003`. -/
theorem generator_reaches_every_cell (game : GameProperties)
    (hh : game.height ≤ 1000) (hw4 : 4 ≤ game.width) (hw : game.width ≤ 1000)
    (r c : Int) (hin : inBounds game r c) :
    ∀ ir ic f : Int, isSeed ir ic f →
      ∃ m : Nat, 1 ≤ m ∧ m ≤ 5 * 1000003
        ∧ published (steps game (initial_variables game ir ic f) m) = (r, c) := by
  intro ir ic f hseed
  exact fresh_hits game ir ic f hseed hh hw4 hw r c hin

/-- The generator of player A reaches the corner cell (3,3) of the 4x4 board. -/
theorem generator_reaches_every_cell_witness :
    ∃ m : Nat, 1 ≤ m ∧ m ≤ 5 * 1000003
      ∧ published (steps (initialise_grid 4 4)
          (initial_variables (initialise_grid 4 4) 1 4 29) m) = (3, 3) :=
  generator_reaches_every_cell (initialise_grid 4 4) (by decide) (by decide) (by decide)
    3 3 (by decide) 1 4 29 (Or.inl ⟨rfl, rfl, rfl⟩)

/-! ### The liberty check within a group, and the board it leaves -/

theorem sameGroup_symm (game : GameProperties) {p q : Int × Int}
    (hp : inBounds game p.1 p.2) (h : sameGroup game p q) : sameGroup game q p := by
  induction h with
  | refl => exact Relation.ReflTransGen.refl
  | @tail a b hpa hl ih =>
    have ha : inBounds game a.1 a.2 := sameGroup_inBounds game hp hpa
    exact Relation.ReflTransGen.head ⟨orthogonal_symm hl.1, ha, hl.2.2.symm⟩ ih

theorem check_offset_store_eq (game : GameProperties)
    (recS : Store → Int → Int → Option Store) (rec : Scan → Int → Int → Option Scan)
    (hrec : ∀ sc r c, recS (sc, game) r c = (rec sc r c).map (fun s => (s, game)))
    (row col : Int) (sc : Scan) (ij : Int × Int) :
    check_offset_store recS row col (sc, game) ij
      = (check_offset game rec row col sc ij).map (fun s => (s, game)) := by
  unfold check_offset_store check_offset
  dsimp only
  split_ifs <;> first | rfl | exact hrec _ _ _

theorem scan_offsets_store_eq (game : GameProperties)
    (bodyS : Store → Int × Int → Option Store) (body : Scan → Int × Int → Option Scan)
    (hbody : ∀ sc ij, bodyS (sc, game) ij = (body sc ij).map (fun s => (s, game))) :
    ∀ (L : List (Int × Int)) (sc : Scan),
      scan_offsets_store bodyS L (sc, game)
        = (scan_offsets body L sc).map (fun s => (s, game)) := by
  intro L
  induction L with
  | nil => intro sc; rfl
  | cons ij L ih =>
    intro sc
    show (match bodyS (sc, game) ij with
      | none => none
      | some st1 => scan_offsets_store bodyS L st1)
      = (match body sc ij with
        | none => none
        | some st1 => scan_offsets body L st1).map (fun s => (s, game))
    rw [hbody sc ij]
    cases body sc ij with
    | none => rfl
    | some sc1 => exact ih sc1

theorem adjacent_space_check_store_eq (game : GameProperties) :
    ∀ (fuel : Nat) (sc : Scan) (row col : Int),
      adjacent_space_check_store fuel (sc, game) row col
        = (adjacent_space_check game fuel sc row col).map (fun s => (s, game)) := by
  intro fuel
  induction fuel with
  | zero => intro sc row col; rfl
  | succ fuel ih =>
    intro sc row col
    unfold adjacent_space_check_store adjacent_space_check
    dsimp only
    by_cases h : sc.1 = true
    · rw [if_pos h, if_pos h]
      rfl
    · rw [if_neg h, if_neg h]
      exact scan_offsets_store_eq game _ _
        (check_offset_store_eq game _ _ ih row col) window _

theorem any_liberties_store_eq (game : GameProperties) (row col : Int) :
    any_liberties_store game row col
      = (any_liberties game row col).map (fun b => (b, game)) := by
  unfold any_liberties_store any_liberties
  rw [adjacent_space_check_store_eq]
  cases adjacent_space_check game (game.height.toNat * game.width.toNat)
    (false, fun _ _ => 'N') row col with
  | none => rfl
  | some st => rfl

/-- C22: for two cells `p`, `q` of one group (`p` on the board, `q` reached from `p`
through orthogonal neighbours of the same token), `any_liberties` returns, and returns
the same value at `p` and at `q`; and the call, in state-passing form, leaves the struct
`*game` with its board as it found it. -/
theorem any_liberties_same_in_group (game : GameProperties) (p q : Int × Int)
    (hp : inBounds game p.1 p.2) (hg : sameGroup game p q) :
    (∃ b : Bool, any_liberties game p.1 p.2 = some b ∧ any_liberties game q.1 q.2 = some b
      ∧ any_liberties_store game p.1 p.2 = some (b, game)
      ∧ any_liberties_store game q.1 q.2 = some (b, game))
    ∧ ∀ (row col : Int) (r : Bool × GameProperties),
        any_liberties_store game row col = some r →
          r.2 = game ∧ any_liberties game row col = some r.1 := by
  constructor
  · have hq : inBounds game q.1 q.2 := sameGroup_inBounds game hp hg
    obtain ⟨b, hb, hiff⟩ := any_liberties_spec game p.1 p.2 hp
    obtain ⟨b1, hb1, hiff1⟩ := any_liberties_spec game q.1 q.2 hq
    have hbb : b1 = b := by
      have h1 : groupHasLiberty game p.1 p.2 ↔ groupHasLiberty game q.1 q.2 :=
        ⟨fun h => groupHasLiberty_of_sameGroup game (sameGroup_symm game hp hg) h,
         fun h => groupHasLiberty_of_sameGroup game hg h⟩
      have h2 : b1 = true ↔ b = true := by rw [hiff1, hiff, h1]
      cases b <;> cases b1 <;> simp_all
    rw [hbb] at hb1
    refine ⟨b, hb, hb1, ?_, ?_⟩
    · rw [any_liberties_store_eq, hb]; rfl
    · rw [any_liberties_store_eq, hb1]; rfl
  · intro row col r h
    rw [any_liberties_store_eq] at h
    cases ha : any_liberties game row col with
    | none =>
      rw [ha] at h
      exact absurd h (by simp)
    | some b =>
      rw [ha] at h
      have : (b, game) = r := Option.some.inj h
      rw [← this]
      exact ⟨rfl, rfl⟩

/-- C22 on the snake `'O'` at (0,0), (0,1), (0,2) of `snake_board`: the query at either
end returns true and leaves the board as it was. -/
theorem any_liberties_same_in_group_witness :
    ∃ b : Bool, any_liberties snake_board 0 0 = some b ∧ any_liberties snake_board 0 2 = some b
      ∧ any_liberties_store snake_board 0 0 = some (b, snake_board)
      ∧ any_liberties_store snake_board 0 2 = some (b, snake_board) :=
  (any_liberties_same_in_group snake_board (0, 0) (0, 2) (by decide)
    (Relation.ReflTransGen.tail
      (Relation.ReflTransGen.tail Relation.ReflTransGen.refl
        (show link snake_board (0, 0) (0, 1) from
          ⟨Or.inl ⟨rfl, Or.inl rfl⟩, by decide, by decide⟩))
      (show link snake_board (0, 1) (0, 2) from
        ⟨Or.inl ⟨rfl, Or.inl rfl⟩, by decide, by decide⟩))).1

/-! ### The candidate as a function of the step count -/

theorem spec_step_rc (height width : Int) (v : MoveAlgorithm) :
    ((v.m + 1) % 5 = 0 →
        (spec_step height width v).r = (v.b + (v.m + 1) / 5 * v.f) % 1000003 / width
        ∧ (spec_step height width v).c = (v.b + (v.m + 1) / 5 * v.f) % 1000003 % width)
    ∧ ((v.m + 1) % 5 = 1 →
        (spec_step height width v).r = v.r + 1 ∧ (spec_step height width v).c = v.c + 1)
    ∧ ((v.m + 1) % 5 = 2 →
        (spec_step height width v).r = v.r + 2 ∧ (spec_step height width v).c = v.c + 1)
    ∧ ((v.m + 1) % 5 = 3 →
        (spec_step height width v).r = v.r + 1 ∧ (spec_step height width v).c = v.c + 0)
    ∧ ((v.m + 1) % 5 = 4 →
        (spec_step height width v).r = v.r + 0 ∧ (spec_step height width v).c = v.c + 1) := by
  refine ⟨?_, ?_, ?_, ?_, ?_⟩ <;> intro hk <;> simp [spec_step, hk]

theorem steps_succ_spec (game : GameProperties) (ir ic f : Int) (hseed : isSeed ir ic f)
    (hh4 : 4 ≤ game.height) (hw4 : 4 ≤ game.width) (hw : game.width ≤ 1000) (M : Nat)
    (hov : ir * game.width + ic + (((M + 1 : Nat) : Int) / 5) * f ≤ 2147483647) :
    steps game (initial_variables game ir ic f) (M + 1)
        = spec_step game.height game.width (steps game (initial_variables game ir ic f) M)
    ∧ (steps game (initial_variables game ir ic f) M).m = (M : Int)
    ∧ (steps game (initial_variables game ir ic f) M).b = ir * game.width + ic
    ∧ (steps game (initial_variables game ir ic f) M).f = f := by
  have hf : f = 29 ∨ f = 17 := by
    rcases hseed with ⟨_, _, h⟩ | ⟨_, _, h⟩
    · exact Or.inl h
    · exact Or.inr h
  have hbr : 0 ≤ ir * game.width + ic := by
    rcases hseed with ⟨rfl, rfl, _⟩ | ⟨rfl, rfl, _⟩ <;> omega
  have hcast : ((M + 1 : Nat) : Int) = (M : Int) + 1 := by push_cast; rfl
  rw [hcast] at hov
  have hM0 : (0 : Int) ≤ M := Int.ofNat_nonneg M
  have hovM : ir * game.width + ic + ((M : Int) / 5) * f ≤ 2147483647 := by
    rcases hf with rfl | rfl <;> omega
  have hM1 : (M : Int) + 1 ≤ 2147483647 := by
    rcases hf with rfl | rfl <;> omega
  obtain ⟨em, eb, ef, hr0, hr1, hc0, hc1⟩ := steps_GenInv game ir ic f hseed hh4 hw4 hw M hovM
  refine ⟨?_, em, eb, ef⟩
  show next_move game (steps game (initial_variables game ir ic f) M) = _
  apply next_move_eq_spec_step game _ (by omega) (by omega)
  · rw [em]; exact hM0
  · rw [em]; exact hM1
  · rw [eb]; exact hbr
  · rw [ef]; rcases hf with rfl | rfl <;> decide
  · rw [eb, ef, em]; exact hov
  · exact hr0
  · omega
  · exact hc0
  · omega

theorem cursor_step (game : GameProperties) (ir ic f : Int) (hseed : isSeed ir ic f)
    (hh4 : 4 ≤ game.height) (hw4 : 4 ≤ game.width) (hw : game.width ≤ 1000) (M : Nat)
    (hov : ir * game.width + ic + (((M + 1 : Nat) : Int) / 5) * f ≤ 2147483647)
    (hprev : (M + 1) % 5 ≠ 0 →
      (steps game (initial_variables game ir ic f) M).r
          = (ir * game.width + ic + ((M : Int) / 5) * f) % 1000003 / game.width
            + DR.getD (M % 5) 0
      ∧ (steps game (initial_variables game ir ic f) M).c
          = (ir * game.width + ic + ((M : Int) / 5) * f) % 1000003 % game.width
            + DC.getD (M % 5) 0) :
    (steps game (initial_variables game ir ic f) (M + 1)).r
        = (ir * game.width + ic + (((M + 1 : Nat) : Int) / 5) * f) % 1000003 / game.width
          + DR.getD ((M + 1) % 5) 0
    ∧ (steps game (initial_variables game ir ic f) (M + 1)).c
        = (ir * game.width + ic + (((M + 1 : Nat) : Int) / 5) * f) % 1000003 % game.width
          + DC.getD ((M + 1) % 5) 0 := by
  obtain ⟨estep, em, eb, ef⟩ := steps_succ_spec game ir ic f hseed hh4 hw4 hw M hov
  obtain ⟨s0, s1, s2, s3, s4⟩ :=
    spec_step_rc game.height game.width (steps game (initial_variables game ir ic f) M)
  rw [em, eb, ef] at s0
  rw [em] at s1 s2 s3 s4
  have hcast : ((M + 1 : Nat) : Int) = (M : Int) + 1 := by push_cast; rfl
  rw [estep, hcast]
  have hk : (M + 1) % 5 = 0 ∨ (M + 1) % 5 = 1 ∨ (M + 1) % 5 = 2 ∨ (M + 1) % 5 = 3
      ∨ (M + 1) % 5 = 4 := by omega
  rcases hk with hk | hk | hk | hk | hk
  · obtain ⟨er, ec⟩ := s0 (by omega)
    rw [er, ec, hk]
    exact ⟨(add_zero _).symm, (add_zero _).symm⟩
  · obtain ⟨er, ec⟩ := s1 (by omega)
    obtain ⟨pr, pc⟩ := hprev (by omega)
    have hdiv : ((M : Int) + 1) / 5 = (M : Int) / 5 := by omega
    have hk0 : M % 5 = 0 := by omega
    rw [er, ec, pr, pc, hk, hk0, hdiv]
    constructor <;> simp [DR, DC]
  · obtain ⟨er, ec⟩ := s2 (by omega)
    obtain ⟨pr, pc⟩ := hprev (by omega)
    have hdiv : ((M : Int) + 1) / 5 = (M : Int) / 5 := by omega
    have hk0 : M % 5 = 1 := by omega
    rw [er, ec, pr, pc, hk, hk0, hdiv]
    constructor <;> simp [DR, DC] <;> ring
  · obtain ⟨er, ec⟩ := s3 (by omega)
    obtain ⟨pr, pc⟩ := hprev (by omega)
    have hdiv : ((M : Int) + 1) / 5 = (M : Int) / 5 := by omega
    have hk0 : M % 5 = 2 := by omega
    rw [er, ec, pr, pc, hk, hk0, hdiv]
    constructor <;> simp [DR, DC]
    ring
  · obtain ⟨er, ec⟩ := s4 (by omega)
    obtain ⟨pr, pc⟩ := hprev (by omega)
    have hdiv : ((M : Int) + 1) / 5 = (M : Int) / 5 := by omega
    have hk0 : M % 5 = 3 := by omega
    rw [er, ec, pr, pc, hk, hk0, hdiv]
    constructor <;> simp [DR, DC]
    ring

theorem cursor_closed_form (game : GameProperties) (ir ic f : Int) (hseed : isSeed ir ic f)
    (hh4 : 4 ≤ game.height) (hw4 : 4 ≤ game.width) (hw : game.width ≤ 1000) :
    ∀ M : Nat, 4 ≤ M →
      ir * game.width + ic + (((M + 1 : Nat) : Int) / 5) * f ≤ 2147483647 →
      (steps game (initial_variables game ir ic f) (M + 1)).r
          = (ir * game.width + ic + (((M + 1 : Nat) : Int) / 5) * f) % 1000003 / game.width
            + DR.getD ((M + 1) % 5) 0
      ∧ (steps game (initial_variables game ir ic f) (M + 1)).c
          = (ir * game.width + ic + (((M + 1 : Nat) : Int) / 5) * f) % 1000003 % game.width
            + DC.getD ((M + 1) % 5) 0 := by
  have hf : f = 29 ∨ f = 17 := by
    rcases hseed with ⟨_, _, h⟩ | ⟨_, _, h⟩
    · exact Or.inl h
    · exact Or.inr h
  intro M
  induction M with
  | zero => intro h; omega
  | succ M ih =>
    intro hM hov
    apply cursor_step game ir ic f hseed hh4 hw4 hw (M + 1) hov
    intro hk
    apply ih (by omega)
    have h1 : ((M + 1 + 1 : Nat) : Int) = (M : Int) + 2 := by push_cast; ring
    have h2 : ((M + 1 : Nat) : Int) = (M : Int) + 1 := by push_cast; rfl
    rw [h1] at hov
    rw [h2]
    have hM0 : (0 : Int) ≤ M := Int.ofNat_nonneg M
    rcases hf with rfl | rfl <;> omega

theorem slack_values :
    slack_r 0 = 4 ∧ slack_r 1 = 3 ∧ slack_r 2 = 1 ∧ slack_r 3 = 0 ∧ slack_r 4 = 0
    ∧ slack_c 0 = 3 ∧ slack_c 1 = 2 ∧ slack_c 2 = 1 ∧ slack_c 3 = 1 ∧ slack_c 4 = 0 := by
  decide

theorem next_n_eq (v : MoveAlgorithm) (hm : 0 ≤ v.m) (hm1 : v.m + 1 ≤ 2147483647)
    (hb : 0 ≤ v.b) (hf : 0 ≤ v.f) (hn : v.b + ((v.m + 1) / 5) * v.f ≤ 2147483647) :
    next_m v = v.m + 1 ∧ next_n v = (v.b + (v.m + 1) / 5 * v.f) % 1000003 := by
  have hq : 0 ≤ (v.m + 1) / 5 := Int.ediv_nonneg (by omega) (by norm_num)
  have hqf : 0 ≤ (v.m + 1) / 5 * v.f := mul_nonneg hq hf
  have e1 : next_m v = v.m + 1 := wrap32_of_isInt32 ⟨by omega, by omega⟩
  refine ⟨e1, ?_⟩
  unfold next_n
  rw [e1, tdiv_nonneg_eq (by omega) (by norm_num),
    wrap32_of_isInt32 (x := (v.m + 1) / 5 * v.f) ⟨by omega, by omega⟩,
    wrap32_of_isInt32 (x := v.b + (v.m + 1) / 5 * v.f) ⟨by omega, by omega⟩,
    tmod_nonneg_eq (by omega) (by norm_num)]

theorem next_move_cursor (game : GameProperties) (v : MoveAlgorithm) (hw : 0 < game.width)
    (hm : 0 ≤ v.m) (hm1 : v.m + 1 ≤ 2147483647)
    (hb : 0 ≤ v.b) (hf : 0 ≤ v.f) (hn : v.b + ((v.m + 1) / 5) * v.f ≤ 2147483647)
    (hr0 : 0 ≤ v.r) (hc0 : 0 ≤ v.c)
    (hr : v.r + slack_r (v.m % 5) ≤ 2147483647)
    (hc : v.c + slack_c (v.m % 5) ≤ 2147483647) :
    ((v.m + 1) % 5 = 0 →
        (next_move game v).r = (v.b + (v.m + 1) / 5 * v.f) % 1000003 / game.width
        ∧ (next_move game v).c = (v.b + (v.m + 1) / 5 * v.f) % 1000003 % game.width)
    ∧ ((v.m + 1) % 5 = 1 → (next_move game v).r = v.r + 1 ∧ (next_move game v).c = v.c + 1)
    ∧ ((v.m + 1) % 5 = 2 → (next_move game v).r = v.r + 2 ∧ (next_move game v).c = v.c + 1)
    ∧ ((v.m + 1) % 5 = 3 → (next_move game v).r = v.r + 1 ∧ (next_move game v).c = v.c)
    ∧ ((v.m + 1) % 5 = 4 → (next_move game v).r = v.r ∧ (next_move game v).c = v.c + 1) := by
  obtain ⟨e1, e2⟩ := next_n_eq v hm hm1 hb hf hn
  have hn0 : 0 ≤ (v.b + (v.m + 1) / 5 * v.f) % 1000003 := Int.emod_nonneg _ (by norm_num)
  have et : Int.tmod (v.m + 1) 5 = (v.m + 1) % 5 := tmod_nonneg_eq (by omega) (by norm_num)
  obtain ⟨a0, a1, a2, a3, a4, b0, b1, b2, b3, b4⟩ := slack_values
  have hrc := next_move_rc game v
  rw [e1, e2, et] at hrc
  refine ⟨?_, ?_, ?_, ?_, ?_⟩
  · intro hk
    rcases hrc with ⟨_, h1, h2⟩ | ⟨h, _⟩ | ⟨h, _⟩ | ⟨h, _⟩ | ⟨h, _⟩ | ⟨⟨h, _⟩, _⟩
    · rw [h1, h2]
      exact ⟨tdiv_nonneg_eq hn0 hw.le, tmod_nonneg_eq hn0 hw.le⟩
    all_goals omega
  · intro hk
    have hk0 : v.m % 5 = 0 := by omega
    rw [hk0, a0] at hr
    rw [hk0, b0] at hc
    rcases hrc with ⟨h, _⟩ | ⟨_, h1, h2⟩ | ⟨h, _⟩ | ⟨h, _⟩ | ⟨h, _⟩ | ⟨⟨h, _⟩, _⟩
    · omega
    · rw [h1, h2]
      exact ⟨wrap32_of_isInt32 ⟨by omega, by omega⟩, wrap32_of_isInt32 ⟨by omega, by omega⟩⟩
    all_goals omega
  · intro hk
    have hk0 : v.m % 5 = 1 := by omega
    rw [hk0, a1] at hr
    rw [hk0, b1] at hc
    rcases hrc with ⟨h, _⟩ | ⟨h, _⟩ | ⟨_, h1, h2⟩ | ⟨h, _⟩ | ⟨h, _⟩ | ⟨⟨h, _⟩, _⟩
    · omega
    · omega
    · rw [h1, h2]
      exact ⟨wrap32_of_isInt32 ⟨by omega, by omega⟩, wrap32_of_isInt32 ⟨by omega, by omega⟩⟩
    all_goals omega
  · intro hk
    have hk0 : v.m % 5 = 2 := by omega
    rw [hk0, a2] at hr
    rw [hk0, b2] at hc
    rcases hrc with ⟨h, _⟩ | ⟨h, _⟩ | ⟨h, _⟩ | ⟨_, h1, h2⟩ | ⟨h, _⟩ | ⟨⟨h, _⟩, _⟩
    · omega
    · omega
    · omega
    · rw [h1, h2]
      refine ⟨wrap32_of_isInt32 ⟨by omega, by omega⟩, ?_⟩
      rw [wrap32_of_isInt32 ⟨by omega, by omega⟩]
      omega
    all_goals omega
  · intro hk
    have hk0 : v.m % 5 = 3 := by omega
    rw [hk0, a3] at hr
    rw [hk0, b3] at hc
    rcases hrc with ⟨h, _⟩ | ⟨h, _⟩ | ⟨h, _⟩ | ⟨h, _⟩ | ⟨_, h1, h2⟩ | ⟨⟨h, _⟩, _⟩
    · omega
    · omega
    · omega
    · omega
    · rw [h1, h2]
      refine ⟨?_, wrap32_of_isInt32 ⟨by omega, by omega⟩⟩
      rw [wrap32_of_isInt32 ⟨by omega, by omega⟩]
      omega
    · omega

theorem emod_add_congr {a a1 h : Int} (d : Int) (hc : a1 % h = a % h) :
    (a1 + d) % h = (a + d) % h := by
  rw [Int.add_emod a1, hc, ← Int.add_emod]

theorem congruent_published (game : GameProperties) (v v1 : MoveAlgorithm)
    (hh : 0 < game.height) (hw : 0 < game.width) (h : Congruent game v v1) :
    (Int.tmod v1.r game.height, Int.tmod v1.c game.width)
      = (Int.tmod v.r game.height, Int.tmod v.c game.width) := by
  obtain ⟨_, _, _, _, _, _, r0, r1, rc, c0, c1, cc, _⟩ := h
  rw [tmod_nonneg_eq r0 hh.le, tmod_nonneg_eq r1 hh.le, tmod_nonneg_eq c0 hw.le,
    tmod_nonneg_eq c1 hw.le, rc, cc]

theorem congruent_step (game : GameProperties) (v v1 : MoveAlgorithm)
    (hw : 0 < game.width) (hC : Congruent game v v1)
    (hm1 : v.m + 1 ≤ 2147483647) (hn : v.b + ((v.m + 1) / 5) * v.f ≤ 2147483647) :
    Congruent game (next_move game v) (next_move game v1) := by
  obtain ⟨em, eb, ef, hm, hb, hf, r0, r1, rc, c0, c1, cc, sr, sr1, sc, sc1⟩ := hC
  obtain ⟨p0, p1, p2, p3, p4⟩ := next_move_cursor game v hw hm hm1 hb hf hn r0 c0 sr sc
  obtain ⟨q0, q1, q2, q3, q4⟩ := next_move_cursor game v1 hw (by rw [em]; exact hm)
    (by rw [em]; exact hm1) (by rw [eb]; exact hb) (by rw [ef]; exact hf)
    (by rw [em, eb, ef]; exact hn) r1 c1 (by rw [em]; exact sr1) (by rw [em]; exact sc1)
  rw [em, eb, ef] at q0
  rw [em] at q1 q2 q3 q4
  obtain ⟨a0, a1, a2, a3, a4, b0, b1, b2, b3, b4⟩ := slack_values
  have hmv : (next_move game v).m = v.m + 1 := wrap32_of_isInt32 ⟨by omega, by omega⟩
  have hmv1 : (next_move game v1).m = v.m + 1 := by
    show wrap32 (v1.m + 1) = _
    rw [em]
    exact wrap32_of_isInt32 ⟨by omega, by omega⟩
  have hN0 : 0 ≤ (v.b + (v.m + 1) / 5 * v.f) % 1000003 := Int.emod_nonneg _ (by norm_num)
  have hN1 : (v.b + (v.m + 1) / 5 * v.f) % 1000003 < 1000003 :=
    Int.emod_lt_of_pos _ (by norm_num)
  have hk : (v.m + 1) % 5 = 0 ∨ (v.m + 1) % 5 = 1 ∨ (v.m + 1) % 5 = 2
      ∨ (v.m + 1) % 5 = 3 ∨ (v.m + 1) % 5 = 4 := by omega
  refine ⟨by rw [hmv, hmv1], eb, ef, by rw [hmv]; omega, hb, hf, ?_⟩
  rw [hmv]
  rcases hk with hk | hk | hk | hk | hk
  · obtain ⟨er, ec⟩ := p0 hk
    obtain ⟨er1, ec1⟩ := q0 hk
    have hd0 : 0 ≤ (v.b + (v.m + 1) / 5 * v.f) % 1000003 / game.width :=
      Int.ediv_nonneg hN0 hw.le
    have hd1 : (v.b + (v.m + 1) / 5 * v.f) % 1000003 / game.width
        ≤ (v.b + (v.m + 1) / 5 * v.f) % 1000003 := Int.ediv_le_self _ hN0
    have he0 : 0 ≤ (v.b + (v.m + 1) / 5 * v.f) % 1000003 % game.width :=
      Int.emod_nonneg _ hw.ne'
    have he1 : (v.b + (v.m + 1) / 5 * v.f) % 1000003 % game.width
        ≤ (v.b + (v.m + 1) / 5 * v.f) % 1000003 := by
      rw [Int.emod_def]
      have := mul_nonneg hw.le hd0
      omega
    rw [er, ec, er1, ec1, hk, a0, b0]
    exact ⟨hd0, hd0, rfl, he0, he0, rfl, by omega, by omega, by omega, by omega⟩
  · obtain ⟨er, ec⟩ := p1 hk
    obtain ⟨er1, ec1⟩ := q1 hk
    have hk0 : v.m % 5 = 0 := by omega
    rw [hk0, a0] at sr sr1
    rw [hk0, b0] at sc sc1
    rw [er, ec, er1, ec1, hk, a1, b1]
    exact ⟨by omega, by omega, emod_add_congr 1 rc, by omega, by omega,
      emod_add_congr 1 cc, by omega, by omega, by omega, by omega⟩
  · obtain ⟨er, ec⟩ := p2 hk
    obtain ⟨er1, ec1⟩ := q2 hk
    have hk0 : v.m % 5 = 1 := by omega
    rw [hk0, a1] at sr sr1
    rw [hk0, b1] at sc sc1
    rw [er, ec, er1, ec1, hk, a2, b2]
    exact ⟨by omega, by omega, emod_add_congr 2 rc, by omega, by omega,
      emod_add_congr 1 cc, by omega, by omega, by omega, by omega⟩
  · obtain ⟨er, ec⟩ := p3 hk
    obtain ⟨er1, ec1⟩ := q3 hk
    have hk0 : v.m % 5 = 2 := by omega
    rw [hk0, a2] at sr sr1
    rw [hk0, b2] at sc sc1
    rw [er, ec, er1, ec1, hk, a3, b3]
    exact ⟨by omega, by omega, emod_add_congr 1 rc, by omega, by omega,
      cc, by omega, by omega, by omega, by omega⟩
  · obtain ⟨er, ec⟩ := p4 hk
    obtain ⟨er1, ec1⟩ := q4 hk
    have hk0 : v.m % 5 = 3 := by omega
    rw [hk0, a3] at sr sr1
    rw [hk0, b3] at sc sc1
    rw [er, ec, er1, ec1, hk, a4, b4]
    exact ⟨by omega, by omega, rc, by omega, by omega,
      emod_add_congr 1 cc, by omega, by omega, by omega, by omega⟩

theorem congruent_steps (game : GameProperties) (v v1 : MoveAlgorithm)
    (hw : 0 < game.width) (hC : Congruent game v v1) :
    ∀ N : Nat, v.m + N ≤ 2147483647 → v.b + ((v.m + N) / 5) * v.f ≤ 2147483647 →
      Congruent game (steps game v N) (steps game v1 N) := by
  have hC0 := hC
  obtain ⟨_, _, _, hm, hb, hf, _⟩ := hC0
  intro N
  induction N with
  | zero => intro _ _; exact hC
  | succ N ih =>
    intro h1 h2
    have hcast : ((N + 1 : Nat) : Int) = (N : Int) + 1 := by push_cast; rfl
    rw [hcast] at h1 h2
    have hN0 : (0 : Int) ≤ N := Int.ofNat_nonneg N
    have hmono : (v.m + N) / 5 * v.f ≤ (v.m + (N + 1)) / 5 * v.f :=
      mul_le_mul_of_nonneg_right (Int.ediv_le_ediv (by norm_num) (by omega)) hf
    have hprev := ih (by omega) (by omega)
    have em := steps_m game v N hm (by omega)
    show Congruent game (next_move game (steps game v N)) (next_move game (steps game v1 N))
    apply congruent_step game _ _ hw hprev
    · rw [em]; omega
    · rw [em, steps_b, steps_f]
      rw [show v.m + (N : Int) + 1 = v.m + ((N : Int) + 1) by ring]
      exact h2

theorem slack_bounds (k : Int) :
    0 ≤ slack_r k ∧ slack_r k ≤ 4 ∧ 0 ≤ slack_c k ∧ slack_c k ≤ 3 := by
  unfold slack_r slack_c
  split_ifs <;> omega

/-- C21 (as stated) fails in its last part: the accepted snapshot `large_cursor_snapshot`
restores for player A the counter 5 and the cursor (2147483645, 1), non-negative and
congruent modulo (4, 4) to the cursor (9, 1) of the generator after five steps; the next
candidates are (2,2), (0,3), (-3,3) where the generator itself publishes (2,2), (0,3),
(1,3), because the row addition leaves the range of `int`.  With the cursor row -3 of
`negative_cursor_snapshot`, also congruent to 9 modulo 4, the first next candidate is
already (-2,2). -/
theorem congruent_cursor_stream_differs :
    validate_load_file (some large_cursor_snapshot) = Checked.passes
    ∧ (load_saved_data large_cursor_snapshot zero_players 'c' 'h').map
        (fun r => (r.2.get 0).vars)
      = some (restore_variables (initial_variables (initialise_grid 4 4) 1 4 29)
          2147483645 1 5)
    ∧ (steps (initialise_grid 4 4) (initial_variables (initialise_grid 4 4) 1 4 29) 5).m = 5
    ∧ ((steps (initialise_grid 4 4) (initial_variables (initialise_grid 4 4) 1 4 29) 5).r,
       (steps (initialise_grid 4 4) (initial_variables (initialise_grid 4 4) 1 4 29) 5).c)
        = (9, 1)
    ∧ (2147483645 : Int) % 4 = 9 % 4 ∧ Int.tmod 2147483645 4 = Int.tmod 9 4
    ∧ [1, 2, 3].map (fun (N : Nat) => published (steps (initialise_grid 4 4)
          (steps (initialise_grid 4 4) (initial_variables (initialise_grid 4 4) 1 4 29) 5) N))
        = [(2, 2), (0, 3), (1, 3)]
    ∧ [1, 2, 3].map (fun (N : Nat) => published (steps (initialise_grid 4 4)
          (restore_variables (initial_variables (initialise_grid 4 4) 1 4 29)
            2147483645 1 5) N))
        = [(2, 2), (0, 3), (-3, 3)]
    ∧ validate_load_file (some negative_cursor_snapshot) = Checked.passes
    ∧ (load_saved_data negative_cursor_snapshot zero_players 'c' 'h').map
        (fun r => (r.2.get 0).vars)
      = some (restore_variables (initial_variables (initialise_grid 4 4) 1 4 29) (-3) 1 5)
    ∧ (-3 : Int) % 4 = 9 % 4
    ∧ published (steps (initialise_grid 4 4)
          (restore_variables (initial_variables (initialise_grid 4 4) 1 4 29) (-3) 1 5) 1)
        = (-2, 2) := by
  decide

/-- C21 (amended): on a board with dimensions within [4,1000], for either player's seeds
and every `m ≥ 5` with `b + (m / 5) * f` in the range of `int`, the candidate published
after `m` steps from the generator of `initialise_player` is `closed_form` at `m`:
`((n / width + DR[m mod 5]) mod height, (n mod width + DC[m mod 5]) mod width)` with
`n = (b + (m / 5) * f) mod 1000003`.  And a state of the same player with the same
counter `m` whose cursor is non-negative, congruent modulo (height, width) to the cursor
after `m` steps, and leaves room for the additions up to the next re-seed, publishes after
every `N ≥ 1` further steps in that range what the generator publishes after `m + N`. -/
theorem published_closed_form (game : GameProperties) (ir ic f : Int) (hseed : isSeed ir ic f)
    (hh4 : 4 ≤ game.height) (hw4 : 4 ≤ game.width) (hw : game.width ≤ 1000) :
    (∀ m : Nat, 5 ≤ m → ir * game.width + ic + ((m : Int) / 5) * f ≤ 2147483647 →
        published (steps game (initial_variables game ir ic f) m)
          = closed_form game (ir * game.width + ic) f m)
    ∧ (∀ (m N : Nat) (v1 : MoveAlgorithm), 1 ≤ N →
        ir * game.width + ic + (((m + N : Nat) : Int) / 5) * f ≤ 2147483647 →
        v1.m = (m : Int) → v1.b = ir * game.width + ic → v1.f = f →
        0 ≤ v1.r → v1.r + slack_r ((m : Int) % 5) ≤ 2147483647 →
        v1.r % game.height = (steps game (initial_variables game ir ic f) m).r % game.height →
        0 ≤ v1.c → v1.c + slack_c ((m : Int) % 5) ≤ 2147483647 →
        v1.c % game.width = (steps game (initial_variables game ir ic f) m).c % game.width →
        published (steps game v1 N)
          = published (steps game (initial_variables game ir ic f) (m + N))) := by
  have hf : f = 29 ∨ f = 17 := by
    rcases hseed with ⟨_, _, h⟩ | ⟨_, _, h⟩
    · exact Or.inl h
    · exact Or.inr h
  have hbr : 0 ≤ ir * game.width + ic := by
    rcases hseed with ⟨rfl, rfl, _⟩ | ⟨rfl, rfl, _⟩ <;> omega
  constructor
  · intro m hm hov
    obtain ⟨M, rfl⟩ : ∃ M, m = M + 1 := ⟨m - 1, by omega⟩
    obtain ⟨er, ec⟩ := cursor_closed_form game ir ic f hseed hh4 hw4 hw M (by omega) hov
    obtain ⟨_, _, _, hr0, _, hc0, _⟩ := steps_GenInv game ir ic f hseed hh4 hw4 hw (M + 1) hov
    show (Int.tmod (steps game (initial_variables game ir ic f) (M + 1)).r game.height,
        Int.tmod (steps game (initial_variables game ir ic f) (M + 1)).c game.width) = _
    rw [tmod_nonneg_eq hr0 (by omega), tmod_nonneg_eq hc0 (by omega), er, ec]
    rfl
  · intro m N v1 hN hov em eb ef r1 sr1 rc c1 sc1 cc
    have hcast : ((m + N : Nat) : Int) = (m : Int) + (N : Int) := by push_cast; rfl
    rw [hcast] at hov
    have hm0 : (0 : Int) ≤ m := Int.ofNat_nonneg m
    have hN0 : (0 : Int) ≤ N := Int.ofNat_nonneg N
    have hovm : ir * game.width + ic + ((m : Int) / 5) * f ≤ 2147483647 := by
      rcases hf with rfl | rfl <;> omega
    have hmN : (m : Int) + N ≤ 2147483647 := by
      rcases hf with rfl | rfl <;> omega
    obtain ⟨gm, gb, gf, hr0, hr1, hc0, hc1⟩ :=
      steps_GenInv game ir ic f hseed hh4 hw4 hw m hovm
    obtain ⟨s0, s1, s2, s3⟩ := slack_bounds ((m : Int) % 5)
    have hC : Congruent game (steps game (initial_variables game ir ic f) m) v1 := by
      refine ⟨by rw [em, gm], by rw [eb, gb], by rw [ef, gf], by rw [gm]; exact hm0,
        by rw [gb]; exact hbr, ?_, hr0, r1, rc, hc0, c1, cc, ?_, ?_, ?_, ?_⟩
      · rw [gf]
        rcases hf with rfl | rfl <;> decide
      · rw [gm]; omega
      · rw [gm]; exact sr1
      · rw [gm]; omega
      · rw [gm]; exact sc1
    have hCN := congruent_steps game _ v1 (by omega) hC N (by rw [gm]; exact hmN)
      (by rw [gm, gb, gf]; exact hov)
    rw [steps_add] at hCN
    obtain ⟨K, rfl⟩ : ∃ K, N = K + 1 := ⟨N - 1, by omega⟩
    exact congruent_published game _ _ (by omega) (by omega) hCN

/-- C21 (amended) on the 4x4 board for the seeds of player A: the candidate after seven
steps is the closed form at 7, the point (0,3). -/
theorem published_closed_form_witness :
    published (steps (initialise_grid 4 4) (initial_variables (initialise_grid 4 4) 1 4 29) 7)
        = closed_form (initialise_grid 4 4) (1 * (initialise_grid 4 4).width + 4) 29 7
    ∧ closed_form (initialise_grid 4 4) (1 * (initialise_grid 4 4).width + 4) 29 7 = (0, 3) :=
  ⟨(published_closed_form (initialise_grid 4 4) 1 4 29 (Or.inl ⟨rfl, rfl, rfl⟩) (by decide)
      (by decide) (by decide)).1 7 (by decide) (by decide), by decide⟩

/-! ### The header line of a snapshot -/

/-- C11 (the code at the failing input): `validate_load_file` accepts a snapshot whose
first line holds one integer, the other eight standing on the second line; no `%d`
conversion reads nine integers from that first line.  `load_saved_data` then builds from
it the game it builds from the snapshot with all nine integers on the first line.  The
end of the header line is tested all the same: a space between the ninth integer and
the newline is rejected with exit status 5. -/
theorem validate_load_file_accepts_split_header :
    validate_load_file (some split_header_snapshot) = Checked.passes
    ∧ split_header_snapshot.takeWhile (fun c => c ≠ '\n') = ['4']
    ∧ scan_ints 9 (split_header_snapshot.takeWhile (fun c => c ≠ '\n')) = none
    ∧ (scan_ints 9 split_header_snapshot).map (fun r => r.1) = some [4, 4, 0, 0, 0, 0, 0, 0, 0]
    ∧ (load_saved_data split_header_snapshot zero_players 'h' 'h').map
          (fun r => (r.1.height, r.1.width, next_active r.2, grid_rows r.1))
        = (load_saved_data one_line_snapshot zero_players 'h' 'h').map
          (fun r => (r.1.height, r.1.width, next_active r.2, grid_rows r.1))
    ∧ (load_saved_data split_header_snapshot zero_players 'h' 'h').map
          (fun r => (r.1.height, r.1.width, next_active r.2))
        = some (4, 4, 0)
    ∧ validate_load_file (some one_line_snapshot) = Checked.passes
    ∧ validate_load_file (some spaced_header_snapshot) = Checked.exits 5 := by
  decide

/-! ### The search loop on a loaded cursor -/

theorem search_finds_after_steps (game : GameProperties) (ir ic f : Int)
    (hseed : isSeed ir ic f) (hh4 : 4 ≤ game.height) (hh : game.height ≤ 1000)
    (hw4 : 4 ≤ game.width) (hw : game.width ≤ 1000) (r c : Int) (hin : inBounds game r c)
    (hdot : game.gameGrid r c = '.') (players : Players) (active : Int) (N : Nat)
    (hv : (players.get active).vars = steps game (initial_variables game ir ic f) N)
    (hov : ir * game.width + ic + ((N : Int) / 5 + 1000003) * f ≤ 2147483647) :
    ∃ (fuel : Nat) (ps1 : Players), fuel ≤ 5 * 1000003 + 1
      ∧ search_move game active fuel players = Search.found ps1 := by
  obtain ⟨j, hj, hpub, hov1⟩ := window_hit game ir ic f hseed hh hw4 hw r c hin N hov
  obtain ⟨hx, hy⟩ := published_eq hpub
  have hf : f = 29 ∨ f = 17 := by
    rcases hseed with ⟨_, _, h⟩ | ⟨_, _, h⟩
    · exact Or.inl h
    · exact Or.inr h
  obtain ⟨ps1, hfound⟩ := search_move_finds game active (j + 1) players (by
      intro k hk
      rw [increments_vars, hv, steps_add]
      apply steps_on_board game ir ic f hseed hh4 hw4 hw (N + k)
      rcases hf with rfl | rfl <;> omega) (by
      rw [increments_vars, hv, steps_add, hx, hy]
      exact hdot)
  exact ⟨j + 1 + 1, ps1, by omega, hfound⟩

theorem increments_other (game : GameProperties) (ps : Players) :
    ∀ k : Nat, (increments game ps 0 k).p1 = ps.p1 ∧ (increments game ps 1 k).p0 = ps.p0 := by
  intro k
  induction k with
  | zero => exact ⟨rfl, rfl⟩
  | succ k ih => exact ih

theorem initial_variables_dims (game game1 : GameProperties)
    (hh : game1.height = game.height) (hw : game1.width = game.width) (ir ic f : Int) :
    initial_variables game1 ir ic f = initial_variables game ir ic f := by
  unfold initial_variables
  rw [hh, hw]

theorem fresh_run_generators (height width : Int) (ps : Players) (a1 a2 : Char) :
    ∀ (n : Nat) (s : GameState), ReachedIn (fresh_state height width ps a1 a2) n s →
      s.game.height = height ∧ s.game.width = width
      ∧ ∃ N0 N1 : Nat,
          s.players.p0.vars = steps s.game (initial_variables s.game 1 4 29) N0
          ∧ s.players.p1.vars = steps s.game (initial_variables s.game 2 10 17) N1 := by
  intro n s hr
  induction hr with
  | start => exact ⟨rfl, rfl, 0, 0, rfl, rfl⟩
  | @turn n s s1 fuel input rest x y files _ hturn ih =>
    obtain ⟨hH, hW, N0, N1, e0, e1⟩ := ih
    obtain ⟨k, rfl⟩ := run_game_turn_increments hturn
    have hg : ∀ (g1 : GameProperties), g1.height = s.game.height → g1.width = s.game.width →
        ∀ (ir ic f : Int) (M : Nat),
          steps g1 (initial_variables g1 ir ic f) M
            = steps s.game (initial_variables s.game ir ic f) M := by
      intro g1 h1 h2 ir ic f M
      rw [initial_variables_dims s.game g1 h1 h2, steps_dims s.game g1 h1 h2]
    refine ⟨hH, hW, ?_⟩
    rcases next_active_cases s.players with ha | ha
    · rw [ha]
      refine ⟨N0 + k, N1, ?_, ?_⟩
      · rw [hg (apply_move s.game (increments s.game s.players 0 k) 0 x y).game rfl rfl]
        have h1 := apply_move_vars s.game (increments s.game s.players 0 k) 0 x y
        have h2 := increments_vars s.game s.players 0 k
        have h3 : (s.players.get 0).vars = s.players.p0.vars := rfl
        rw [h2, h3, e0, steps_add] at h1
        exact h1
      · rw [hg (apply_move s.game (increments s.game s.players 0 k) 0 x y).game rfl rfl]
        show (increments s.game s.players 0 k).p1.vars = _
        rw [(increments_other s.game s.players k).1]
        exact e1
    · rw [ha]
      refine ⟨N0, N1 + k, ?_, ?_⟩
      · rw [hg (apply_move s.game (increments s.game s.players 1 k) 1 x y).game rfl rfl]
        show (increments s.game s.players 1 k).p0.vars = _
        rw [(increments_other s.game s.players k).2]
        exact e0
      · rw [hg (apply_move s.game (increments s.game s.players 1 k) 1 x y).game rfl rfl]
        have h1 := apply_move_vars s.game (increments s.game s.players 1 k) 1 x y
        have h2 := increments_vars s.game s.players 1 k
        have h3 : (s.players.get 1).vars = s.players.p1.vars := rfl
        rw [h2, h3, e1, steps_add] at h1
        exact h1

/-- In a game started on an empty board with dimensions within [4,1000], the generator
of the player to move is some number `N` of steps away from `initialise_player`; when
`b + (N / 5 + 1000003) * f` is in the range of `int` and the board has an Empty cell, the
search loop of a computer turn ends within `5 * 1000003 + 1` passes with an Empty
candidate on the board. -/
theorem search_loop_finds_in_new_game (height width : Int) (ps : Players) (a1 a2 : Char)
    (hh4 : 4 ≤ height) (hh : height ≤ 1000) (hw4 : 4 ≤ width) (hw : width ≤ 1000)
    (n : Nat) (s : GameState) (hr : ReachedIn (fresh_state height width ps a1 a2) n s)
    (r c : Int) (hin : inBounds s.game r c) (hdot : s.game.gameGrid r c = '.') :
    ∃ (ir ic f : Int) (N : Nat), isSeed ir ic f
      ∧ (s.players.get (next_active s.players)).vars
          = steps s.game (initial_variables s.game ir ic f) N
      ∧ (ir * s.game.width + ic + ((N : Int) / 5 + 1000003) * f ≤ 2147483647 →
          ∃ (fuel : Nat) (ps1 : Players), fuel ≤ 5 * 1000003 + 1
            ∧ search_move s.game (next_active s.players) fuel s.players
                = Search.found ps1) := by
  obtain ⟨hH, hW, N0, N1, e0, e1⟩ := fresh_run_generators height width ps a1 a2 n s hr
  rcases next_active_cases s.players with ha | ha
  · rw [ha]
    refine ⟨1, 4, 29, N0, Or.inl ⟨rfl, rfl, rfl⟩, e0, fun hov => ?_⟩
    exact search_finds_after_steps s.game 1 4 29 (Or.inl ⟨rfl, rfl, rfl⟩) (by omega)
      (by omega) (by omega) (by omega) r c hin hdot s.players 0 N0 e0 hov
  · rw [ha]
    refine ⟨2, 10, 17, N1, Or.inr ⟨rfl, rfl, rfl⟩, e1, fun hov => ?_⟩
    exact search_finds_after_steps s.game 2 10 17 (Or.inr ⟨rfl, rfl, rfl⟩) (by omega)
      (by omega) (by omega) (by omega) r c hin hdot s.players 1 N1 e1 hov

end AtariGo
